import Mathlib

/-!
# Shipping-Solar-Optimizer: routing engine

A shallow embedding of `src/utils/distanceCalculator.js` and
`src/utils/optimizationAlgorithms.js`.

JavaScript numbers are read as elements of an ordered field `α` with a floor
function (`ℚ` when the model is run, `ℝ` for the exact reading); the functions
of the `Math` object that the engine calls are collected in `JsMath α`.
The value `Infinity`, which the code only uses as the initial value of a running
minimum, is `none : Option α`.  An optional record field is an `Option`.
A `while` loop whose exit is not bounded by the code itself takes a fuel argument
and returns `none` when the fuel runs out before the loop condition fails.

The value `NaN` arises in the engine, on numbers, only in `calculateHaversineDistance`,
where `Math.sqrt` is applied to `a` and to `1 - a`: the result is `NaN` when the
haversine term `a` is below 0 or above 1, which rounded sines and cosines produce for
points that are nearly antipodal.  The model records this case with the test
`haversineIsNaN`; the comparison `distance < minDistance` of the scans that read a
distance is false for such a distance (`distanceLt`).  The number that
`calculateHaversineDistance` has in the model in this case carries no meaning.

The arithmetic operators are exact, with one exception.  In the recentring step of the
clustering the member of a cluster that is taken depends on which of two nearly equal
distances is the smaller one after rounding, so there the result of every operation goes
through `JsMath.fl`, the rounding of a number to a double, and `Math.pow` is a member of
`JsMath` as the other functions of `Math` are.
-/

namespace ShippingOptimizer

/-! ## Numbers -/

/-- The members of the JavaScript `Math` object used by the engine, and the rounding `fl` of
the result of an arithmetic operation to a double.  `Math.pow` is only called with the
exponent 2. -/
structure JsMath (α : Type) where
  sin : α → α
  cos : α → α
  sqrt : α → α
  atan2 : α → α → α
  PI : α
  pow : α → Nat → α
  fl : α → α

variable {α : Type} [LinearOrderedField α] [FloorRing α]

/-- The expression `x || d` for a possibly absent number `x`: an absent value, and the
number 0, are falsy and give `d`. -/
def orDefault (x : Option α) (d : α) : α :=
  match x with
  | none => d
  | some v => if v = 0 then d else v

/-- The comparison `d < m` where `m` is a running minimum that starts at `Infinity`. -/
def ltMin (d : α) (m : Option α) : Bool :=
  match m with
  | none => true
  | some v => decide (d < v)

/-- Truncation towards zero, as a number. -/
def trunc (x : α) : α :=
  if 0 ≤ x then ((⌊x⌋ : ℤ) : α) else ((⌈x⌉ : ℤ) : α)

/-- The remainder `x % y` of JavaScript numbers: `x - y * trunc (x / y)`, with the sign of `x`. -/
def jsMod (x y : α) : α :=
  x - y * trunc (x / y)

/-! ## Data model -/

structure Location (α : Type) where
  lat : α
  lng : α
  deriving DecidableEq

structure Demand (α : Type) where
  solar : Option α
  deriving DecidableEq

structure Charges (α : Type) where
  berthing : Option α
  deriving DecidableEq

structure Port (α : Type) where
  id : String
  location : Location α
  demand : Option (Demand α)
  charges : Option (Charges α)
  deriving DecidableEq

structure FuelConsumption (α : Type) where
  atSea : Option α
  deriving DecidableEq

structure Vessel (α : Type) where
  id : String
  capacity : α
  speed : α
  fuelConsumption : Option (FuelConsumption α)
  dailyOperatingCost : Option α
  crew : Option α
  deriving DecidableEq

/-- An entry `{ open, close }` of the `timeWindows` object. -/
structure TimeWindow (α : Type) where
  openAt : α
  closeAt : α

/-- The `timeWindows` object: a lookup by port id, `none` where the object has no entry. -/
abbrev TimeWindows (α : Type) := String → Option (TimeWindow α)

/-- The `constraints` record; `returnToStart` is the only key the engine reads. -/
structure Constraints where
  returnToStart : Bool

/-- The object returned by `solveTSPForCluster`. -/
structure Route (α : Type) where
  vessel : String
  route : List (Port α)
  distance : α
  time : α
  cost : α
  fuelConsumption : α
  deriving DecidableEq

/-- An element of the array returned by `assignVesselsToClusters`; `vessel` is `none` when the
array index it was read from is out of range (`undefined`). -/
structure Assignment (α : Type) where
  vessel : Option (Vessel α)
  cluster : List (Port α)
  clusterIndex : Nat
  deriving DecidableEq

/-- The object returned by `optimizeShippingRoutes`. -/
structure OptimizationResult (α : Type) where
  routes : List (Route α)
  totalCost : α
  vesselUtilization : α
  estimatedTime : α
  totalDistance : α
  deriving DecidableEq

/-- The argument object of `optimizeShippingRoutes`; a missing key is `none`.
The key `demands` is passed on to the clustering but never read. -/
structure OptimizationInput (α : Type) where
  vessels : Option (List (Vessel α))
  ports : Option (List (Port α))
  demands : Option (List α)
  timeWindows : Option (TimeWindows α)
  constraints : Option Constraints

/-! ## distanceCalculator.js -/

def toRad (M : JsMath α) (degrees : α) : α :=
  degrees * (M.PI / 180)

/-- The function `calculateHaversineDistance`; an argument that is not of type number is `none`. -/
def calculateHaversineDistance (M : JsMath α) (lat1 lon1 lat2 lon2 : Option α) : α :=
  match lat1, lon1, lat2, lon2 with
  | some lat1, some lon1, some lat2, some lon2 =>
    let R : α := 6371
    let dLat := toRad M (lat2 - lat1)
    let dLon := toRad M (lon2 - lon1)
    let a := M.sin (dLat / 2) * M.sin (dLat / 2)
      + M.cos (toRad M lat1) * M.cos (toRad M lat2) * M.sin (dLon / 2) * M.sin (dLon / 2)
    let c := 2 * M.atan2 (M.sqrt a) (M.sqrt (1 - a))
    let distanceKm := R * c
    distanceKm * (539957 / 1000000)
  | _, _, _, _ => 0

/-- The call `calculateHaversineDistance(p.location.lat, p.location.lng, q.location.lat,
q.location.lng)` as the clustering and the route solver write it. -/
def portDistance (M : JsMath α) (p q : Port α) : α :=
  calculateHaversineDistance M (some p.location.lat) (some p.location.lng)
    (some q.location.lat) (some q.location.lng)

/-- The body of the `for` loop of `calculateRouteDistance` at index `i`; the ports carry a
location, so the guard only asks that both array elements exist. -/
def addLeg (M : JsMath α) (ports : List (Port α)) (totalDistance : α) (i : Nat) : α :=
  match ports.get? i, ports.get? (i + 1) with
  | some port1, some port2 => totalDistance + portDistance M port1 port2
  | _, _ => totalDistance

/-- The function `calculateRouteDistance` of `distanceCalculator.js`. -/
def calculateRouteDistance (M : JsMath α) (ports : List (Port α)) : α :=
  if ports.length < 2 then 0
  else (List.range (ports.length - 1)).foldl (addLeg M ports) 0

/-- The value of the local `a` of `calculateHaversineDistance` (the haversine term). -/
def haversineTerm (M : JsMath α) (lat1 lon1 lat2 lon2 : α) : α :=
  M.sin (toRad M (lat2 - lat1) / 2) * M.sin (toRad M (lat2 - lat1) / 2)
    + M.cos (toRad M lat1) * M.cos (toRad M lat2) * M.sin (toRad M (lon2 - lon1) / 2)
      * M.sin (toRad M (lon2 - lon1) / 2)

/-- The value that `calculateHaversineDistance` returns when its local `a` has the value `a`:
the lines `c = 2 * Math.atan2(Math.sqrt(a), Math.sqrt(1 - a))`, `distanceKm = R * c` and
`return distanceKm * 0.539957`. -/
def distanceOfTerm (M : JsMath α) (a : α) : α :=
  6371 * (2 * M.atan2 (M.sqrt a) (M.sqrt (1 - a))) * (539957 / 1000000)

/-- The result of `calculateHaversineDistance` is `NaN`: the four arguments are numbers and the
haversine term `a` is below 0 or above 1, so that `Math.sqrt(a)` or `Math.sqrt(1 - a)` is
`NaN`, and with it `c`, `distanceKm` and the returned value. -/
def haversineIsNaN (M : JsMath α) (lat1 lon1 lat2 lon2 : Option α) : Bool :=
  match lat1, lon1, lat2, lon2 with
  | some lat1, some lon1, some lat2, some lon2 =>
    decide (haversineTerm M lat1 lon1 lat2 lon2 < 0 ∨ 1 < haversineTerm M lat1 lon1 lat2 lon2)
  | _, _, _, _ => false

/-- The distance that `portDistance` stands for is `NaN`. -/
def portDistanceIsNaN (M : JsMath α) (p q : Port α) : Bool :=
  haversineIsNaN M (some p.location.lat) (some p.location.lng)
    (some q.location.lat) (some q.location.lng)

/-- The comparison `distance < minDistance` of a scan, where `distance` is the value of
`calculateHaversineDistance` for the ports `p` and `q` and `minDistance` a running minimum that
starts at `Infinity`: a comparison with `NaN` is false. -/
def distanceLt (M : JsMath α) (p q : Port α) (minDistance : Option α) : Bool :=
  !portDistanceIsNaN M p q && ltMin (portDistance M p q) minDistance

/-! ## optimizationAlgorithms.js: helper functions -/

def calculateArrivalTime (distance speed : α) : α :=
  if speed ≤ 0 then 0
  else
    let travelHours := distance / speed
    jsMod travelHours 24

def calculateSinglePortCost (vessel : Vessel α) (port : Port α) : α :=
  let portCosts := orDefault (port.charges.bind (fun c => c.berthing)) 5000
  let operatingCost := orDefault vessel.dailyOperatingCost 10000
  let crewCost := orDefault (vessel.crew.map (fun c => c * 150)) 2250
  portCosts + operatingCost + crewCost

/-- The first argument of `calculateRouteCostForVessel`: `{ distance, time, ports }`. -/
structure RouteSummary (α : Type) where
  distance : α
  time : α
  ports : Nat

def calculateRouteCostForVessel (route : RouteSummary α) (vessel : Vessel α) : α :=
  let fuelCost := (route.time / 24)
    * orDefault (vessel.fuelConsumption.bind (fun f => f.atSea)) 20 * 600
  let portCosts := (route.ports : α) * 5000
  let operatingCost := (route.time / 24) * orDefault vessel.dailyOperatingCost 10000
  let crewCost := (route.time / 24) * orDefault vessel.crew 15 * 150
  fuelCost + portCosts + operatingCost + crewCost

def calculateVesselUtilization (routes : List (Route α)) (vessels : List (Vessel α)) : α :=
  if vessels.length = 0 then 0
  else
    let totalCapacity := vessels.foldl (fun sum v => sum + orDefault (some v.capacity) 0) 0
    if totalCapacity = 0 then 0
    else
      let usedCapacity := routes.foldl (fun sum r =>
        let vessel := vessels.find? (fun v => decide (v.id = r.vessel))
        sum + (match vessel with
          | some v => orDefault (some v.capacity) 0
          | none => 0)) 0
      (usedCapacity / totalCapacity) * 100

def calculateTotalTime (routes : List (Route α)) : α :=
  routes.foldl (fun sum r => sum + orDefault (some r.time) 0) 0

/-! ## assignVesselsToClusters -/

/-- The method `Array.prototype.sort(compare)`: a stable sort that puts `a` before `b` when
`compare a b < 0` and keeps their order when `compare a b = 0`; an element is inserted in front
of the first later element that it does not have to follow. -/
def jsSort {β : Type} (compare : β → β → α) (l : List β) : List β :=
  l.insertionSort (fun a b => compare a b ≤ 0)

/-- An element of `clustersWithDemand`. -/
structure ClusterWithDemand (α : Type) where
  index : Nat
  cluster : List (Port α)
  totalDemand : α

/-- The inner `cluster.reduce` of `assignVesselsToClusters`. -/
def clusterDemand (cluster : List (Port α)) : α :=
  cluster.foldl (fun sum port => sum + orDefault (port.demand.bind (fun d => d.solar)) 0) 0

def assignVesselsToClusters (vessels : List (Vessel α)) (clusters : List (List (Port α))) :
    List (Assignment α) :=
  let sortedVessels := jsSort (fun a b => b.capacity - a.capacity) vessels
  let clustersWithDemand := jsSort (fun a b => b.totalDemand - a.totalDemand)
    (clusters.enum.map (fun ic =>
      ({ index := ic.1, cluster := ic.2, totalDemand := clusterDemand ic.2 } :
        ClusterWithDemand α)))
  clustersWithDemand.enum.map (fun ic =>
    if ic.1 < sortedVessels.length then
      { vessel := sortedVessels.get? ic.1, cluster := ic.2.cluster, clusterIndex := ic.2.index }
    else
      { vessel := sortedVessels.get? 0, cluster := ic.2.cluster, clusterIndex := ic.2.index })

/-! ## clusterPortsByProximity -/

/-- The inner `centroids.forEach` of the assignment step, from position `idx` on: the running
`minDistance` and `closestCentroidIndex` are threaded through.  The centroids are ports, so the
guard `centroid && centroid.location` holds for each of them. -/
def closestCentroidFrom (M : JsMath α) (port : Port α) :
    List (Port α) → Nat → Option α → Nat → Nat
  | [], _, _, closestCentroidIndex => closestCentroidIndex
  | centroid :: rest, idx, minDistance, closestCentroidIndex =>
    let distance := portDistance M port centroid
    if distanceLt M port centroid minDistance then
      closestCentroidFrom M port rest (idx + 1) (some distance) idx
    else
      closestCentroidFrom M port rest (idx + 1) minDistance closestCentroidIndex

/-- The index of the centroid nearest to `port` (`minDistance = Infinity`,
`closestCentroidIndex = 0` at the start). -/
def closestCentroidIndex (M : JsMath α) (centroids : List (Port α)) (port : Port α) : Nat :=
  closestCentroidFrom M port centroids 0 none 0

/-- The statement `if (clusters[i]) clusters[i].push(port)`. -/
def pushAt {β : Type} : List (List β) → Nat → β → List (List β)
  | [], _, _ => []
  | c :: cs, 0, x => (c ++ [x]) :: cs
  | c :: cs, i + 1, x => c :: pushAt cs i x

/-- The reset of `clusters` followed by the `ports.forEach` that assigns each port to its
nearest centroid. -/
def assignPorts (M : JsMath α) (centroids : List (Port α)) (ports : List (Port α))
    (numberOfClusters : Nat) : List (List (Port α)) :=
  ports.foldl (fun clusters port => pushAt clusters (closestCentroidIndex M centroids port) port)
    (List.replicate numberOfClusters [])

/-- The inner `cluster.forEach` of the recentring step: the running `minDist` and `closestPort`
are threaded through.  The distance is
`Math.sqrt(Math.pow(lat - avgLat, 2) + Math.pow(lng - avgLng, 2))`, the difference and the sum
rounded. -/
def closestToMeanFrom (M : JsMath α) (avgLat avgLng : α) :
    List (Port α) → Option α → Port α → Port α
  | [], _, closestPort => closestPort
  | port :: rest, minDist, closestPort =>
    let dist := M.sqrt (M.fl (M.pow (M.fl (port.location.lat - avgLat)) 2
      + M.pow (M.fl (port.location.lng - avgLng)) 2))
    if ltMin dist minDist then closestToMeanFrom M avgLat avgLng rest (some dist) port
    else closestToMeanFrom M avgLat avgLng rest minDist closestPort

/-- The body of `clusters.forEach((cluster, idx) => ...)` for one cluster: the new `centroids`
and `changed`. -/
def recentreOne (M : JsMath α) (cluster : List (Port α)) (idx : Nat)
    (centroids : List (Port α)) (changed : Bool) : List (Port α) × Bool :=
  match cluster with
  | [] => (centroids, changed)
  | first :: _ =>
    let avgLat :=
      M.fl (cluster.foldl (fun sum p => M.fl (sum + p.location.lat)) 0 / (cluster.length : α))
    let avgLng :=
      M.fl (cluster.foldl (fun sum p => M.fl (sum + p.location.lng)) 0 / (cluster.length : α))
    let closestPort := closestToMeanFrom M avgLat avgLng cluster none first
    if (centroids.get? idx).map (fun c => c.id) ≠ some closestPort.id then
      (centroids.set idx closestPort, true)
    else (centroids, changed)

/-- The recentring `clusters.forEach`, from cluster number `idx` on. -/
def recentreFrom (M : JsMath α) :
    List (List (Port α)) → Nat → List (Port α) → Bool → List (Port α) × Bool
  | [], _, centroids, changed => (centroids, changed)
  | cluster :: rest, idx, centroids, changed =>
    let r := recentreOne M cluster idx centroids changed
    recentreFrom M rest (idx + 1) r.1 r.2

/-- The variables of the k-means loop. -/
structure KMeansState (α : Type) where
  centroids : List (Port α)
  clusters : List (List (Port α))
  changed : Bool
  iterations : Nat

/-- One round of the loop body. -/
def kmeansRound (M : JsMath α) (ports : List (Port α)) (numberOfClusters : Nat)
    (s : KMeansState α) : KMeansState α :=
  let clusters := assignPorts M s.centroids ports numberOfClusters
  let r := recentreFrom M clusters 0 s.centroids false
  { centroids := r.1, clusters := clusters, changed := r.2, iterations := s.iterations + 1 }

/-- The loop `while (changed && iterations < maxIterations)`; the first argument is
`maxIterations - iterations`. -/
def kmeansLoop (M : JsMath α) (ports : List (Port α)) (numberOfClusters : Nat) :
    Nat → KMeansState α → KMeansState α
  | 0, s => s
  | remaining + 1, s =>
    if s.changed then kmeansLoop M ports numberOfClusters remaining
      (kmeansRound M ports numberOfClusters s)
    else s

def maxIterations : Nat := 100

def clusterPortsByProximity (M : JsMath α) (ports : List (Port α)) (_demands : Option (List α))
    (numberOfClusters : Nat) : List (List (Port α)) :=
  if ports.length ≤ numberOfClusters then ports.map (fun port => [port])
  else
    let final := kmeansLoop M ports numberOfClusters maxIterations
      { centroids := ports.take numberOfClusters,
        clusters := List.replicate numberOfClusters [],
        changed := true,
        iterations := 0 }
    final.clusters.filter (fun cluster => decide (cluster.length > 0))

/-! ## solveTSPForCluster -/

/-- The method `visited.add(id)` of a `Set`, kept in insertion order. -/
def setAdd (visited : List String) (id : String) : List String :=
  if id ∈ visited then visited else visited ++ [id]

/-- The variables of the nearest-neighbour loop. -/
structure TspState (α : Type) where
  visited : List String
  route : List (Port α)
  currentPort : Port α
  totalDistance : α
  deriving DecidableEq

/-- The expression `timeWindows[port.id] || { open: 0, close: 24 }`. -/
def windowOf (timeWindows : TimeWindows α) (port : Port α) : TimeWindow α :=
  match timeWindows port.id with
  | some w => w
  | none => { openAt := 0, closeAt := 24 }

/-- The first `ports.forEach` of the loop body (time windows checked): the running `minDistance`
and `nearestPort` are threaded through. -/
def nearestInWindow (M : JsMath α) (vessel : Vessel α) (timeWindows : TimeWindows α)
    (s : TspState α) : List (Port α) → Option α → Option (Port α) → Option α × Option (Port α)
  | [], minDistance, nearestPort => (minDistance, nearestPort)
  | port :: rest, minDistance, nearestPort =>
    if port.id ∉ s.visited then
      let distance := portDistance M s.currentPort port
      let arrivalTime := calculateArrivalTime s.totalDistance vessel.speed
      let timeWindow := windowOf timeWindows port
      if distanceLt M s.currentPort port minDistance ∧ arrivalTime ≥ timeWindow.openAt
          ∧ arrivalTime ≤ timeWindow.closeAt then
        nearestInWindow M vessel timeWindows s rest (some distance) (some port)
      else nearestInWindow M vessel timeWindows s rest minDistance nearestPort
    else nearestInWindow M vessel timeWindows s rest minDistance nearestPort

/-- The second `ports.forEach` of the loop body (time windows ignored). -/
def nearestAny (M : JsMath α) (s : TspState α) :
    List (Port α) → Option α → Option (Port α) → Option α × Option (Port α)
  | [], minDistance, nearestPort => (minDistance, nearestPort)
  | port :: rest, minDistance, nearestPort =>
    if port.id ∉ s.visited then
      let distance := portDistance M s.currentPort port
      if distanceLt M s.currentPort port minDistance then
        nearestAny M s rest (some distance) (some port)
      else nearestAny M s rest minDistance nearestPort
    else nearestAny M s rest minDistance nearestPort

/-- The four statements that move on to `nearestPort`; `minDistance` is a number here, because
it was assigned together with `nearestPort`. -/
def visit (s : TspState α) (nearestPort : Port α) (minDistance : Option α) : TspState α :=
  { visited := setAdd s.visited nearestPort.id,
    route := s.route ++ [nearestPort],
    currentPort := nearestPort,
    totalDistance := s.totalDistance + minDistance.getD 0 }

/-- One execution of the body of `while (visited.size < ports.length)`. -/
def tspStep (M : JsMath α) (vessel : Vessel α) (ports : List (Port α))
    (timeWindows : TimeWindows α) (s : TspState α) : TspState α :=
  match nearestInWindow M vessel timeWindows s ports none none with
  | (minDistance, some nearestPort) => visit s nearestPort minDistance
  | (minDistance, none) =>
    match nearestAny M s ports minDistance none with
    | (minDistance, some nearestPort) => visit s nearestPort minDistance
    | (_, none) => s

/-- The loop `while (visited.size < ports.length)`, run for at most `fuel` rounds. -/
def tspLoop (M : JsMath α) (vessel : Vessel α) (ports : List (Port α))
    (timeWindows : TimeWindows α) : Nat → TspState α → Option (TspState α)
  | fuel, s =>
    if s.visited.length < ports.length then
      match fuel with
      | 0 => none
      | fuel + 1 => tspLoop M vessel ports timeWindows fuel (tspStep M vessel ports timeWindows s)
    else some s

/-- The part of `solveTSPForCluster` after its loop: the closing leg and the returned object. -/
def finishRoute (M : JsMath α) (vessel : Vessel α) (constraints : Option Constraints)
    (s : TspState α) : Route α :=
  let returnToStart := match constraints with
    | some c => c.returnToStart
    | none => false
  let totalDistance :=
    if returnToStart = true ∧ s.route.length > 1 then
      match s.route.head? with
      | some start => s.totalDistance + portDistance M s.currentPort start
      | none => s.totalDistance
    else s.totalDistance
  let totalTime := totalDistance / max vessel.speed 1
  let totalCost := calculateRouteCostForVessel
    { distance := totalDistance, time := totalTime, ports := s.route.length } vessel
  { vessel := vessel.id, route := s.route, distance := totalDistance, time := totalTime,
    cost := totalCost,
    fuelConsumption := (totalTime / 24)
      * orDefault (vessel.fuelConsumption.bind (fun f => f.atSea)) 20 }

/-- The function `solveTSPForCluster`; `fuel` bounds the rounds of its loop, an absent
`timeWindows` or `constraints` argument takes the default `{}`. -/
def solveTSPForCluster (M : JsMath α) (fuel : Nat) (vessel : Vessel α) (ports : List (Port α))
    (timeWindows : Option (TimeWindows α)) (constraints : Option Constraints) :
    Option (Route α) :=
  match ports with
  | [] =>
    some { vessel := vessel.id, route := [], distance := 0, time := 0, cost := 0,
           fuelConsumption := 0 }
  | [port] =>
    let singlePortCost := calculateSinglePortCost vessel port
    some { vessel := vessel.id, route := ports, distance := 0, time := 0,
           cost := singlePortCost, fuelConsumption := 0 }
  | first :: _ :: _ =>
    match tspLoop M vessel ports (timeWindows.getD (fun _ => none)) fuel
        { visited := setAdd [] first.id, route := [first], currentPort := first,
          totalDistance := 0 } with
    | none => none
    | some s => some (finishRoute M vessel constraints s)

/-! ## optimizeShippingRoutes -/

/-- The outcome of a call that may throw: `returned v` when `v` was returned, `thrown msg` when
an error with message `msg` was thrown, `outOfFuel` when a loop did not finish within the fuel. -/
inductive Outcome (β : Type) where
  | returned (value : β)
  | thrown (message : String)
  | outOfFuel
  deriving DecidableEq

/-- The call `assignments.map(({ vessel, cluster }) => solveTSPForCluster(...))`; reading
`vessel.id` of an `undefined` vessel throws a `TypeError`. -/
def solveAssignments (M : JsMath α) (fuel : Nat) (timeWindows : Option (TimeWindows α))
    (constraints : Option Constraints) : List (Assignment α) → Outcome (List (Route α))
  | [] => .returned []
  | a :: rest =>
    match a.vessel with
    | none => .thrown "TypeError"
    | some vessel =>
      match solveTSPForCluster M fuel vessel a.cluster timeWindows constraints with
      | none => .outOfFuel
      | some r =>
        match solveAssignments M fuel timeWindows constraints rest with
        | .returned rs => .returned (r :: rs)
        | .thrown e => .thrown e
        | .outOfFuel => .outOfFuel

/-- The totals and the object returned at the end of `optimizeShippingRoutes`. -/
def aggregate (optimizedRoutes : List (Route α)) (vessels : List (Vessel α)) :
    OptimizationResult α :=
  let totalCost := optimizedRoutes.foldl (fun sum route => sum + orDefault (some route.cost) 0) 0
  { routes := optimizedRoutes,
    totalCost := totalCost,
    vesselUtilization := calculateVesselUtilization optimizedRoutes vessels,
    estimatedTime := calculateTotalTime optimizedRoutes,
    totalDistance := optimizedRoutes.foldl (fun sum r => sum + orDefault (some r.distance) 0) 0 }

/-- The part of `optimizeShippingRoutes` after the input validation. -/
def optimizeValidated (M : JsMath α) (fuel : Nat) (vessels : List (Vessel α))
    (ports : List (Port α)) (input : OptimizationInput α) : Outcome (OptimizationResult α) :=
  let clusters := clusterPortsByProximity M ports input.demands vessels.length
  let assignments := assignVesselsToClusters vessels clusters
  match solveAssignments M fuel input.timeWindows input.constraints assignments with
  | .outOfFuel => .outOfFuel
  | .thrown e => .thrown e
  | .returned optimizedRoutes => .returned (aggregate optimizedRoutes vessels)

/-- The function `optimizeShippingRoutes`; `fuel` bounds the rounds of each route solver loop. -/
def optimizeShippingRoutes (M : JsMath α) (fuel : Nat) (input : OptimizationInput α) :
    Outcome (OptimizationResult α) :=
  match input.vessels with
  | none => .thrown "No vessels provided"
  | some [] => .thrown "No vessels provided"
  | some (v :: vs) =>
    match input.ports with
    | none => .thrown "No ports provided"
    | some [] => .thrown "No ports provided"
    | some (p :: ps) => optimizeValidated M fuel (v :: vs) (p :: ps) input

/-! ## Running the model

A rational stand-in for `Math`, used only to run the model on test inputs: it takes the
place of the transcendental functions with the small-angle readings `sin x = x`, `cos x = 1`,
`atan2 y x = y` and with `sqrt x = x`. -/

def testMath : JsMath ℚ :=
  { sin := fun x => x, cos := fun _ => 1, sqrt := fun x => x, atan2 := fun y _ => y, PI := 3,
    pow := fun x n => x ^ n, fl := fun x => x }

/-! ## The exact reading

The functions of `Math` on the real numbers, for the statements about the distance itself. -/

/-- The functions of `Math` on the real numbers, without rounding.  `Math.atan2(y, x)` is the
argument of `x + y i`; `Math.sqrt` is `NaN` on a negative number, where `Real.sqrt` is 0.
With these functions the haversine term lies between 0 and 1 for all points; with the rounded
functions of the code it can leave this range, and it can be 0 by underflow where the exact
term is not. -/
noncomputable def realMath : JsMath ℝ :=
  { sin := Real.sin, cos := Real.cos, sqrt := Real.sqrt,
    atan2 := fun y x => Complex.arg ⟨x, y⟩, PI := Real.pi,
    pow := fun x n => x ^ n, fl := fun x => x }

/-- The cosine of the central angle between two points given in degrees. -/
noncomputable def centralCos (lat1 lon1 lat2 lon2 : ℝ) : ℝ :=
  Real.sin (lat1 * (Real.pi / 180)) * Real.sin (lat2 * (Real.pi / 180))
    + Real.cos (lat1 * (Real.pi / 180)) * Real.cos (lat2 * (Real.pi / 180))
      * Real.cos (lon2 * (Real.pi / 180) - lon1 * (Real.pi / 180))


/-! ## Invariants -/

/-- The loop invariant of the nearest-neighbour loop on the cluster `ports`. -/
def TspInv (ports : List (Port α)) (s : TspState α) : Prop :=
  s.visited = s.route.map (fun p => p.id) ∧ s.visited.Nodup ∧ (∀ p ∈ s.route, p ∈ ports)
    ∧ s.route.head? = ports.head? ∧ s.route ≠ []

/-- Every distance from a port of the list to a port of the list is a number: no call of
`calculateHaversineDistance` on two of these ports gives `NaN`. -/
def DistancesAreNumbers (M : JsMath α) (ports : List (Port α)) : Prop :=
  ∀ p ∈ ports, ∀ q ∈ ports, portDistanceIsNaN M p q = false

/-- The clusters held by a state of the k-means loop come from an assignment step. -/
def FromAssignment (M : JsMath α) (ports : List (Port α)) (k : Nat)
    (clusters : List (List (Port α))) : Prop :=
  ∃ centroids : List (Port α), centroids.length = k ∧ clusters = assignPorts M centroids ports k

/-- The route solver's bookkeeping: the current port is the last stop, and the accumulated
distance is the length of the stop sequence. -/
def TspTrace (M : JsMath α) (s : TspState α) : Prop :=
  s.route.getLast? = some s.currentPort ∧ s.totalDistance = calculateRouteDistance M s.route

/-- Every leg between consecutive stops of the sequence has a distance that is a number. -/
def legsAreNumbers (M : JsMath α) : List (Port α) → Prop
  | [] => True
  | [_] => True
  | p :: q :: rest => portDistanceIsNaN M p q = false ∧ legsAreNumbers M (q :: rest)

/-- The signs of `Math.sqrt` and `Math.atan2` on numbers that are not negative: properties of
these functions on the doubles as well as on the reals. -/
def SignRules (M : JsMath α) : Prop :=
  (∀ x, 0 ≤ x → 0 ≤ M.sqrt x) ∧ (∀ y x, 0 ≤ y → 0 ≤ x → 0 ≤ M.atan2 y x)

/-- The zeros of `Math.sqrt` and `Math.atan2` on numbers that are not negative: `Math.sqrt(x)`
is 0 only for `x = 0` and at most 1 for `x ≤ 1`, and `Math.atan2(y, x)` with `x ≤ 1` is 0 only
for `y = 0`. -/
def ZeroRules (M : JsMath α) : Prop :=
  (∀ x, 0 ≤ x → (M.sqrt x = 0 ↔ x = 0))
    ∧ (∀ x, 0 ≤ x → x ≤ 1 → M.sqrt x ≤ 1)
    ∧ (∀ y x, 0 ≤ y → 0 ≤ x → x ≤ 1 → (M.atan2 y x = 0 ↔ y = 0))

/-- The sum of the haversine distances between consecutive stops. -/
def consecutiveDistance (M : JsMath α) : List (Port α) → α
  | [] => 0
  | [_] => 0
  | p :: q :: rest => portDistance M p q + consecutiveDistance M (q :: rest)

/-- The start state of the route solver loop on a cluster that starts with `first`. -/
def tspStart (first : Port α) : TspState α :=
  { visited := setAdd [] first.id, route := [first], currentPort := first, totalDistance := 0 }

/-- The element `p` is the minimum of `f` on the list `l`, the first one in the order of the list
when several elements have the minimal value. -/
def IsFirstMin {β : Type} (f : β → α) (l : List β) (p : β) : Prop :=
  ∃ pre post, l = pre ++ p :: post ∧ (∀ q ∈ pre, f p < f q) ∧ (∀ q ∈ post, f p ≤ f q)

/-- A scan for a running minimum, the common shape of the `forEach` loops of the engine: an
element that passes the test `ok` and has a value `f` strictly below the running minimum
becomes the new selection. -/
def scanMin {β : Type} (ok : β → Bool) (f : β → α) :
    List β → Option α → Option β → Option α × Option β
  | [], m, q => (m, q)
  | x :: rest, m, q =>
    if ok x = true ∧ ltMin (f x) m = true then scanMin ok f rest (some (f x)) (some x)
    else scanMin ok f rest m q
/-- The port has not been visited in the state `s`. -/
def unvisited (s : TspState α) (port : Port α) : Bool :=
  decide (port.id ∉ s.visited)

/-- The distance from the current port of the state `s` to the port is a number, not `NaN`. -/
def reachable (M : JsMath α) (s : TspState α) (port : Port α) : Bool :=
  !portDistanceIsNaN M s.currentPort port

/-- The arrival time of the state `s` falls within the time window of the port. -/
def inWindow (vessel : Vessel α) (timeWindows : TimeWindows α) (s : TspState α)
    (port : Port α) : Bool :=
  decide ((windowOf timeWindows port).openAt ≤ calculateArrivalTime s.totalDistance vessel.speed
    ∧ calculateArrivalTime s.totalDistance vessel.speed ≤ (windowOf timeWindows port).closeAt)

/-- The distance in degrees from a port to the arithmetic mean of the coordinates of a cluster,
as the recentring step computes it. -/
def meanDistance (M : JsMath α) (cluster : List (Port α)) (port : Port α) : α :=
  M.sqrt (M.fl (M.pow (M.fl (port.location.lat
        - M.fl (cluster.foldl (fun sum p => M.fl (sum + p.location.lat)) 0
          / (cluster.length : α)))) 2
    + M.pow (M.fl (port.location.lng
        - M.fl (cluster.foldl (fun sum p => M.fl (sum + p.location.lng)) 0
          / (cluster.length : α)))) 2))

/-- The `closestPort` that the recentring step finds for a cluster, `none` for an empty one. -/
def closestToMean (M : JsMath α) (cluster : List (Port α)) : Option (Port α) :=
  match cluster with
  | [] => none
  | first :: _ =>
    some (closestToMeanFrom M
      (M.fl (cluster.foldl (fun sum p => M.fl (sum + p.location.lat)) 0 / (cluster.length : α)))
      (M.fl (cluster.foldl (fun sum p => M.fl (sum + p.location.lng)) 0 / (cluster.length : α)))
      cluster none first)

/-- The state of the k-means loop before its first round. -/
def kmeansStart (ports : List (Port α)) (numberOfClusters : Nat) : KMeansState α :=
  { centroids := ports.take numberOfClusters,
    clusters := List.replicate numberOfClusters [],
    changed := true,
    iterations := 0 }

/-- The centroids are `k` pairwise different ports of the input. -/
def CentroidInv (ports : List (Port α)) (k : Nat) (centroids : List (Port α)) : Prop :=
  centroids.length = k ∧ (∀ c ∈ centroids, c ∈ ports) ∧ centroids.Nodup

/-! ## Sample inputs

The end-to-end scenario of the specification (one vessel, three ports, `returnToStart` set) and
the records used to run the model at the places where it departs from the specification. -/

def portA : Port ℚ :=
  { id := "A", location := { lat := -61 / 10, lng := 1068 / 10 }, demand := none,
    charges := none }

def portB : Port ℚ :=
  { id := "B", location := { lat := -725 / 100, lng := 11275 / 100 }, demand := none,
    charges := none }

def portC : Port ℚ :=
  { id := "C", location := { lat := -127 / 100, lng := 11683 / 100 }, demand := none,
    charges := none }

def vesselV1 : Vessel ℚ :=
  { id := "V1", capacity := 5000, speed := 14, fuelConsumption := none,
    dailyOperatingCost := none, crew := none }

def scenario : OptimizationInput ℚ :=
  { vessels := some [vesselV1], ports := some [portA, portB, portC], demands := none,
    timeWindows := none, constraints := some { returnToStart := true } }

/-- A vessel whose capacity field is negative. -/
def vesselV2 : Vessel ℚ :=
  { id := "V2", capacity := -2500, speed := 14, fuelConsumption := none,
    dailyOperatingCost := none, crew := none }

/-- A vessel with every cost field present. -/
def vesselV3 : Vessel ℚ :=
  { id := "V3", capacity := 15000, speed := 13, fuelConsumption := some { atSea := some 25 },
    dailyOperatingCost := some 8000, crew := some 10 }

/-- A port whose berthing fee is present and equal to 0. -/
def portFree : Port ℚ :=
  { id := "F", location := { lat := 0, lng := 100 }, demand := some { solar := some 300 },
    charges := some { berthing := some 0 } }

/-- A port with a berthing fee of 3000. -/
def portPaid : Port ℚ :=
  { id := "P", location := { lat := 1, lng := 101 }, demand := none,
    charges := some { berthing := some 3000 } }

/-- The cost of a singleton route in the words of the specification: the berthing fee, 5000 only
when it is absent, plus the daily operating cost, 10000 only when it is absent, plus 150 per crew
member. -/
def statedSinglePortCost (berthing dailyOperatingCost : Option α) (crew : α) : α :=
  berthing.getD 5000 + dailyOperatingCost.getD 10000 + crew * 150

/-- A vessel whose crew field is present and equal to 0. -/
def vesselUnmanned : Vessel ℚ :=
  { id := "V4", capacity := 5000, speed := 14, fuelConsumption := some { atSea := some 25 },
    dailyOperatingCost := some 8000, crew := some 0 }

/-- The summary of a route of 336 nautical miles, 24 hours and 2 stops. -/
def dayRoute : RouteSummary ℚ :=
  { distance := 336, time := 24, ports := 2 }

/-- The cost of a route in the words of the specification: each vessel field takes its default
only when it is absent. -/
def statedRouteCost (time : α) (stops : Nat) (fuelAtSea dailyOperatingCost crew : Option α) : α :=
  (time / 24) * fuelAtSea.getD 20 * 600 + (stops : α) * 5000
    + (time / 24) * dailyOperatingCost.getD 10000 + (time / 24) * crew.getD 15 * 150

/-- Two routes of the same vessel `V1`. -/
def routeV1a : Route ℚ :=
  { vessel := "V1", route := [portA], distance := 0, time := 0, cost := 17250,
    fuelConsumption := 0 }

def routeV1b : Route ℚ :=
  { vessel := "V1", route := [portB], distance := 0, time := 0, cost := 17250,
    fuelConsumption := 0 }

/-- The utilization in the words of the specification: the capacities of the vessels that have
at least one route, each vessel counted once, over the capacities of all vessels, times 100. -/
def statedUtilization (routes : List (Route α)) (vessels : List (Vessel α)) : α :=
  100 * ((vessels.filter (fun v => decide (v.id ∈ routes.map (fun r => r.vessel)))).map
      (fun v => v.capacity)).sum
    / (vessels.map (fun v => v.capacity)).sum

/-- A second port at the coordinates of port `A`. -/
def portA2 : Port ℚ :=
  { id := "A2", location := { lat := -61 / 10, lng := 1068 / 10 }, demand := none,
    charges := none }

/-- Two ports on the equator, a quarter of a turn apart, and a vessel, with real coordinates. -/
def portE0 : Port ℝ :=
  { id := "E0", location := { lat := 0, lng := 0 }, demand := none, charges := none }

def portE90 : Port ℝ :=
  { id := "E90", location := { lat := 0, lng := 90 }, demand := none, charges := none }

def vesselR : Vessel ℝ :=
  { id := "R1", capacity := 5000, speed := 14, fuelConsumption := none,
    dailyOperatingCost := none, crew := none }

/-- A vessel whose speed field is 0. -/
def vesselAdrift : Vessel ℚ :=
  { id := "V5", capacity := 5000, speed := 0, fuelConsumption := none,
    dailyOperatingCost := none, crew := none }

/-- Time windows that open every port from 8 to 17 only. -/
def officeHours : TimeWindows ℚ :=
  fun _ => some { openAt := 8, closeAt := 17 }

/-- Three ports on the prime meridian with real coordinates; the first two carry the same id. -/
def portX : Port ℝ :=
  { id := "a", location := { lat := -1, lng := 0 }, demand := none, charges := none }

def portZ : Port ℝ :=
  { id := "a", location := { lat := 0, lng := 0 }, demand := none, charges := none }

def portW : Port ℝ :=
  { id := "c", location := { lat := 1, lng := 0 }, demand := none, charges := none }

/-- A vessel whose daily operating cost is negative. -/
def vesselV5 : Vessel ℚ :=
  { id := "V5", capacity := 5000, speed := 14, fuelConsumption := none,
    dailyOperatingCost := some (-20000), crew := none }

/-- Two ports that are nearly antipodal: the haversine term of the pair is above 1 in the doubles
of the code (1.0000000000000002), and with `testMath`. -/
def portG : Port ℚ :=
  { id := "G", location := { lat := 8, lng := 0 }, demand := none, charges := none }

def portH : Port ℚ :=
  { id := "H", location := { lat := -8, lng := 180 }, demand := none, charges := none }


/-! # Theorems -/

set_option linter.unusedSectionVars false

/-! ## Lemmas on the route solver -/

theorem nearestInWindow_none (M : JsMath α) (vessel : Vessel α) (tw : TimeWindows α)
    (s : TspState α) (l : List (Port α)) :
    ∀ m q, (nearestInWindow M vessel tw s l none none) = (m, q) → q = none → m = none := by
  suffices h : ∀ (m0 : Option α) (q0 : Option (Port α)), (q0 = none → m0 = none) →
      ∀ m q, nearestInWindow M vessel tw s l m0 q0 = (m, q) → q = none → m = none from
    h none none (fun _ => rfl)
  induction l with
  | nil =>
    intro m0 q0 h0 m q h hq
    simp only [nearestInWindow, Prod.mk.injEq] at h
    obtain ⟨rfl, rfl⟩ := h
    exact h0 hq
  | cons p rest ih =>
    intro m0 q0 h0 m q h hq
    simp only [nearestInWindow] at h
    split_ifs at h
    all_goals first
      | exact ih _ _ h0 m q h hq
      | exact ih _ _ (fun hc => by cases hc) m q h hq

theorem nearestInWindow_some (M : JsMath α) (vessel : Vessel α) (tw : TimeWindows α)
    (s : TspState α) (l : List (Port α)) :
    ∀ m0 q0 m p, nearestInWindow M vessel tw s l m0 q0 = (m, some p) →
      q0 = some p ∨ (p ∈ l ∧ p.id ∉ s.visited) := by
  induction l with
  | nil =>
    intro m0 q0 m p h
    simp only [nearestInWindow, Prod.mk.injEq] at h
    exact Or.inl h.2
  | cons x rest ih =>
    intro m0 q0 m p h
    simp only [nearestInWindow] at h
    by_cases hv : x.id ∉ s.visited
    · rw [if_pos hv] at h
      split_ifs at h
      all_goals
        rcases ih _ _ _ _ h with h1 | h1
        · first
            | exact Or.inl h1
            | (simp only [Option.some.injEq] at h1
               subst h1
               exact Or.inr ⟨List.mem_cons_self _ _, hv⟩)
        · exact Or.inr ⟨List.mem_cons_of_mem _ h1.1, h1.2⟩
    · rw [if_neg hv] at h
      rcases ih _ _ _ _ h with h1 | h1
      · exact Or.inl h1
      · exact Or.inr ⟨List.mem_cons_of_mem _ h1.1, h1.2⟩

theorem nearestAny_some (M : JsMath α) (s : TspState α) (l : List (Port α)) :
    ∀ m0 q0 m p, nearestAny M s l m0 q0 = (m, some p) →
      q0 = some p ∨ (p ∈ l ∧ p.id ∉ s.visited) := by
  induction l with
  | nil =>
    intro m0 q0 m p h
    simp only [nearestAny, Prod.mk.injEq] at h
    exact Or.inl h.2
  | cons x rest ih =>
    intro m0 q0 m p h
    simp only [nearestAny] at h
    by_cases hv : x.id ∉ s.visited
    · rw [if_pos hv] at h
      split_ifs at h
      all_goals
        rcases ih _ _ _ _ h with h1 | h1
        · first
            | exact Or.inl h1
            | (simp only [Option.some.injEq] at h1
               subst h1
               exact Or.inr ⟨List.mem_cons_self _ _, hv⟩)
        · exact Or.inr ⟨List.mem_cons_of_mem _ h1.1, h1.2⟩
    · rw [if_neg hv] at h
      rcases ih _ _ _ _ h with h1 | h1
      · exact Or.inl h1
      · exact Or.inr ⟨List.mem_cons_of_mem _ h1.1, h1.2⟩

theorem nearestAny_isSome_of_some (M : JsMath α) (s : TspState α) (l : List (Port α)) :
    ∀ m0 (q0 : Port α), ((nearestAny M s l m0 (some q0)).2).isSome = true := by
  induction l with
  | nil => intro m0 q0; simp [nearestAny]
  | cons x rest ih =>
    intro m0 q0
    simp only [nearestAny]
    split_ifs
    · exact ih _ _
    · exact ih _ _
    · exact ih _ _

theorem nearestAny_isSome (M : JsMath α) (s : TspState α) (l : List (Port α))
    (h : ∃ p ∈ l, p.id ∉ s.visited ∧ portDistanceIsNaN M s.currentPort p = false) :
    ((nearestAny M s l none none).2).isSome = true := by
  induction l with
  | nil => obtain ⟨p, hp, _⟩ := h; cases hp
  | cons x rest ih =>
    simp only [nearestAny]
    by_cases hv : x.id ∉ s.visited
    · rw [if_pos hv]
      by_cases hlt : distanceLt M s.currentPort x none = true
      · rw [if_pos hlt]
        exact nearestAny_isSome_of_some M s rest _ _
      · rw [if_neg hlt]
        apply ih
        obtain ⟨p, hp, hpv, hnan⟩ := h
        rcases List.mem_cons.1 hp with rfl | hp
        · exact absurd (by simp [distanceLt, ltMin, hnan]) hlt
        · exact ⟨p, hp, hpv, hnan⟩
    · rw [if_neg hv]
      apply ih
      obtain ⟨p, hp, hpv, hnan⟩ := h
      rcases List.mem_cons.1 hp with rfl | hp
      · exact absurd hpv hv
      · exact ⟨p, hp, hpv, hnan⟩

theorem exists_unvisited (ports : List (Port α)) (visited : List String)
    (hid : (ports.map (fun p => p.id)).Nodup) (hlt : visited.length < ports.length) :
    ∃ p ∈ ports, p.id ∉ visited := by
  by_contra hcon
  push_neg at hcon
  have hsub : ports.map (fun p => p.id) ⊆ visited := by
    intro i hi
    obtain ⟨p, hp, rfl⟩ := List.mem_map.1 hi
    exact hcon p hp
  have hle := (List.subperm_of_subset hid hsub).length_le
  rw [List.length_map] at hle
  omega

theorem tspStep_eq_visit (M : JsMath α) (vessel : Vessel α) (ports : List (Port α))
    (tw : TimeWindows α) (s : TspState α)
    (hid : (ports.map (fun p => p.id)).Nodup) (hlt : s.visited.length < ports.length)
    (hnum : ∀ p ∈ ports, portDistanceIsNaN M s.currentPort p = false) :
    ∃ p m, tspStep M vessel ports tw s = visit s p m ∧ p ∈ ports ∧ p.id ∉ s.visited := by
  unfold tspStep
  rcases h1 : nearestInWindow M vessel tw s ports none none with ⟨m, q⟩
  cases q with
  | some p =>
    refine ⟨p, m, rfl, ?_⟩
    rcases nearestInWindow_some M vessel tw s ports _ _ _ _ h1 with h | h
    · cases h
    · exact h
  | none =>
    have hm : m = none := nearestInWindow_none M vessel tw s ports m none h1 rfl
    subst hm
    simp only
    obtain ⟨u, hu, huv⟩ := exists_unvisited ports s.visited hid hlt
    have hsome := nearestAny_isSome M s ports ⟨u, hu, huv, hnum u hu⟩
    rcases h2 : nearestAny M s ports none none with ⟨m2, q2⟩
    rw [h2] at hsome
    cases q2 with
    | none => simp at hsome
    | some p =>
      refine ⟨p, m2, rfl, ?_⟩
      rcases nearestAny_some M s ports _ _ _ _ h2 with h | h
      · cases h
      · exact h

theorem visit_inv (ports : List (Port α)) (s : TspState α) (p : Port α) (m : Option α)
    (hs : TspInv ports s) (hp : p ∈ ports) (hv : p.id ∉ s.visited) :
    TspInv ports (visit s p m) ∧ (visit s p m).visited.length = s.visited.length + 1 := by
  obtain ⟨h1, h2, h3, h4, h5⟩ := hs
  have hadd : setAdd s.visited p.id = s.visited ++ [p.id] := by simp [setAdd, hv]
  refine ⟨⟨?_, ?_, ?_, ?_, ?_⟩, ?_⟩
  · show setAdd s.visited p.id = (s.route ++ [p]).map (fun p => p.id)
    rw [hadd, List.map_append, ← h1]
    rfl
  · simp only [visit, hadd]
    exact List.Nodup.append h2 (List.nodup_singleton _) (by simpa using hv)
  · intro q hq
    simp only [visit, List.mem_append, List.mem_singleton] at hq
    rcases hq with hq | rfl
    · exact h3 q hq
    · exact hp
  · simp only [visit]
    cases hr : s.route with
    | nil => exact absurd hr h5
    | cons a t => rw [hr] at h4; simpa using h4
  · simp [visit]
  · simp [visit, hadd]

/-- The current port of a state that satisfies the invariant is a port of the cluster. -/
theorem currentPort_mem (ports : List (Port α)) (s : TspState α)
    (hs : TspInv ports s) (ht : s.route.getLast? = some s.currentPort) :
    s.currentPort ∈ ports :=
  hs.2.2.1 _ (List.mem_of_getLast?_eq_some ht)

theorem visit_getLast? (s : TspState α) (p : Port α) (m : Option α) :
    (visit s p m).route.getLast? = some (visit s p m).currentPort := by
  simp [visit]

theorem tspLoop_terminates (M : JsMath α) (vessel : Vessel α) (ports : List (Port α))
    (tw : TimeWindows α) (hid : (ports.map (fun p => p.id)).Nodup)
    (hnum : DistancesAreNumbers M ports) :
    ∀ (n : Nat) (s : TspState α), TspInv ports s → s.route.getLast? = some s.currentPort →
      ports.length - s.visited.length = n →
      ∃ s', (∀ fuel, n ≤ fuel → tspLoop M vessel ports tw fuel s = some s') ∧ TspInv ports s'
        ∧ ports.length ≤ s'.visited.length := by
  intro n
  induction n with
  | zero =>
    intro s hs _ hn
    refine ⟨s, ?_, hs, by omega⟩
    intro fuel _
    unfold tspLoop
    rw [if_neg (by omega)]
  | succ n ih =>
    intro s hs hlast hn
    have hlt : s.visited.length < ports.length := by omega
    obtain ⟨p, m, hstep, hp, hv⟩ := tspStep_eq_visit M vessel ports tw s hid hlt
      (hnum _ (currentPort_mem ports s hs hlast))
    obtain ⟨hinv, hlen⟩ := visit_inv ports s p m hs hp hv
    obtain ⟨s', hrun, hinv', hfin⟩ := ih (visit s p m) hinv (visit_getLast? s p m) (by omega)
    refine ⟨s', ?_, hinv', hfin⟩
    intro fuel hfuel
    obtain ⟨f, rfl⟩ : ∃ f, fuel = f + 1 := ⟨fuel - 1, by omega⟩
    unfold tspLoop
    rw [if_pos hlt]
    simp only
    rw [hstep]
    exact hrun f (by omega)

theorem perm_of_tspInv (ports : List (Port α)) (s : TspState α) (hs : TspInv ports s)
    (hfin : ports.length ≤ s.visited.length) : s.route.Perm ports := by
  obtain ⟨h1, h2, h3, -, -⟩ := hs
  have hnd : s.route.Nodup := by
    rw [h1] at h2
    exact List.Nodup.of_map _ h2
  have hlen : s.visited.length = s.route.length := by rw [h1, List.length_map]
  exact (List.subperm_of_subset hnd h3).perm_of_length_le (by omega)

theorem tspInv_init (first second : Port α) (rest : List (Port α)) :
    TspInv (first :: second :: rest)
      { visited := setAdd [] first.id, route := [first], currentPort := first,
        totalDistance := (0 : α) } := by
  refine ⟨?_, ?_, ?_, ?_, ?_⟩ <;> simp [setAdd]

/-- The final loop state of `solveTSPForCluster` on a cluster of at least two ports with
distinct ids and with distances that are numbers: it is reached with any fuel from
`ports.length - 1` on. -/
theorem tspLoop_final (M : JsMath α) (vessel : Vessel α) (first second : Port α)
    (rest : List (Port α)) (tw : TimeWindows α)
    (hid : ((first :: second :: rest).map (fun p => p.id)).Nodup)
    (hnum : DistancesAreNumbers M (first :: second :: rest)) :
    ∃ s', (∀ fuel, (first :: second :: rest).length - 1 ≤ fuel →
        tspLoop M vessel (first :: second :: rest) tw fuel
          { visited := setAdd [] first.id, route := [first], currentPort := first,
            totalDistance := 0 } = some s')
      ∧ TspInv (first :: second :: rest) s'
      ∧ (first :: second :: rest).length ≤ s'.visited.length := by
  apply tspLoop_terminates M vessel _ tw hid hnum _ _ (tspInv_init first second rest) rfl
  simp [setAdd]

/-! ## Lemmas on the clustering -/

theorem closestCentroidFrom_range (M : JsMath α) (port : Port α) (centroids : List (Port α)) :
    ∀ idx minDistance best,
      closestCentroidFrom M port centroids idx minDistance best = best
      ∨ (idx ≤ closestCentroidFrom M port centroids idx minDistance best
          ∧ closestCentroidFrom M port centroids idx minDistance best < idx + centroids.length) := by
  induction centroids with
  | nil => intro idx m best; exact Or.inl rfl
  | cons c rest ih =>
    intro idx m best
    simp only [closestCentroidFrom, List.length_cons]
    split_ifs
    · rcases ih (idx + 1) (some (portDistance M port c)) idx with h | h
      · right; rw [h]; omega
      · right; omega
    · rcases ih (idx + 1) m best with h | h
      · left; exact h
      · right; omega

theorem closestCentroidIndex_lt (M : JsMath α) (centroids : List (Port α)) (port : Port α)
    (k : Nat) (hk : 1 ≤ k) (hlen : centroids.length = k) :
    closestCentroidIndex M centroids port < k := by
  unfold closestCentroidIndex
  rcases closestCentroidFrom_range M port centroids 0 none 0 with h | h
  · rw [h]; omega
  · omega

theorem length_pushAt {β : Type} (clusters : List (List β)) (i : Nat) (x : β) :
    (pushAt clusters i x).length = clusters.length := by
  induction clusters generalizing i with
  | nil => rfl
  | cons c cs ih =>
    cases i with
    | zero => rfl
    | succ i => simp [pushAt, ih]

theorem flatten_pushAt_perm {β : Type} (clusters : List (List β)) (i : Nat) (x : β)
    (hi : i < clusters.length) : (pushAt clusters i x).flatten.Perm (clusters.flatten ++ [x]) := by
  induction clusters generalizing i with
  | nil => simp at hi
  | cons c cs ih =>
    cases i with
    | zero =>
      simp only [pushAt, List.flatten_cons, List.append_assoc]
      exact List.Perm.append_left c List.perm_append_comm
    | succ i =>
      simp only [pushAt, List.flatten_cons, List.append_assoc]
      exact List.Perm.append_left c (ih i (by simpa using hi))

theorem foldl_pushAt {β : Type} (f : β → Nat) (k : Nat) (hf : ∀ x, f x < k) (xs : List β) :
    ∀ acc : List (List β), acc.length = k →
      (xs.foldl (fun clusters x => pushAt clusters (f x) x) acc).length = k
      ∧ (xs.foldl (fun clusters x => pushAt clusters (f x) x) acc).flatten.Perm (acc.flatten ++ xs) := by
  induction xs with
  | nil => intro acc h; simp [h]
  | cons x xs ih =>
    intro acc h
    simp only [List.foldl_cons]
    obtain ⟨h1, h2⟩ := ih (pushAt acc (f x) x) (by rw [length_pushAt, h])
    refine ⟨h1, h2.trans ?_⟩
    have := flatten_pushAt_perm acc (f x) x (by rw [h]; exact hf x)
    have h3 : ((pushAt acc (f x) x).flatten ++ xs).Perm ((acc.flatten ++ [x]) ++ xs) :=
      List.Perm.append_right xs this
    simpa using h3

theorem length_foldl_pushAt {β : Type} (f : β → Nat) (xs : List β) :
    ∀ acc : List (List β),
      (xs.foldl (fun clusters x => pushAt clusters (f x) x) acc).length = acc.length := by
  induction xs with
  | nil => intro acc; rfl
  | cons x xs ih => intro acc; simp only [List.foldl_cons]; rw [ih, length_pushAt]

theorem length_assignPorts (M : JsMath α) (centroids ports : List (Port α)) (k : Nat) :
    (assignPorts M centroids ports k).length = k := by
  unfold assignPorts
  rw [length_foldl_pushAt]
  simp

theorem flatten_replicate_nil {β : Type} (k : Nat) : (List.replicate k ([] : List β)).flatten = [] := by
  induction k with
  | zero => rfl
  | succ k ih => simp [List.replicate_succ, ih]

theorem assignPorts_perm (M : JsMath α) (centroids ports : List (Port α)) (k : Nat)
    (hk : 1 ≤ k) (hlen : centroids.length = k) :
    (assignPorts M centroids ports k).flatten.Perm ports := by
  unfold assignPorts
  have h := (foldl_pushAt (fun port => closestCentroidIndex M centroids port) k
    (fun port => closestCentroidIndex_lt M centroids port k hk hlen) ports
    (List.replicate k []) (by simp)).2
  rw [flatten_replicate_nil, List.nil_append] at h
  exact h

theorem length_recentreOne (M : JsMath α) (cluster : List (Port α)) (idx : Nat)
    (centroids : List (Port α)) (changed : Bool) :
    (recentreOne M cluster idx centroids changed).1.length = centroids.length := by
  unfold recentreOne
  cases cluster with
  | nil => rfl
  | cons first rest =>
    simp only
    split_ifs <;> simp

theorem length_recentreFrom (M : JsMath α) (clusters : List (List (Port α))) :
    ∀ idx centroids changed,
      (recentreFrom M clusters idx centroids changed).1.length = centroids.length := by
  induction clusters with
  | nil => intro idx centroids changed; rfl
  | cons c rest ih =>
    intro idx centroids changed
    simp only [recentreFrom]
    rw [ih, length_recentreOne]

theorem kmeansRound_spec (M : JsMath α) (ports : List (Port α)) (k : Nat) (s : KMeansState α)
    (h : s.centroids.length = k) :
    (kmeansRound M ports k s).centroids.length = k
      ∧ FromAssignment M ports k (kmeansRound M ports k s).clusters := by
  refine ⟨?_, s.centroids, h, rfl⟩
  simp only [kmeansRound]
  rw [length_recentreFrom, h]

theorem kmeansLoop_spec (M : JsMath α) (ports : List (Port α)) (k : Nat) :
    ∀ (remaining : Nat) (s : KMeansState α), s.centroids.length = k →
      FromAssignment M ports k s.clusters →
      FromAssignment M ports k (kmeansLoop M ports k remaining s).clusters := by
  intro remaining
  induction remaining with
  | zero => intro s _ h; exact h
  | succ r ih =>
    intro s hc h
    simp only [kmeansLoop]
    split_ifs
    · exact ih _ (kmeansRound_spec M ports k s hc).1 (kmeansRound_spec M ports k s hc).2
    · exact h

/-- The clusters at the exit of the k-means loop are the result of an assignment step to `k`
real centroids: the loop body runs at least once. -/
theorem kmeansLoop_fromAssignment (M : JsMath α) (ports : List (Port α)) (k : Nat)
    (hlt : k < ports.length) :
    FromAssignment M ports k (kmeansLoop M ports k maxIterations
      { centroids := ports.take k, clusters := List.replicate k [], changed := true,
        iterations := 0 }).clusters := by
  have hc : (ports.take k).length = k := by simp; omega
  show FromAssignment M ports k (kmeansLoop M ports k (99 + 1) _).clusters
  simp only [kmeansLoop, if_true]
  exact kmeansLoop_spec M ports k 99 _ (kmeansRound_spec M ports k _ hc).1
    (kmeansRound_spec M ports k _ hc).2

theorem flatten_filter_nonempty {β : Type} (l : List (List β)) :
    (l.filter (fun c => decide (c.length > 0))).flatten = l.flatten := by
  induction l with
  | nil => rfl
  | cons c cs ih =>
    cases c with
    | nil => simp [List.filter_cons, ih]
    | cons x xs => simp [List.filter_cons, ih]

theorem flatten_map_singleton {β : Type} (l : List β) : (l.map (fun x => [x])).flatten = l := by
  induction l with
  | nil => rfl
  | cons x xs ih => simp [ih]


theorem clusterPortsByProximity_partition_aux (M : JsMath α) (ports : List (Port α))
    (demands : Option (List α)) (k : Nat) (hk : 1 ≤ k) :
    (clusterPortsByProximity M ports demands k).flatten.Perm ports := by
  unfold clusterPortsByProximity
  split_ifs with h
  · rw [flatten_map_singleton]
  · simp only
    rw [flatten_filter_nonempty]
    obtain ⟨c, hc, heq⟩ := kmeansLoop_fromAssignment M ports k (by omega)
    rw [heq]
    exact assignPorts_perm M c ports k hk hc

theorem clusterPortsByProximity_length_le (M : JsMath α) (ports : List (Port α))
    (demands : Option (List α)) (k : Nat) :
    (clusterPortsByProximity M ports demands k).length ≤ k := by
  unfold clusterPortsByProximity
  split_ifs with h
  · simpa using h
  · simp only
    obtain ⟨cs, hcs, heq⟩ := kmeansLoop_fromAssignment M ports k (by omega)
    calc _ ≤ _ := List.length_filter_le _ _
      _ = k := by rw [heq, length_assignPorts]

/-! ## Lemmas on sorting and the vessel assignment -/

theorem jsSort_perm {β : Type} (compare : β → β → α) (l : List β) :
    (jsSort compare l).Perm l :=
  List.perm_insertionSort _ l

theorem jsSort_length {β : Type} (compare : β → β → α) (l : List β) :
    (jsSort compare l).length = l.length :=
  (jsSort_perm compare l).length_eq

/-- Sorting with `(a, b) => key(b) - key(a)` gives a list in descending order of `key`. -/
theorem jsSort_desc_sorted {β : Type} (key : β → α) (l : List β) :
    (jsSort (fun a b => key b - key a) l).Sorted (fun a b => key b ≤ key a) := by
  unfold jsSort
  haveI : IsTotal β (fun a b => key b - key a ≤ 0) :=
    ⟨fun a b => by
      rcases le_total (key a) (key b) with h | h
      · right; exact sub_nonpos.2 h
      · left; exact sub_nonpos.2 h⟩
  haveI : IsTrans β (fun a b => key b - key a ≤ 0) :=
    ⟨fun a b c hab hbc => sub_nonpos.2 (le_trans (sub_nonpos.1 hbc) (sub_nonpos.1 hab))⟩
  exact (List.sorted_insertionSort (fun a b => key b - key a ≤ 0) l).imp
    (fun {a b} h => sub_nonpos.1 h)

/-- Sorting with `(a, b) => key(b) - key(a)` is stable: elements with the same key keep their
input order. -/
theorem jsSort_desc_stable {β : Type} (key : β → α) (l : List β) (c : α) :
    (jsSort (fun a b => key b - key a) l).filter (fun x => decide (key x = c))
      = l.filter (fun x => decide (key x = c)) := by
  have hpw : (l.filter (fun x => decide (key x = c))).Pairwise
      (fun a b => key b - key a ≤ 0) := by
    rw [List.pairwise_iff_forall_sublist]
    intro a b hab
    have ha : a ∈ l.filter (fun x => decide (key x = c)) := hab.subset (by simp)
    have hb : b ∈ l.filter (fun x => decide (key x = c)) := hab.subset (by simp)
    simp only [List.mem_filter, decide_eq_true_eq] at ha hb
    rw [ha.2, hb.2, sub_self]
  have hsub : (l.filter (fun x => decide (key x = c))).Sublist
      (jsSort (fun a b => key b - key a) l) :=
    List.sublist_insertionSort hpw (List.filter_sublist l)
  have hsub2 := hsub.filter (fun x => decide (key x = c))
  rw [List.filter_filter] at hsub2
  simp only [Bool.and_self] at hsub2
  have hlen := ((jsSort_perm (fun a b => key b - key a) l).filter
    (fun x => decide (key x = c))).length_eq
  exact (hsub2.eq_of_length hlen.symm).symm

/-- The `reduce` that sums the solar demand of a cluster counts a missing demand as 0. -/
theorem clusterDemand_eq_sum (cluster : List (Port α)) :
    clusterDemand cluster
      = (cluster.map (fun port => ((port.demand.bind (fun d => d.solar)).getD 0))).sum := by
  unfold clusterDemand
  have hor : ∀ x : Option α, orDefault x 0 = x.getD 0 := by
    intro x
    cases x with
    | none => rfl
    | some v =>
      simp only [orDefault, Option.getD_some]
      split_ifs with h
      · exact h.symm
      · rfl
  have h : ∀ (l : List (Port α)) (acc : α),
      l.foldl (fun sum port => sum + orDefault (port.demand.bind (fun d => d.solar)) 0) acc
        = acc + (l.map (fun port => ((port.demand.bind (fun d => d.solar)).getD 0))).sum := by
    intro l
    induction l with
    | nil => intro acc; simp
    | cons p ps ih =>
      intro acc
      simp only [List.foldl_cons, List.map_cons, List.sum_cons]
      rw [ih, hor, add_assoc]
  rw [h, zero_add]

/-- The clusters of `clustersWithDemand`, in order: the input clusters sorted by demand. -/
theorem map_cluster_sorted (clusters : List (List (Port α))) :
    (jsSort (fun a b => b.totalDemand - a.totalDemand)
      (clusters.enum.map (fun ic =>
        ({ index := ic.1, cluster := ic.2, totalDemand := clusterDemand ic.2 } :
          ClusterWithDemand α)))).map (fun c => c.cluster)
      = jsSort (fun a b => clusterDemand b - clusterDemand a) clusters := by
  unfold jsSort
  rw [List.map_insertionSort (fun (a b : ClusterWithDemand α) => b.totalDemand - a.totalDemand ≤ 0)
    (fun (a b : List (Port α)) => clusterDemand b - clusterDemand a ≤ 0)]
  · rw [List.map_map]
    have : ((fun c => c.cluster) ∘ fun (ic : Nat × List (Port α)) =>
        ({ index := ic.1, cluster := ic.2, totalDemand := clusterDemand ic.2 } :
          ClusterWithDemand α)) = Prod.snd := rfl
    rw [this, List.enum_map_snd]
  · intro a ha b hb
    obtain ⟨ia, _, rfl⟩ := List.mem_map.1 ha
    obtain ⟨ib, _, rfl⟩ := List.mem_map.1 hb
    rfl

theorem length_assignVesselsToClusters (vessels : List (Vessel α))
    (clusters : List (List (Port α))) :
    (assignVesselsToClusters vessels clusters).length = clusters.length := by
  simp [assignVesselsToClusters, jsSort_length]

theorem map_cluster_assignVesselsToClusters (vessels : List (Vessel α))
    (clusters : List (List (Port α))) :
    (assignVesselsToClusters vessels clusters).map (fun a => a.cluster)
      = jsSort (fun a b => clusterDemand b - clusterDemand a) clusters := by
  rw [← map_cluster_sorted]
  simp only [assignVesselsToClusters, List.map_map]
  generalize jsSort (fun (a b : ClusterWithDemand α) => b.totalDemand - a.totalDemand) _ = cwd
  conv_rhs => rw [← List.enum_map_snd cwd, List.map_map]
  apply List.map_congr_left
  intro ic _
  simp only [Function.comp]
  split_ifs <;> rfl

/-- The vessel of the pair at rank `i`: the vessel of rank `i` of the sorted list when there is
one, and the vessel of rank 0 otherwise. -/
theorem vessel_assignVesselsToClusters (vessels : List (Vessel α))
    (clusters : List (List (Port α))) (i : Nat) (hi : i < clusters.length) :
    ((assignVesselsToClusters vessels clusters).get? i).map (fun a => a.vessel)
      = some (if i < vessels.length
          then (jsSort (fun a b => b.capacity - a.capacity) vessels).get? i
          else (jsSort (fun a b => b.capacity - a.capacity) vessels).get? 0) := by
  simp only [assignVesselsToClusters, List.get?_eq_getElem?, List.getElem?_map,
    List.getElem?_enum, Option.map_map]
  have hlen : i < (jsSort (fun (a b : ClusterWithDemand α) => b.totalDemand - a.totalDemand)
      (clusters.enum.map (fun ic =>
        ({ index := ic.1, cluster := ic.2, totalDemand := clusterDemand ic.2 } :
          ClusterWithDemand α)))).length := by
    rw [jsSort_length]; simpa using hi
  rw [List.getElem?_eq_getElem hlen]
  simp only [Option.map_some', Function.comp, jsSort_length]
  split_ifs <;> rfl

/-! ## Lemmas on the orchestrator -/

theorem vessel_of_solveTSPForCluster (M : JsMath α) (fuel : Nat) (vessel : Vessel α)
    (ports : List (Port α)) (tw : Option (TimeWindows α)) (cons : Option Constraints)
    (r : Route α) (h : solveTSPForCluster M fuel vessel ports tw cons = some r) :
    r.vessel = vessel.id := by
  match ports with
  | [] => simp only [solveTSPForCluster, Option.some.injEq] at h; rw [← h]
  | [p] => simp only [solveTSPForCluster, Option.some.injEq] at h; rw [← h]
  | first :: second :: rest =>
    simp only [solveTSPForCluster] at h
    split at h
    · cases h
    · simp only [Option.some.injEq] at h; rw [← h]; rfl

/-- Distances that are numbers on a list are numbers on every list of ports taken from it. -/
theorem DistancesAreNumbers.mono {M : JsMath α} {ports cluster : List (Port α)}
    (h : DistancesAreNumbers M ports) (hsub : ∀ p ∈ cluster, p ∈ ports) :
    DistancesAreNumbers M cluster :=
  fun p hp q hq => h p (hsub p hp) q (hsub q hq)

/-- On a cluster with pairwise distinct ids and distances that are numbers `solveTSPForCluster`
returns, with any fuel from `ports.length - 1` on, a route for the given vessel that is a
permutation of the cluster and starts at its first port. -/
theorem solveTSPForCluster_returns (M : JsMath α) (vessel : Vessel α) (ports : List (Port α))
    (tw : Option (TimeWindows α)) (cons : Option Constraints)
    (hid : (ports.map (fun p => p.id)).Nodup) (hnum : DistancesAreNumbers M ports) :
    ∃ r, (∀ fuel, ports.length - 1 ≤ fuel →
        solveTSPForCluster M fuel vessel ports tw cons = some r)
      ∧ r.vessel = vessel.id ∧ r.route.Perm ports ∧ r.route.head? = ports.head? := by
  match ports, hid, hnum with
  | [], _, _ => exact ⟨_, fun _ _ => rfl, rfl, List.Perm.refl _, rfl⟩
  | [p], _, _ => exact ⟨_, fun _ _ => rfl, rfl, List.Perm.refl _, rfl⟩
  | first :: second :: rest, hid, hnum =>
    obtain ⟨s', hrun, hinv, hfin⟩ :=
      tspLoop_final M vessel first second rest (tw.getD (fun _ => none)) hid hnum
    refine ⟨finishRoute M vessel cons s', fun fuel hfuel => ?_, rfl,
      perm_of_tspInv _ s' hinv hfin, hinv.2.2.2.1⟩
    simp only [solveTSPForCluster]
    rw [hrun fuel hfuel]

/-- The routes of `solveAssignments`, when it returns, belong to the vessels of the pairs, in
order. -/
theorem solveAssignments_vessels (M : JsMath α) (fuel : Nat) (tw : Option (TimeWindows α))
    (cons : Option Constraints) (assignments : List (Assignment α)) :
    ∀ rs, solveAssignments M fuel tw cons assignments = .returned rs →
      rs.map (fun r => some r.vessel)
        = assignments.map (fun a => a.vessel.map (fun v => v.id)) := by
  induction assignments with
  | nil =>
    intro rs h
    simp only [solveAssignments, Outcome.returned.injEq] at h
    subst h; rfl
  | cons a rest ih =>
    intro rs h
    simp only [solveAssignments] at h
    cases hv : a.vessel with
    | none => rw [hv] at h; cases h
    | some v =>
      rw [hv] at h
      simp only at h
      cases hr : solveTSPForCluster M fuel v a.cluster tw cons with
      | none => rw [hr] at h; cases h
      | some r =>
        rw [hr] at h
        simp only at h
        cases hrest : solveAssignments M fuel tw cons rest with
        | outOfFuel => rw [hrest] at h; cases h
        | thrown e => rw [hrest] at h; cases h
        | returned rs' =>
          rw [hrest] at h
          simp only [Outcome.returned.injEq] at h
          subst h
          simp only [List.map_cons, List.cons.injEq]
          refine ⟨?_, ih rs' hrest⟩
          rw [hv, vessel_of_solveTSPForCluster M fuel v a.cluster tw cons r hr]
          rfl

/-- The call `solveAssignments` does not throw when every pair carries a vessel. -/
theorem solveAssignments_not_thrown (M : JsMath α) (fuel : Nat) (tw : Option (TimeWindows α))
    (cons : Option Constraints) (assignments : List (Assignment α))
    (hv : ∀ a ∈ assignments, a.vessel ≠ none) :
    ∀ e, solveAssignments M fuel tw cons assignments ≠ .thrown e := by
  induction assignments with
  | nil => intro e h; simp [solveAssignments] at h
  | cons a rest ih =>
    intro e h
    simp only [solveAssignments] at h
    cases hav : a.vessel with
    | none => exact hv a (List.mem_cons_self _ _) hav
    | some v =>
      rw [hav] at h
      simp only at h
      cases hr : solveTSPForCluster M fuel v a.cluster tw cons with
      | none => rw [hr] at h; cases h
      | some r =>
        rw [hr] at h
        simp only at h
        cases hrest : solveAssignments M fuel tw cons rest with
        | outOfFuel => rw [hrest] at h; cases h
        | thrown e' =>
          exact ih (fun a ha => hv a (List.mem_cons_of_mem _ ha)) e' hrest
        | returned rs' => rw [hrest] at h; cases h

/-- The call `solveAssignments` returns when every pair carries a vessel and a cluster with
pairwise distinct ids and distances that are numbers; the routes are permutations of the
clusters, in order. -/
theorem solveAssignments_returns (M : JsMath α) (tw : Option (TimeWindows α))
    (cons : Option Constraints) (assignments : List (Assignment α))
    (hv : ∀ a ∈ assignments, a.vessel ≠ none)
    (hid : ∀ a ∈ assignments, (a.cluster.map (fun p => p.id)).Nodup)
    (hnum : ∀ a ∈ assignments, DistancesAreNumbers M a.cluster) :
    ∃ rs, (∀ fuel, (∀ a ∈ assignments, a.cluster.length - 1 ≤ fuel) →
        solveAssignments M fuel tw cons assignments = .returned rs)
      ∧ List.Forall₂ (fun (a : Assignment α) (r : Route α) =>
          r.route.Perm a.cluster ∧ r.route.head? = a.cluster.head?) assignments rs := by
  induction assignments with
  | nil => exact ⟨[], fun _ _ => rfl, List.Forall₂.nil⟩
  | cons a rest ih =>
    obtain ⟨rs, hrs, hall⟩ := ih (fun a ha => hv a (List.mem_cons_of_mem _ ha))
      (fun a ha => hid a (List.mem_cons_of_mem _ ha))
      (fun a ha => hnum a (List.mem_cons_of_mem _ ha))
    cases hav : a.vessel with
    | none => exact absurd hav (hv a (List.mem_cons_self _ _))
    | some v =>
      obtain ⟨r, hr, -, hperm, hhead⟩ :=
        solveTSPForCluster_returns M v a.cluster tw cons (hid a (List.mem_cons_self _ _))
          (hnum a (List.mem_cons_self _ _))
      refine ⟨r :: rs, fun fuel hfuel => ?_, List.Forall₂.cons ⟨hperm, hhead⟩ hall⟩
      simp only [solveAssignments, hav]
      rw [hr fuel (hfuel a (List.mem_cons_self _ _)),
        hrs fuel (fun a ha => hfuel a (List.mem_cons_of_mem _ ha))]

theorem orDefault_some_zero (v : α) : orDefault (some v) 0 = v := by
  simp only [orDefault]
  split_ifs with h
  · exact h.symm
  · rfl

theorem foldl_add_eq_sum {β : Type} (f : β → α) (l : List β) :
    ∀ acc : α, l.foldl (fun sum x => sum + f x) acc = acc + (l.map f).sum := by
  induction l with
  | nil => intro acc; simp
  | cons x xs ih =>
    intro acc
    simp only [List.foldl_cons, List.map_cons, List.sum_cons]
    rw [ih, add_assoc]

/-- Every pair returned by `assignVesselsToClusters` carries a vessel when there is one. -/
theorem vessel_ne_none_of_mem (vessels : List (Vessel α)) (clusters : List (List (Port α)))
    (hv : vessels ≠ []) :
    ∀ a ∈ assignVesselsToClusters vessels clusters, a.vessel ≠ none := by
  intro a ha
  obtain ⟨i, hi⟩ := List.mem_iff_get?.1 ha
  have hlt : i < clusters.length := by
    rw [← length_assignVesselsToClusters vessels clusters]
    exact (List.get?_eq_some.1 hi).1
  have h := vessel_assignVesselsToClusters vessels clusters i hlt
  rw [hi] at h
  simp only [Option.map_some', Option.some.injEq] at h
  rw [h]
  have hpos : 0 < (jsSort (fun (a b : Vessel α) => b.capacity - a.capacity) vessels).length := by
    rw [jsSort_length]; exact List.length_pos.2 hv
  split_ifs with hc
  · rw [List.get?_eq_get (by rw [jsSort_length]; exact hc)]
    simp
  · rw [List.get?_eq_get hpos]
    simp

theorem cluster_mem_of_mem (vessels : List (Vessel α)) (clusters : List (List (Port α))) :
    ∀ a ∈ assignVesselsToClusters vessels clusters, a.cluster ∈ clusters := by
  intro a ha
  have h : a.cluster ∈ (assignVesselsToClusters vessels clusters).map (fun a => a.cluster) :=
    List.mem_map_of_mem _ ha
  rw [map_cluster_assignVesselsToClusters] at h
  exact (jsSort_perm _ clusters).mem_iff.1 h

/-- Every cluster of a partition of ports with pairwise distinct ids has pairwise distinct ids
and at most as many ports as the input. -/
theorem cluster_nodup_of_partition (ports : List (Port α)) (clusters : List (List (Port α)))
    (hperm : clusters.flatten.Perm ports) (hid : (ports.map (fun p => p.id)).Nodup) :
    ∀ c ∈ clusters, (c.map (fun p => p.id)).Nodup ∧ c.length ≤ ports.length := by
  intro c hc
  have hsub : c.Sublist clusters.flatten := List.sublist_flatten_of_mem hc
  have hnd : (clusters.flatten.map (fun p => p.id)).Nodup :=
    ((hperm.map _).nodup_iff).2 hid
  exact ⟨hnd.sublist (hsub.map _), by rw [← hperm.length_eq]; exact hsub.length_le⟩

/-- For a non-empty vessel list and ports with pairwise distinct ids and distances that are
numbers the pipeline after the validation returns a result, with any fuel from
`ports.length - 1` on. -/
theorem optimizeValidated_returns (M : JsMath α) (vessels : List (Vessel α))
    (ports : List (Port α)) (input : OptimizationInput α) (hv : vessels ≠ [])
    (hid : (ports.map (fun p => p.id)).Nodup) (hnum : DistancesAreNumbers M ports) :
    ∃ rs, (∀ fuel, ports.length - 1 ≤ fuel →
        optimizeValidated M fuel vessels ports input = .returned (aggregate rs vessels))
      ∧ List.Forall₂ (fun (a : Assignment α) (r : Route α) =>
          r.route.Perm a.cluster ∧ r.route.head? = a.cluster.head?)
        (assignVesselsToClusters vessels
          (clusterPortsByProximity M ports input.demands vessels.length)) rs := by
  have hk : 1 ≤ vessels.length := List.length_pos.2 hv
  have hpart := (clusterPortsByProximity_partition_aux M ports input.demands vessels.length hk)
  have hcl := cluster_nodup_of_partition ports _ hpart hid
  obtain ⟨rs, hrs, hall⟩ := solveAssignments_returns M input.timeWindows input.constraints
    (assignVesselsToClusters vessels
      (clusterPortsByProximity M ports input.demands vessels.length))
    (vessel_ne_none_of_mem vessels _ hv)
    (fun a ha => (hcl a.cluster (cluster_mem_of_mem vessels _ a ha)).1)
    (fun a ha => hnum.mono (fun p hp => hpart.mem_iff.1
      (List.mem_flatten.2 ⟨a.cluster, cluster_mem_of_mem vessels _ a ha, hp⟩)))
  refine ⟨rs, fun fuel hfuel => ?_, hall⟩
  simp only [optimizeValidated]
  rw [hrs fuel (fun a ha => by
    have := (hcl a.cluster (cluster_mem_of_mem vessels _ a ha)).2
    omega)]

/-- The pipeline after the validation never throws for a non-empty vessel list. -/
theorem optimizeValidated_not_thrown (M : JsMath α) (fuel : Nat) (vessels : List (Vessel α))
    (ports : List (Port α)) (input : OptimizationInput α) (hv : vessels ≠ []) :
    ∀ e, optimizeValidated M fuel vessels ports input ≠ .thrown e := by
  intro e h
  simp only [optimizeValidated] at h
  split at h
  · cases h
  · rename_i e' he
    exact solveAssignments_not_thrown M fuel _ _ _ (vessel_ne_none_of_mem vessels _ hv) e' he
  · cases h

/-! ## Lemmas on the vessel utilization -/

/-- With pairwise distinct vessel ids, `vessels.find(v => v.id === w.id)` finds `w` itself. -/
theorem find_by_id (vessels : List (Vessel α)) (hid : (vessels.map (fun v => v.id)).Nodup)
    (w : Vessel α) (hw : w ∈ vessels) :
    vessels.find? (fun v => decide (v.id = w.id)) = some w := by
  induction vessels with
  | nil => cases hw
  | cons x xs ih =>
    simp only [List.map_cons, List.nodup_cons] at hid
    rcases List.mem_cons.1 hw with rfl | hw'
    · simp [List.find?_cons]
    · have hne : x.id ≠ w.id := by
        intro h
        exact hid.1 (h ▸ List.mem_map_of_mem (fun v => v.id) hw')
      simp only [List.find?_cons, hne, decide_False]
      exact ih hid.2 hw'

/-- When the clusters do not outnumber the vessels, the pairs carry the first vessels of the
capacity-sorted list, one each. -/
theorem assignments_vessels_take (vessels : List (Vessel α)) (clusters : List (List (Port α)))
    (hle : clusters.length ≤ vessels.length) :
    (assignVesselsToClusters vessels clusters).map (fun a => a.vessel)
      = ((jsSort (fun a b => b.capacity - a.capacity) vessels).take clusters.length).map some := by
  apply List.ext_get?
  intro i
  by_cases hi : i < clusters.length
  · have h := vessel_assignVesselsToClusters vessels clusters i hi
    rw [List.get?_eq_getElem?, List.getElem?_map, ← List.get?_eq_getElem?, h, if_pos (by omega)]
    have hlt : i < (jsSort (fun (a b : Vessel α) => b.capacity - a.capacity) vessels).length := by
      rw [jsSort_length]; omega
    simp only [List.get?_eq_getElem?, List.getElem?_map, List.getElem?_take, hi, if_true]
    rw [List.getElem?_eq_getElem hlt]
    rfl
  · have h1 : (assignVesselsToClusters vessels clusters).length ≤ i := by
      rw [length_assignVesselsToClusters]; omega
    simp only [List.get?_eq_getElem?, List.getElem?_map]
    rw [List.getElem?_eq_none h1, List.getElem?_eq_none (by simp; omega)]
    rfl

/-- The utilization is between 0 and 100 when the routes belong to distinct vessels of a fleet
with pairwise distinct ids and non-negative capacities. -/
theorem utilization_bounds (vessels used : List (Vessel α)) (rs : List (Route α))
    (hused : used.Subperm vessels) (hrs : rs.map (fun r => r.vessel) = used.map (fun v => v.id))
    (hid : (vessels.map (fun v => v.id)).Nodup) (hnn : ∀ v ∈ vessels, 0 ≤ v.capacity) :
    0 ≤ calculateVesselUtilization rs vessels ∧ calculateVesselUtilization rs vessels ≤ 100 := by
  unfold calculateVesselUtilization
  by_cases h0 : vessels.length = 0
  · rw [if_pos h0]; exact ⟨le_refl _, by norm_num⟩
  · rw [if_neg h0]
    dsimp only
    have htot : vessels.foldl (fun sum v => sum + orDefault (some v.capacity) 0) 0
        = (vessels.map (fun v => v.capacity)).sum := by
      rw [foldl_add_eq_sum, zero_add]
      simp only [orDefault_some_zero]
    have hused_sum : rs.foldl (fun sum r =>
          sum + (match vessels.find? (fun v => decide (v.id = r.vessel)) with
            | some v => orDefault (some v.capacity) 0
            | none => 0)) 0
        = (used.map (fun v => v.capacity)).sum := by
      rw [foldl_add_eq_sum, zero_add]
      have : rs.map (fun r => (match vessels.find? (fun v => decide (v.id = r.vessel)) with
            | some v => orDefault (some v.capacity) 0
            | none => (0 : α)))
          = (rs.map (fun r => r.vessel)).map (fun i =>
              (match vessels.find? (fun v => decide (v.id = i)) with
                | some v => orDefault (some v.capacity) 0
                | none => (0 : α))) := by
        rw [List.map_map]; rfl
      rw [this, hrs, List.map_map]
      congr 1
      apply List.map_congr_left
      intro w hw
      simp only [Function.comp]
      rw [find_by_id vessels hid w (hused.subset hw)]
      exact orDefault_some_zero _
    rw [htot, hused_sum]
    by_cases h1 : (vessels.map (fun v => v.capacity)).sum = 0
    · rw [if_pos h1]; exact ⟨le_refl _, by norm_num⟩
    rw [if_neg h1]
    have hnn' : ∀ x ∈ vessels.map (fun v => v.capacity), (0 : α) ≤ x := by
      intro x hx
      obtain ⟨v, hv, rfl⟩ := List.mem_map.1 hx
      exact hnn v hv
    have htot_nn : 0 ≤ (vessels.map (fun v => v.capacity)).sum := List.sum_nonneg hnn'
    have htot_pos : 0 < (vessels.map (fun v => v.capacity)).sum := lt_of_le_of_ne htot_nn (Ne.symm h1)
    have hused_nn : 0 ≤ (used.map (fun v => v.capacity)).sum := by
      apply List.sum_nonneg
      intro x hx
      obtain ⟨v, hv, rfl⟩ := List.mem_map.1 hx
      exact hnn v (hused.subset hv)
    have hle : (used.map (fun v => v.capacity)).sum ≤ (vessels.map (fun v => v.capacity)).sum := by
      obtain ⟨l, hl, hsub⟩ := hused
      rw [← (hl.map (fun v => v.capacity)).sum_eq]
      exact (hsub.map _).sum_le_sum hnn'
    refine ⟨mul_nonneg (div_nonneg hused_nn htot_nn) (by norm_num), ?_⟩
    rw [div_mul_eq_mul_div, div_le_iff₀ htot_pos]
    nlinarith

/-! ## Lemmas on a fleet of one vessel -/

theorem foldl_pushAt_single {β : Type} (f : β → Nat) (hf : ∀ x, f x = 0) (xs : List β) :
    ∀ acc : List β,
      xs.foldl (fun clusters x => pushAt clusters (f x) x) [acc] = [acc ++ xs] := by
  induction xs with
  | nil => intro acc; simp
  | cons x xs ih =>
    intro acc
    simp only [List.foldl_cons, hf x, pushAt]
    rw [ih]
    simp

/-- With one cluster, the k-means branch puts every port into it, in input order. -/
theorem clusterPortsByProximity_one (M : JsMath α) (ports : List (Port α))
    (demands : Option (List α)) (h : 1 < ports.length) :
    clusterPortsByProximity M ports demands 1 = [ports] := by
  unfold clusterPortsByProximity
  rw [if_neg (by omega)]
  simp only
  obtain ⟨c, hc, heq⟩ := kmeansLoop_fromAssignment M ports 1 h
  rw [heq]
  have hassign : assignPorts M c ports 1 = [ports] := by
    unfold assignPorts
    have := foldl_pushAt_single (fun port => closestCentroidIndex M c port)
      (fun port => Nat.lt_one_iff.1 (closestCentroidIndex_lt M c port 1 (le_refl 1) hc))
      ports []
    simpa using this
  rw [hassign]
  have hpos : 0 < ports.length := by omega
  simp [List.filter_cons, hpos]

theorem assignVesselsToClusters_one (vessel : Vessel α) (cluster : List (Port α)) :
    assignVesselsToClusters [vessel] [cluster]
      = [{ vessel := some vessel, cluster := cluster, clusterIndex := 0 }] := by
  rfl

/-- A result of `optimizeShippingRoutes` is the aggregate of the routes solved for the pairs of
non-empty vessel and port lists. -/
theorem optimizeShippingRoutes_returned (M : JsMath α) (fuel : Nat) (input : OptimizationInput α)
    (r : OptimizationResult α) (h : optimizeShippingRoutes M fuel input = .returned r) :
    ∃ vessels ports rs, input.vessels = some vessels ∧ input.ports = some ports
      ∧ vessels ≠ [] ∧ ports ≠ []
      ∧ solveAssignments M fuel input.timeWindows input.constraints
          (assignVesselsToClusters vessels
            (clusterPortsByProximity M ports input.demands vessels.length)) = .returned rs
      ∧ r = aggregate rs vessels := by
  unfold optimizeShippingRoutes at h
  split at h
  · cases h
  · cases h
  · rename_i v vs hv
    split at h
    · cases h
    · cases h
    · rename_i p ps hp
      refine ⟨v :: vs, p :: ps, ?_⟩
      simp only [optimizeValidated] at h
      split at h
      · cases h
      · cases h
      · rename_i rs hrs
        simp only [Outcome.returned.injEq] at h
        exact ⟨rs, hv, hp, by simp, by simp, hrs, h.symm⟩

theorem aggregate_totals (rs : List (Route α)) (vessels : List (Vessel α)) :
    (aggregate rs vessels).totalCost = (rs.map (fun route => route.cost)).sum
      ∧ (aggregate rs vessels).totalDistance = (rs.map (fun route => route.distance)).sum := by
  simp only [aggregate]
  rw [foldl_add_eq_sum, foldl_add_eq_sum]
  simp only [orDefault_some_zero, zero_add, and_self]

/-! ## Lemmas on the haversine distance -/

theorem calculateHaversineDistance_eq (M : JsMath α) (lat1 lon1 lat2 lon2 : α) :
    calculateHaversineDistance M (some lat1) (some lon1) (some lat2) (some lon2)
      = 6371 * (2 * M.atan2 (M.sqrt (haversineTerm M lat1 lon1 lat2 lon2))
          (M.sqrt (1 - haversineTerm M lat1 lon1 lat2 lon2))) * (539957 / 1000000) := rfl

theorem haversineTerm_real (lat1 lon1 lat2 lon2 : ℝ) :
    haversineTerm realMath lat1 lon1 lat2 lon2 = (1 - centralCos lat1 lon1 lat2 lon2) / 2 := by
  simp only [haversineTerm, realMath, toRad, centralCos]
  have h1 := Real.sin_sq_eq_half_sub ((lat2 - lat1) * (Real.pi / 180) / 2)
  have h2 := Real.sin_sq_eq_half_sub ((lon2 - lon1) * (Real.pi / 180) / 2)
  have e1 : 2 * ((lat2 - lat1) * (Real.pi / 180) / 2)
      = lat2 * (Real.pi / 180) - lat1 * (Real.pi / 180) := by ring
  have e2 : 2 * ((lon2 - lon1) * (Real.pi / 180) / 2)
      = lon2 * (Real.pi / 180) - lon1 * (Real.pi / 180) := by ring
  rw [e1, Real.cos_sub] at h1
  rw [e2] at h2
  rw [sq] at h1 h2
  rw [h1, mul_assoc (Real.cos (lat1 * (Real.pi / 180)) * Real.cos (lat2 * (Real.pi / 180))), h2]
  ring

theorem centralCos_bounds (lat1 lon1 lat2 lon2 : ℝ) :
    -1 ≤ centralCos lat1 lon1 lat2 lon2 ∧ centralCos lat1 lon1 lat2 lon2 ≤ 1 := by
  unfold centralCos
  have h1 := Real.sin_sq_add_cos_sq (lat1 * (Real.pi / 180))
  have h2 := Real.sin_sq_add_cos_sq (lat2 * (Real.pi / 180))
  have h3 := Real.sin_sq_add_cos_sq (lon2 * (Real.pi / 180) - lon1 * (Real.pi / 180))
  set s1 := Real.sin (lat1 * (Real.pi / 180))
  set c1 := Real.cos (lat1 * (Real.pi / 180))
  set s2 := Real.sin (lat2 * (Real.pi / 180))
  set c2 := Real.cos (lat2 * (Real.pi / 180))
  set sd := Real.sin (lon2 * (Real.pi / 180) - lon1 * (Real.pi / 180))
  set cd := Real.cos (lon2 * (Real.pi / 180) - lon1 * (Real.pi / 180))
  constructor
  · nlinarith [sq_nonneg (s1 + s2), sq_nonneg (c1 + c2 * cd), sq_nonneg (c2 * sd)]
  · nlinarith [sq_nonneg (s1 - s2), sq_nonneg (c1 - c2 * cd), sq_nonneg (c2 * sd)]

theorem haversineTerm_real_bounds (lat1 lon1 lat2 lon2 : ℝ) :
    0 ≤ haversineTerm realMath lat1 lon1 lat2 lon2
      ∧ haversineTerm realMath lat1 lon1 lat2 lon2 ≤ 1 := by
  rw [haversineTerm_real]
  obtain ⟨h1, h2⟩ := centralCos_bounds lat1 lon1 lat2 lon2
  constructor <;> linarith

theorem abs_mk_sqrt (a : ℝ) (h0 : 0 ≤ a) (h1 : a ≤ 1) :
    Complex.abs ⟨Real.sqrt (1 - a), Real.sqrt a⟩ = 1 := by
  rw [Complex.abs_apply, Complex.normSq_mk, ← sq, ← sq, Real.sq_sqrt h0,
    Real.sq_sqrt (by linarith)]
  simp

/-- The angle `atan2(sqrt a, sqrt (1 - a))` for `a` in [0, 1]: it lies in [0, π/2], its sine is
`sqrt a` and the cosine of its double is `1 - 2 a`. -/
theorem atan2_sqrt_spec (a : ℝ) (h0 : 0 ≤ a) (h1 : a ≤ 1) :
    0 ≤ realMath.atan2 (realMath.sqrt a) (realMath.sqrt (1 - a))
      ∧ realMath.atan2 (realMath.sqrt a) (realMath.sqrt (1 - a)) ≤ Real.pi / 2
      ∧ Real.sin (realMath.atan2 (realMath.sqrt a) (realMath.sqrt (1 - a))) = Real.sqrt a
      ∧ Real.cos (2 * realMath.atan2 (realMath.sqrt a) (realMath.sqrt (1 - a))) = 1 - 2 * a := by
  simp only [realMath]
  have habs := abs_mk_sqrt a h0 h1
  have hsin : Real.sin (Complex.arg ⟨Real.sqrt (1 - a), Real.sqrt a⟩) = Real.sqrt a := by
    rw [Complex.sin_arg, habs, div_one]
  refine ⟨Complex.arg_nonneg_iff.2 (Real.sqrt_nonneg a),
    Complex.arg_le_pi_div_two_iff.2 (Or.inl (Real.sqrt_nonneg _)), hsin, ?_⟩
  rw [Real.cos_two_mul', Real.cos_sq', hsin, Real.sq_sqrt h0]
  ring

/-- The distance in the reals: the radius 6371 km times the central angle, converted to
nautical miles. -/
theorem calculateHaversineDistance_real (lat1 lon1 lat2 lon2 : ℝ) :
    calculateHaversineDistance realMath (some lat1) (some lon1) (some lat2) (some lon2)
      = 6371 * (539957 / 1000000) * Real.arccos (centralCos lat1 lon1 lat2 lon2) := by
  rw [calculateHaversineDistance_eq]
  obtain ⟨h0, h1⟩ := haversineTerm_real_bounds lat1 lon1 lat2 lon2
  obtain ⟨t0, t1, -, hcos⟩ := atan2_sqrt_spec _ h0 h1
  have harc : Real.arccos (centralCos lat1 lon1 lat2 lon2)
      = 2 * realMath.atan2 (realMath.sqrt (haversineTerm realMath lat1 lon1 lat2 lon2))
          (realMath.sqrt (1 - haversineTerm realMath lat1 lon1 lat2 lon2)) := by
    have hc : centralCos lat1 lon1 lat2 lon2
        = 1 - 2 * haversineTerm realMath lat1 lon1 lat2 lon2 := by
      rw [haversineTerm_real]; ring
    rw [hc, ← hcos]
    exact Real.arccos_cos (by linarith) (by linarith)
  rw [harc]
  ring

/-- The distance in the reals is 0 exactly when the haversine term is 0. -/
theorem calculateHaversineDistance_real_eq_zero (lat1 lon1 lat2 lon2 : ℝ) :
    calculateHaversineDistance realMath (some lat1) (some lon1) (some lat2) (some lon2) = 0
      ↔ haversineTerm realMath lat1 lon1 lat2 lon2 = 0 := by
  rw [calculateHaversineDistance_eq]
  obtain ⟨h0, h1⟩ := haversineTerm_real_bounds lat1 lon1 lat2 lon2
  obtain ⟨t0, t1, hsin, -⟩ := atan2_sqrt_spec _ h0 h1
  constructor
  · intro h
    have ht : realMath.atan2 (realMath.sqrt (haversineTerm realMath lat1 lon1 lat2 lon2))
        (realMath.sqrt (1 - haversineTerm realMath lat1 lon1 lat2 lon2)) = 0 := by
      have h6 : (6371 : ℝ) ≠ 0 := by norm_num
      have h5 : (539957 / 1000000 : ℝ) ≠ 0 := by norm_num
      have h2 : (2 : ℝ) ≠ 0 := by norm_num
      rcases mul_eq_zero.1 h with h | h
      · rcases mul_eq_zero.1 h with h | h
        · exact absurd h h6
        · rcases mul_eq_zero.1 h with h | h
          · exact absurd h h2
          · exact h
      · exact absurd h h5
    rw [ht, Real.sin_zero] at hsin
    exact (Real.sqrt_eq_zero h0).1 hsin.symm
  · intro h
    rw [h]
    simp [realMath, Complex.arg_eq_zero_iff]

/-- The distance is symmetric for every `Math` whose sine is an odd function. -/
theorem calculateHaversineDistance_symm_of_odd (M : JsMath α)
    (hodd : ∀ x, M.sin (-x) = -M.sin x) (lat1 lon1 lat2 lon2 : Option α) :
    calculateHaversineDistance M lat1 lon1 lat2 lon2
      = calculateHaversineDistance M lat2 lon2 lat1 lon1 := by
  cases lat1 <;> cases lon1 <;> cases lat2 <;> cases lon2 <;> try rfl
  rename_i lat1 lon1 lat2 lon2
  rw [calculateHaversineDistance_eq, calculateHaversineDistance_eq]
  have h : haversineTerm M lat1 lon1 lat2 lon2 = haversineTerm M lat2 lon2 lat1 lon1 := by
    simp only [haversineTerm, toRad]
    have e1 : (lat1 - lat2) * (M.PI / 180) / 2 = -((lat2 - lat1) * (M.PI / 180) / 2) := by ring
    have e2 : (lon1 - lon2) * (M.PI / 180) / 2 = -((lon2 - lon1) * (M.PI / 180) / 2) := by ring
    rw [e1, e2, hodd, hodd]
    ring
  rw [h]

/-- The distance from a point to itself is 0 in the reals. -/
theorem calculateHaversineDistance_real_self (lat lon : ℝ) :
    calculateHaversineDistance realMath (some lat) (some lon) (some lat) (some lon) = 0 := by
  rw [calculateHaversineDistance_real_eq_zero]
  simp [haversineTerm, toRad, realMath]

/-- For latitudes strictly between -90 and 90 and longitudes less than 360 apart, the haversine
term vanishes only for equal coordinates. -/
theorem haversineTerm_real_eq_zero (lat1 lon1 lat2 lon2 : ℝ)
    (h1 : -90 < lat1 ∧ lat1 < 90) (h2 : -90 < lat2 ∧ lat2 < 90) (hlon : |lon2 - lon1| < 360)
    (h : haversineTerm realMath lat1 lon1 lat2 lon2 = 0) : lat1 = lat2 ∧ lon1 = lon2 := by
  simp only [haversineTerm, toRad, realMath] at h
  have hpi := Real.pi_pos
  have hc1 : 0 < Real.cos (lat1 * (Real.pi / 180)) := by
    apply Real.cos_pos_of_mem_Ioo
    constructor <;> nlinarith [h1.1, h1.2]
  have hc2 : 0 < Real.cos (lat2 * (Real.pi / 180)) := by
    apply Real.cos_pos_of_mem_Ioo
    constructor <;> nlinarith [h2.1, h2.2]
  have hA : 0 ≤ Real.sin ((lat2 - lat1) * (Real.pi / 180) / 2)
      * Real.sin ((lat2 - lat1) * (Real.pi / 180) / 2) := mul_self_nonneg _
  have hB : 0 ≤ Real.sin ((lon2 - lon1) * (Real.pi / 180) / 2)
      * Real.sin ((lon2 - lon1) * (Real.pi / 180) / 2) := mul_self_nonneg _
  have hcc := mul_pos hc1 hc2
  have hB' : 0 ≤ Real.cos (lat1 * (Real.pi / 180)) * Real.cos (lat2 * (Real.pi / 180))
      * Real.sin ((lon2 - lon1) * (Real.pi / 180) / 2)
      * Real.sin ((lon2 - lon1) * (Real.pi / 180) / 2) := by
    rw [mul_assoc]; exact mul_nonneg hcc.le hB
  have hA0 : Real.sin ((lat2 - lat1) * (Real.pi / 180) / 2) = 0 :=
    mul_self_eq_zero.1 (by linarith)
  have hB0 : Real.sin ((lon2 - lon1) * (Real.pi / 180) / 2) = 0 := by
    have : Real.cos (lat1 * (Real.pi / 180)) * Real.cos (lat2 * (Real.pi / 180))
        * (Real.sin ((lon2 - lon1) * (Real.pi / 180) / 2)
          * Real.sin ((lon2 - lon1) * (Real.pi / 180) / 2)) = 0 := by
      rw [← mul_assoc]; linarith
    rcases mul_eq_zero.1 this with h' | h'
    · exact absurd h' hcc.ne'
    · exact mul_self_eq_zero.1 h'
  obtain ⟨hl1, hl2⟩ := abs_lt.1 hlon
  have hlat : (lat2 - lat1) * (Real.pi / 180) / 2 = 0 :=
    (Real.sin_eq_zero_iff_of_lt_of_lt (by nlinarith [h1.1, h1.2, h2.1, h2.2])
      (by nlinarith [h1.1, h1.2, h2.1, h2.2])).1 hA0
  have hlon' : (lon2 - lon1) * (Real.pi / 180) / 2 = 0 :=
    (Real.sin_eq_zero_iff_of_lt_of_lt (by nlinarith) (by nlinarith)).1 hB0
  have hk : Real.pi / 180 ≠ 0 := by positivity
  constructor
  · have : lat2 - lat1 = 0 := by
      rcases mul_eq_zero.1 (by linarith : (lat2 - lat1) * (Real.pi / 180) = 0) with h' | h'
      · exact h'
      · exact absurd h' hk
    linarith
  · have : lon2 - lon1 = 0 := by
      rcases mul_eq_zero.1 (by linarith : (lon2 - lon1) * (Real.pi / 180) = 0) with h' | h'
      · exact h'
      · exact absurd h' hk
    linarith

/-- With the real functions the haversine term lies in [0, 1], so that no distance is `NaN`. -/
theorem haversineIsNaN_real (lat1 lon1 lat2 lon2 : Option ℝ) :
    haversineIsNaN realMath lat1 lon1 lat2 lon2 = false := by
  cases lat1 <;> cases lon1 <;> cases lat2 <;> cases lon2 <;> try rfl
  rename_i lat1 lon1 lat2 lon2
  obtain ⟨h0, h1⟩ := haversineTerm_real_bounds lat1 lon1 lat2 lon2
  simp only [haversineIsNaN, decide_eq_false_iff_not, not_or, not_lt]
  exact ⟨h0, h1⟩

theorem portDistanceIsNaN_real (p q : Port ℝ) : portDistanceIsNaN realMath p q = false :=
  haversineIsNaN_real _ _ _ _

theorem distancesAreNumbers_real (ports : List (Port ℝ)) : DistancesAreNumbers realMath ports :=
  fun p _ q _ => portDistanceIsNaN_real p q

/-! ## Lemmas on the distance of a route -/

theorem addLeg_append (M : JsMath α) (l : List (Port α)) (x : Port α) (t : α) (i : Nat)
    (hi : i + 1 < l.length) : addLeg M (l ++ [x]) t i = addLeg M l t i := by
  unfold addLeg
  simp only [List.get?_eq_getElem?]
  rw [List.getElem?_append_left (by omega), List.getElem?_append_left hi]

theorem foldl_addLeg_append (M : JsMath α) (l : List (Port α)) (x : Port α) :
    ∀ m, m ≤ l.length - 1 →
      (List.range m).foldl (addLeg M (l ++ [x])) 0 = (List.range m).foldl (addLeg M l) 0 := by
  intro m
  induction m with
  | zero => intro _; rfl
  | succ m ih =>
    intro hm
    rw [List.range_succ, List.foldl_append, List.foldl_append, ih (by omega)]
    simp only [List.foldl_cons, List.foldl_nil]
    exact addLeg_append M l x _ m (by omega)

/-- Appending a stop adds the leg from the last stop to it. -/
theorem calculateRouteDistance_append (M : JsMath α) (l : List (Port α)) (last x : Port α)
    (hlast : l.getLast? = some last) :
    calculateRouteDistance M (l ++ [x]) = calculateRouteDistance M l + portDistance M last x := by
  have hne : l ≠ [] := by
    intro h; subst h; simp at hlast
  have hpos : 0 < l.length := List.length_pos.2 hne
  have hlen : (l ++ [x]).length = l.length + 1 := by simp
  unfold calculateRouteDistance
  rw [hlen, if_neg (by omega)]
  have hr : l.length + 1 - 1 = (l.length - 1) + 1 := by omega
  rw [hr, List.range_succ, List.foldl_append, foldl_addLeg_append M l x _ (le_refl _)]
  simp only [List.foldl_cons, List.foldl_nil]
  have h1 : (l ++ [x]).get? (l.length - 1) = some last := by
    rw [List.getLast?_eq_getElem?] at hlast
    rw [List.get?_eq_getElem?, List.getElem?_append_left (by omega)]
    exact hlast
  have h2 : (l ++ [x]).get? (l.length - 1 + 1) = some x := by
    have : l.length - 1 + 1 = l.length := by omega
    rw [this, List.get?_eq_getElem?]
    simp
  have hleg : ∀ t, addLeg M (l ++ [x]) t (l.length - 1) = t + portDistance M last x := by
    intro t
    unfold addLeg
    rw [h1, h2]
  rw [hleg]
  split_ifs with h
  · have h1' : l.length - 1 = 0 := by omega
    rw [h1']
    simp
  · rfl

/-- The `minDistance` left by the first pass is the distance to the port it selected. -/
theorem nearestInWindow_dist (M : JsMath α) (vessel : Vessel α) (tw : TimeWindows α)
    (s : TspState α) (l : List (Port α)) :
    ∀ m0 q0 m p, (∀ p0, q0 = some p0 → m0 = some (portDistance M s.currentPort p0)) →
      nearestInWindow M vessel tw s l m0 q0 = (m, some p) →
      m = some (portDistance M s.currentPort p) := by
  induction l with
  | nil =>
    intro m0 q0 m p h0 h
    simp only [nearestInWindow, Prod.mk.injEq] at h
    rw [← h.1]
    exact h0 p h.2
  | cons x rest ih =>
    intro m0 q0 m p h0 h
    simp only [nearestInWindow] at h
    split_ifs at h
    all_goals first
      | exact ih _ _ _ _ h0 h
      | exact ih _ _ _ _ (fun p0 hp0 => by cases hp0; rfl) h

/-- The `minDistance` left by the second pass is the distance to the port it selected. -/
theorem nearestAny_dist (M : JsMath α) (s : TspState α) (l : List (Port α)) :
    ∀ m0 q0 m p, (∀ p0, q0 = some p0 → m0 = some (portDistance M s.currentPort p0)) →
      nearestAny M s l m0 q0 = (m, some p) →
      m = some (portDistance M s.currentPort p) := by
  induction l with
  | nil =>
    intro m0 q0 m p h0 h
    simp only [nearestAny, Prod.mk.injEq] at h
    rw [← h.1]
    exact h0 p h.2
  | cons x rest ih =>
    intro m0 q0 m p h0 h
    simp only [nearestAny] at h
    split_ifs at h
    all_goals first
      | exact ih _ _ _ _ h0 h
      | exact ih _ _ _ _ (fun p0 hp0 => by cases hp0; rfl) h

theorem visit_trace (M : JsMath α) (s : TspState α) (p : Port α) (h : TspTrace M s) :
    TspTrace M (visit s p (some (portDistance M s.currentPort p))) := by
  obtain ⟨h1, h2⟩ := h
  refine ⟨by simp [visit], ?_⟩
  simp only [visit, Option.getD_some]
  rw [calculateRouteDistance_append M s.route s.currentPort p h1, h2]

/-- One round of the loop keeps the bookkeeping. -/
theorem tspStep_trace (M : JsMath α) (vessel : Vessel α) (ports : List (Port α))
    (tw : TimeWindows α) (s : TspState α) (h : TspTrace M s) :
    TspTrace M (tspStep M vessel ports tw s) := by
  unfold tspStep
  rcases h1 : nearestInWindow M vessel tw s ports none none with ⟨m, q⟩
  cases q with
  | some p =>
    have hm := nearestInWindow_dist M vessel tw s ports none none m p
      (fun p0 hp0 => by cases hp0) h1
    subst hm
    exact visit_trace M s p h
  | none =>
    simp only
    rcases h2 : nearestAny M s ports m none with ⟨m2, q2⟩
    cases q2 with
    | none => exact h
    | some p =>
      have hm := nearestAny_dist M s ports m none m2 p (fun p0 hp0 => by cases hp0) h2
      subst hm
      exact visit_trace M s p h

theorem tspLoop_trace (M : JsMath α) (vessel : Vessel α) (ports : List (Port α))
    (tw : TimeWindows α) :
    ∀ (fuel : Nat) (s s' : TspState α), tspLoop M vessel ports tw fuel s = some s' →
      TspTrace M s → TspTrace M s' := by
  intro fuel
  induction fuel with
  | zero =>
    intro s s' h hs
    unfold tspLoop at h
    split_ifs at h
    all_goals first
      | exact hs
      | (cases h; exact hs)
  | succ fuel ih =>
    intro s s' h hs
    unfold tspLoop at h
    split_ifs at h
    all_goals first
      | exact ih _ s' h (tspStep_trace M vessel ports tw s hs)
      | (cases h; exact hs)

theorem tspTrace_init (M : JsMath α) (first : Port α) :
    TspTrace M { visited := setAdd [] first.id, route := [first], currentPort := first,
                 totalDistance := (0 : α) } := by
  refine ⟨rfl, ?_⟩
  simp [calculateRouteDistance]

/-- On a cluster of at least two ports with pairwise distinct ids and distances that are
numbers, `solveTSPForCluster` returns the route built from one final loop state, whatever the
`constraints`. -/
theorem solveTSPForCluster_multi (M : JsMath α) (vessel : Vessel α) (ports : List (Port α))
    (tw : Option (TimeWindows α)) (hn : 1 < ports.length)
    (hid : (ports.map (fun p => p.id)).Nodup) (hnum : DistancesAreNumbers M ports) :
    ∃ s', (∀ cons fuel, ports.length - 1 ≤ fuel →
        solveTSPForCluster M fuel vessel ports tw cons = some (finishRoute M vessel cons s'))
      ∧ TspInv ports s' ∧ TspTrace M s' ∧ s'.route.Perm ports := by
  match ports, hn, hid, hnum with
  | first :: second :: rest, _, hid, hnum =>
    obtain ⟨s', hrun, hinv, hfin⟩ :=
      tspLoop_final M vessel first second rest (tw.getD (fun _ => none)) hid hnum
    refine ⟨s', fun cons fuel hfuel => ?_, hinv, ?_, perm_of_tspInv _ s' hinv hfin⟩
    · simp only [solveTSPForCluster]
      rw [hrun fuel hfuel]
    · exact tspLoop_trace M vessel _ _ _ _ s' (hrun _ (le_refl _)) (tspTrace_init M first)

theorem finishRoute_route (M : JsMath α) (vessel : Vessel α) (cons : Option Constraints)
    (s : TspState α) : (finishRoute M vessel cons s).route = s.route := rfl

/-- The distance of the returned route without `returnToStart`. -/
theorem finishRoute_distance_unset (M : JsMath α) (vessel : Vessel α)
    (cons : Option Constraints) (hc : cons = none ∨ cons = some { returnToStart := false })
    (s : TspState α) : (finishRoute M vessel cons s).distance = s.totalDistance := by
  rcases hc with rfl | rfl <;> simp [finishRoute]

/-- The distance of the returned route with `returnToStart`: the closing leg is added. -/
theorem finishRoute_distance_set (M : JsMath α) (vessel : Vessel α) (s : TspState α)
    (start : Port α) (hlen : 1 < s.route.length) (hstart : s.route.head? = some start) :
    (finishRoute M vessel (some { returnToStart := true }) s).distance
      = s.totalDistance + portDistance M s.currentPort start := by
  simp [finishRoute, hlen, hstart]

/-! ## Lemmas on the utilization formula -/

/-- The capacity that `calculateVesselUtilization` adds for a route of the vessel id `i`. -/
theorem sum_map_ite_eq (ids : List String) (hnd : ids.Nodup) (f : String → α) (x : String)
    (a : α) :
    (ids.map (fun i => if x = i then a else f i)).sum
      = (ids.map f).sum + (if x ∈ ids then a - f x else 0) := by
  induction ids with
  | nil => simp
  | cons i is ih =>
    simp only [List.nodup_cons] at hnd
    simp only [List.map_cons, List.sum_cons, ih hnd.2, List.mem_cons]
    by_cases hxi : x = i
    · subst hxi
      simp only [if_true, true_or, if_neg hnd.1]
      ring
    · simp only [if_neg hxi, hxi, false_or, if_false]
      ring

theorem find_by_id_none (vessels : List (Vessel α)) (i : String)
    (h : i ∉ vessels.map (fun v => v.id)) :
    vessels.find? (fun v => decide (v.id = i)) = none := by
  rw [List.find?_eq_none]
  intro v hv
  simp only [decide_eq_true_eq]
  rintro rfl
  exact h (List.mem_map_of_mem (fun v => v.id) hv)

/-- With pairwise distinct vessel ids and no two routes of the same vessel, the capacities added
up over the routes are the capacities of the vessels that have a route. -/
theorem used_capacity_eq (vessels : List (Vessel α)) (ids : List String)
    (hid : (vessels.map (fun v => v.id)).Nodup) (hnd : ids.Nodup) :
    (ids.map (fun i => (match vessels.find? (fun v => decide (v.id = i)) with
        | some v => orDefault (some v.capacity) 0
        | none => (0 : α)))).sum
      = ((vessels.filter (fun v => decide (v.id ∈ ids))).map (fun v => v.capacity)).sum := by
  induction vessels with
  | nil => simp
  | cons w ws ih =>
    simp only [List.map_cons, List.nodup_cons] at hid
    have hfun : (fun i => (match (w :: ws).find? (fun v => decide (v.id = i)) with
          | some v => orDefault (some v.capacity) 0
          | none => (0 : α)))
        = (fun i => if w.id = i then w.capacity
            else (match ws.find? (fun v => decide (v.id = i)) with
              | some v => orDefault (some v.capacity) 0
              | none => (0 : α))) := by
      funext i
      by_cases hwi : w.id = i
      · simp [List.find?_cons, hwi, orDefault_some_zero]
      · simp [List.find?_cons, hwi]
    rw [hfun, sum_map_ite_eq ids hnd, ih hid.2, find_by_id_none ws w.id hid.1]
    simp only [sub_zero, List.filter_cons]
    by_cases hmem : w.id ∈ ids
    · simp only [hmem, if_true, decide_True, List.map_cons, List.sum_cons]
      ring
    · simp only [hmem, if_false, decide_False, add_zero]
      rfl

/-- The value of `calculateVesselUtilization` for a fleet of total capacity other than 0: the
capacities found for the routes, one per route, over the total capacity, times 100. -/
theorem calculateVesselUtilization_eq (routes : List (Route α)) (vessels : List (Vessel α))
    (htot : (vessels.map (fun v => v.capacity)).sum ≠ 0) :
    calculateVesselUtilization routes vessels
      = ((routes.map (fun r => (match vessels.find? (fun v => decide (v.id = r.vessel)) with
            | some v => v.capacity
            | none => (0 : α)))).sum
          / (vessels.map (fun v => v.capacity)).sum) * 100 := by
  have hne : vessels.length ≠ 0 := by
    intro h
    rw [List.length_eq_zero] at h
    subst h
    simp at htot
  unfold calculateVesselUtilization
  rw [if_neg hne]
  dsimp only
  have ht : vessels.foldl (fun sum v => sum + orDefault (some v.capacity) 0) 0
      = (vessels.map (fun v => v.capacity)).sum := by
    rw [foldl_add_eq_sum, zero_add]
    simp only [orDefault_some_zero]
  rw [ht, if_neg htot, foldl_add_eq_sum, zero_add]
  congr 3
  apply List.map_congr_left
  intro r _
  cases vessels.find? (fun v => decide (v.id = r.vessel)) with
  | none => rfl
  | some v => exact orDefault_some_zero _

/-! ## Lemmas on ports with the same coordinates -/

/-- The nearest centroid of a port depends on its coordinates only. -/
theorem closestCentroidFrom_congr (M : JsMath α) (p q : Port α) (h : p.location = q.location)
    (centroids : List (Port α)) :
    ∀ idx minDistance best,
      closestCentroidFrom M p centroids idx minDistance best
        = closestCentroidFrom M q centroids idx minDistance best := by
  induction centroids with
  | nil => intro idx m best; rfl
  | cons c rest ih =>
    intro idx m best
    have hd : portDistance M p c = portDistance M q c := by
      simp only [portDistance, h]
    have hlt : distanceLt M p c m = distanceLt M q c m := by
      simp only [distanceLt, portDistanceIsNaN, portDistance, h]
    simp only [closestCentroidFrom, hd, hlt, ih]

theorem get?_pushAt {β : Type} (clusters : List (List β)) (i : Nat) (x : β) :
    ∀ j c, clusters.get? j = some c →
      (pushAt clusters i x).get? j = some (if j = i then c ++ [x] else c) := by
  induction clusters generalizing i with
  | nil => intro j c h; simp at h
  | cons d ds ih =>
    intro j c h
    cases i with
    | zero =>
      cases j with
      | zero =>
        simp only [List.get?_cons_zero, Option.some.injEq] at h
        simp [pushAt, h]
      | succ j =>
        simpa [pushAt] using h
    | succ i =>
      cases j with
      | zero =>
        simp only [List.get?_cons_zero, Option.some.injEq] at h
        simp [pushAt, h]
      | succ j =>
        simp only [List.get?_cons_succ] at h
        simp only [pushAt, List.get?_cons_succ, ih i j c h, Nat.succ_inj']

/-- A port already in cluster `j` stays there during the rest of the assignment step. -/
theorem foldl_pushAt_mem_of_mem {β : Type} (f : β → Nat) (xs : List β) :
    ∀ (acc : List (List β)) (j : Nat) (c : List β) (y : β), acc.get? j = some c → y ∈ c →
      ∃ c', (xs.foldl (fun clusters x => pushAt clusters (f x) x) acc).get? j = some c'
        ∧ y ∈ c' := by
  induction xs with
  | nil => intro acc j c y h hy; exact ⟨c, h, hy⟩
  | cons x xs ih =>
    intro acc j c y h hy
    simp only [List.foldl_cons]
    refine ih _ j _ y (get?_pushAt acc (f x) x j c h) ?_
    split_ifs
    · exact List.mem_append_left _ hy
    · exact hy

/-- The assignment step puts every port into the cluster of its index. -/
theorem foldl_pushAt_mem {β : Type} (f : β → Nat) (xs : List β) :
    ∀ (acc : List (List β)) (x : β), x ∈ xs → f x < acc.length →
      ∃ c, (xs.foldl (fun clusters x => pushAt clusters (f x) x) acc).get? (f x) = some c
        ∧ x ∈ c := by
  induction xs with
  | nil => intro acc x hx; cases hx
  | cons y ys ih =>
    intro acc x hx hlt
    simp only [List.foldl_cons]
    rcases List.mem_cons.1 hx with rfl | hx'
    · obtain ⟨c, hc⟩ : ∃ c, acc.get? (f x) = some c := ⟨_, List.get?_eq_get hlt⟩
      refine foldl_pushAt_mem_of_mem f ys _ (f x) _ x (get?_pushAt acc (f x) x (f x) c hc) ?_
      simp
    · exact ih _ x hx' (by rw [length_pushAt]; exact hlt)

/-- In the k-means branch, two input ports with the same coordinates are returned in the same
cluster. -/
theorem same_cluster_of_same_location (M : JsMath α) (ports : List (Port α))
    (demands : Option (List α)) (k : Nat) (hk : 1 ≤ k) (hlt : k < ports.length)
    (p q : Port α) (hp : p ∈ ports) (hq : q ∈ ports) (h : p.location = q.location) :
    ∃ c ∈ clusterPortsByProximity M ports demands k, p ∈ c ∧ q ∈ c := by
  unfold clusterPortsByProximity
  rw [if_neg (by omega)]
  simp only
  obtain ⟨cs, hcs, heq⟩ := kmeansLoop_fromAssignment M ports k hlt
  rw [heq]
  have hidx : closestCentroidIndex M cs p = closestCentroidIndex M cs q :=
    closestCentroidFrom_congr M p q h cs 0 none 0
  have hlen : closestCentroidIndex M cs p < (List.replicate k ([] : List (Port α))).length := by
    rw [List.length_replicate]; exact closestCentroidIndex_lt M cs p k hk hcs
  have hlenq : closestCentroidIndex M cs q < (List.replicate k ([] : List (Port α))).length := by
    rw [← hidx]; exact hlen
  obtain ⟨c, hc, hpc⟩ := foldl_pushAt_mem (fun port => closestCentroidIndex M cs port) ports
    (List.replicate k []) p hp hlen
  obtain ⟨c', hc', hqc⟩ := foldl_pushAt_mem (fun port => closestCentroidIndex M cs port) ports
    (List.replicate k []) q hq hlenq
  rw [← hidx, hc] at hc'
  simp only [Option.some.injEq] at hc'
  subst hc'
  refine ⟨c, ?_, hpc, hqc⟩
  rw [List.mem_filter]
  refine ⟨List.get?_mem hc, ?_⟩
  simp only [gt_iff_lt, decide_eq_true_eq]
  exact List.length_pos_of_mem hpc

/-! ## Lemmas on the total time -/

/-- The ports `E0` and `E90` are at a distance other than 0. -/
theorem portDistance_E0_E90 : portDistance realMath portE0 portE90 ≠ 0 := by
  intro h
  have := haversineTerm_real_eq_zero 0 0 0 90 (by norm_num) (by norm_num) (by norm_num)
    ((calculateHaversineDistance_real_eq_zero 0 0 0 90).1 h)
  norm_num at this

theorem calculateTotalTime_eq_sum (routes : List (Route α)) :
    calculateTotalTime routes = (routes.map (fun r => r.time)).sum := by
  unfold calculateTotalTime
  rw [foldl_add_eq_sum, zero_add]
  simp only [orDefault_some_zero]

/-! ## Lemmas on the rounds of the route solver -/

theorem consecutiveDistance_append (M : JsMath α) (l : List (Port α)) (last x : Port α)
    (hlast : l.getLast? = some last) :
    consecutiveDistance M (l ++ [x]) = consecutiveDistance M l + portDistance M last x := by
  induction l with
  | nil => simp at hlast
  | cons a t ih =>
    cases t with
    | nil =>
      simp only [List.getLast?_singleton, Option.some.injEq] at hlast
      subst hlast
      simp [consecutiveDistance]
    | cons b t' =>
      have hl : (b :: t').getLast? = some last := by
        rw [List.getLast?_cons_cons] at hlast; exact hlast
      have := ih hl
      show portDistance M a b + consecutiveDistance M ((b :: t') ++ [x])
        = portDistance M a b + consecutiveDistance M (b :: t') + portDistance M last x
      rw [this, add_assoc]

/-- The loop of `calculateRouteDistance` adds up the legs between consecutive stops. -/
theorem calculateRouteDistance_eq_consecutive (M : JsMath α) (l : List (Port α)) :
    calculateRouteDistance M l = consecutiveDistance M l := by
  induction l using List.reverseRecOn with
  | nil => simp [calculateRouteDistance, consecutiveDistance]
  | append_singleton l x ih =>
    cases hl : l.getLast? with
    | none =>
      rw [List.getLast?_eq_none_iff] at hl
      subst hl
      simp [calculateRouteDistance, consecutiveDistance]
    | some last =>
      rw [calculateRouteDistance_append M l last x hl,
        consecutiveDistance_append M l last x hl, ih]


/-- The state after `i` rounds of the loop, for `i` up to `n - 1`, when the distances are
numbers: the invariant holds and `1 + i` ports are visited. -/
theorem tspStep_iterate (M : JsMath α) (vessel : Vessel α) (first second : Port α)
    (rest : List (Port α)) (tw : TimeWindows α)
    (hid : ((first :: second :: rest).map (fun p => p.id)).Nodup)
    (hnum : DistancesAreNumbers M (first :: second :: rest)) :
    ∀ i, i ≤ (first :: second :: rest).length - 1 →
      TspInv (first :: second :: rest)
          ((tspStep M vessel (first :: second :: rest) tw)^[i] (tspStart first))
        ∧ ((tspStep M vessel (first :: second :: rest) tw)^[i]
            (tspStart first)).route.getLast?
          = some ((tspStep M vessel (first :: second :: rest) tw)^[i]
            (tspStart first)).currentPort
        ∧ ((tspStep M vessel (first :: second :: rest) tw)^[i] (tspStart first)).visited.length
          = 1 + i := by
  intro i
  induction i with
  | zero =>
    intro _
    exact ⟨tspInv_init first second rest, rfl, by simp [tspStart, setAdd]⟩
  | succ i ih =>
    intro hi
    obtain ⟨hinv, hlast, hlen⟩ := ih (by omega)
    rw [Function.iterate_succ_apply']
    have hlt : ((tspStep M vessel (first :: second :: rest) tw)^[i]
        (tspStart first)).visited.length < (first :: second :: rest).length := by
      rw [hlen]; omega
    obtain ⟨p, m, hstep, hp, hv⟩ := tspStep_eq_visit M vessel _ tw _ hid hlt
      (hnum _ (currentPort_mem _ _ hinv hlast))
    obtain ⟨hinv', hlen'⟩ := visit_inv _ _ p m hinv hp hv
    rw [hstep]
    exact ⟨hinv', visit_getLast? _ p m, by rw [hlen', hlen]; omega⟩

/-- The loop runs the step until the visited set is full: when the `j`-th iterate is the first
one with a full visited set, the loop returns it with any fuel from `j` on and runs out of fuel
below `j`. -/
theorem tspLoop_eq_iterate (M : JsMath α) (vessel : Vessel α) (ports : List (Port α))
    (tw : TimeWindows α) :
    ∀ (j fuel : Nat) (s : TspState α),
      (∀ i, i < j → ((tspStep M vessel ports tw)^[i] s).visited.length < ports.length) →
      ¬ ((tspStep M vessel ports tw)^[j] s).visited.length < ports.length →
      tspLoop M vessel ports tw fuel s
        = if j ≤ fuel then some ((tspStep M vessel ports tw)^[j] s) else none := by
  intro j
  induction j with
  | zero =>
    intro fuel s _ hj
    simp only [Function.iterate_zero, id_eq] at hj
    unfold tspLoop
    rw [if_neg hj]
    simp
  | succ j ih =>
    intro fuel s hlt hj
    have h0 : s.visited.length < ports.length := hlt 0 (by omega)
    unfold tspLoop
    rw [if_pos h0]
    cases fuel with
    | zero => simp
    | succ fuel =>
      simp only
      rw [ih fuel (tspStep M vessel ports tw s)
        (fun i hi => by
          have := hlt (i + 1) (by omega)
          rwa [Function.iterate_succ_apply] at this)
        (by rwa [Function.iterate_succ_apply] at hj)]
      simp only [Function.iterate_succ_apply, Nat.add_le_add_iff_right]

/-! ## Lemmas on the routes of a result -/

/-- The vessel ids of the routes: the ids of the first vessels of the capacity-sorted list, one
per cluster, when the clusters do not outnumber the vessels. -/
theorem routes_vessel_ids (M : JsMath α) (fuel : Nat) (tw : Option (TimeWindows α))
    (cons : Option Constraints) (vessels : List (Vessel α)) (clusters : List (List (Port α)))
    (rs : List (Route α)) (hle : clusters.length ≤ vessels.length)
    (h : solveAssignments M fuel tw cons (assignVesselsToClusters vessels clusters)
      = .returned rs) :
    rs.map (fun r => r.vessel)
        = ((jsSort (fun (a b : Vessel α) => b.capacity - a.capacity) vessels).take
            clusters.length).map (fun v => v.id)
      ∧ rs.length = clusters.length := by
  have hves := solveAssignments_vessels M fuel tw cons _ rs h
  have htake := assignments_vessels_take vessels clusters hle
  have h1 : (assignVesselsToClusters vessels clusters).map
        (fun a => a.vessel.map (fun v => v.id))
      = ((assignVesselsToClusters vessels clusters).map (fun a => a.vessel)).map
          (fun o => o.map (fun v => v.id)) := by
    rw [List.map_map]; rfl
  rw [h1, htake, List.map_map] at hves
  have h2 : (rs.map (fun r => r.vessel)).map some
      = (((jsSort (fun (a b : Vessel α) => b.capacity - a.capacity) vessels).take
          clusters.length).map (fun v => v.id)).map some := by
    rw [List.map_map, List.map_map]
    exact hves
  have h3 := List.map_injective_iff.2 (Option.some_injective _) h2
  refine ⟨h3, ?_⟩
  have := congrArg List.length h3
  simp only [List.length_map, List.length_take, jsSort_length] at this
  omega

/-- The stops of routes that are permutations of the clusters, taken together, are a
permutation of the ports of the clusters. -/
theorem flatten_routes_perm (assignments : List (Assignment α)) (rs : List (Route α))
    (h : List.Forall₂ (fun (a : Assignment α) (r : Route α) =>
      r.route.Perm a.cluster ∧ r.route.head? = a.cluster.head?) assignments rs) :
    (rs.map (fun r => r.route)).flatten.Perm
      (assignments.map (fun a => a.cluster)).flatten := by
  induction h with
  | nil => exact List.Perm.refl _
  | cons hab _ ih =>
    simp only [List.map_cons, List.flatten_cons]
    exact hab.1.append ih

/-! ## Lemmas on the selection of the next stop -/

theorem isFirstMin_cons_of_lt {β : Type} (f : β → α) (x p : β) (l : List β)
    (h : IsFirstMin f l p) (hlt : f p < f x) : IsFirstMin f (x :: l) p := by
  obtain ⟨pre, post, rfl, h1, h2⟩ := h
  refine ⟨x :: pre, post, rfl, ?_, h2⟩
  intro q hq
  rcases List.mem_cons.1 hq with rfl | hq
  · exact hlt
  · exact h1 q hq

theorem isFirstMin_head {β : Type} (f : β → α) (x : β) (l : List β)
    (h : ∀ q ∈ l, f x ≤ f q) : IsFirstMin f (x :: l) x :=
  ⟨[], l, rfl, fun q hq => absurd hq (List.not_mem_nil q), h⟩

theorem IsFirstMin.mem {β : Type} {f : β → α} {l : List β} {p : β} (h : IsFirstMin f l p) :
    p ∈ l := by
  obtain ⟨pre, post, rfl, -, -⟩ := h
  simp

theorem IsFirstMin.le {β : Type} {f : β → α} {l : List β} {p : β} (h : IsFirstMin f l p) :
    ∀ q ∈ l, f p ≤ f q := by
  obtain ⟨pre, post, rfl, h1, h2⟩ := h
  intro q hq
  simp only [List.mem_append, List.mem_cons] at hq
  rcases hq with hq | rfl | hq
  · exact (h1 q hq).le
  · exact le_refl _
  · exact h2 q hq

/-- The scan from a selection `p0` with value `d0`: it keeps the selection when no tested
element is strictly below `d0`, and ends on the first minimum of the tested elements
otherwise. -/
theorem scanMin_some {β : Type} (ok : β → Bool) (f : β → α) (l : List β) :
    ∀ (d0 : α) (p0 : β),
      ((∀ q ∈ l.filter ok, d0 ≤ f q) ∧ scanMin ok f l (some d0) (some p0) = (some d0, some p0))
      ∨ (∃ p, IsFirstMin f (l.filter ok) p ∧ f p < d0
          ∧ scanMin ok f l (some d0) (some p0) = (some (f p), some p)) := by
  induction l with
  | nil => intro d0 p0; left; exact ⟨fun q hq => absurd hq (List.not_mem_nil q), rfl⟩
  | cons x rest ih =>
    intro d0 p0
    by_cases hok : ok x = true
    · by_cases hlt : f x < d0
      · have hstep : scanMin ok f (x :: rest) (some d0) (some p0)
            = scanMin ok f rest (some (f x)) (some x) := by
          simp [scanMin, hok, ltMin, hlt]
        right
        rw [hstep, List.filter_cons_of_pos hok]
        rcases ih (f x) x with ⟨hall, hres⟩ | ⟨p, hp, hpx, hres⟩
        · exact ⟨x, isFirstMin_head f x _ hall, hlt, hres⟩
        · exact ⟨p, isFirstMin_cons_of_lt f x p _ hp hpx, lt_trans hpx hlt, hres⟩
      · have hstep : scanMin ok f (x :: rest) (some d0) (some p0)
            = scanMin ok f rest (some d0) (some p0) := by
          simp [scanMin, hok, ltMin, hlt]
        rw [hstep, List.filter_cons_of_pos hok]
        rcases ih d0 p0 with ⟨hall, hres⟩ | ⟨p, hp, hpd, hres⟩
        · left
          refine ⟨fun q hq => ?_, hres⟩
          rcases List.mem_cons.1 hq with rfl | hq
          · exact not_lt.1 hlt
          · exact hall q hq
        · right
          exact ⟨p, isFirstMin_cons_of_lt f x p _ hp (lt_of_lt_of_le hpd (not_lt.1 hlt)),
            hpd, hres⟩
    · have hstep : scanMin ok f (x :: rest) (some d0) (some p0)
          = scanMin ok f rest (some d0) (some p0) := by
        simp [scanMin, hok]
      rw [hstep, List.filter_cons_of_neg hok]
      exact ih d0 p0

/-- The scan from `Infinity`: it selects nothing when no element passes the test, and ends on
the first minimum of the tested elements otherwise. -/
theorem scanMin_none {β : Type} (ok : β → Bool) (f : β → α) (l : List β) (q0 : Option β) :
    (l.filter ok = [] ∧ scanMin ok f l none q0 = (none, q0))
      ∨ (∃ p, IsFirstMin f (l.filter ok) p
          ∧ scanMin ok f l none q0 = (some (f p), some p)) := by
  induction l with
  | nil => left; exact ⟨rfl, rfl⟩
  | cons x rest ih =>
    by_cases hok : ok x = true
    · have hstep : scanMin ok f (x :: rest) none q0
          = scanMin ok f rest (some (f x)) (some x) := by
        simp [scanMin, hok, ltMin]
      right
      rw [hstep, List.filter_cons_of_pos hok]
      rcases scanMin_some ok f rest (f x) x with ⟨hall, hres⟩ | ⟨p, hp, hpx, hres⟩
      · exact ⟨x, isFirstMin_head f x _ hall, hres⟩
      · exact ⟨p, isFirstMin_cons_of_lt f x p _ hp hpx, hres⟩
    · have hstep : scanMin ok f (x :: rest) none q0 = scanMin ok f rest none q0 := by
        simp [scanMin, hok]
      rw [hstep, List.filter_cons_of_neg hok]
      exact ih


theorem distanceLt_eq (M : JsMath α) (s : TspState α) (x : Port α) (m : Option α) :
    distanceLt M s.currentPort x m = true
      ↔ reachable M s x = true ∧ ltMin (portDistance M s.currentPort x) m = true := by
  simp [distanceLt, reachable]

theorem nearestInWindow_eq_scanMin (M : JsMath α) (vessel : Vessel α) (tw : TimeWindows α)
    (s : TspState α) (l : List (Port α)) :
    ∀ m q, nearestInWindow M vessel tw s l m q
      = scanMin (fun p => unvisited s p && inWindow vessel tw s p && reachable M s p)
          (portDistance M s.currentPort) l m q := by
  induction l with
  | nil => intro m q; rfl
  | cons x rest ih =>
    intro m q
    simp only [nearestInWindow, scanMin, ih, unvisited, inWindow, Bool.and_eq_true,
      decide_eq_true_eq, ge_iff_le, distanceLt_eq]
    by_cases hv : x.id ∉ s.visited
    · rw [if_pos hv]
      by_cases hc : (reachable M s x = true ∧ ltMin (portDistance M s.currentPort x) m = true)
          ∧ (windowOf tw x).openAt ≤ calculateArrivalTime s.totalDistance vessel.speed
          ∧ calculateArrivalTime s.totalDistance vessel.speed ≤ (windowOf tw x).closeAt
      · rw [if_pos hc, if_pos ⟨⟨⟨hv, hc.2⟩, hc.1.1⟩, hc.1.2⟩]
      · rw [if_neg hc, if_neg (fun h => hc ⟨⟨h.1.2, h.2⟩, h.1.1.2⟩)]
    · rw [if_neg hv, if_neg (fun h => hv h.1.1.1)]

theorem nearestAny_eq_scanMin (M : JsMath α) (s : TspState α) (l : List (Port α)) :
    ∀ m q, nearestAny M s l m q
      = scanMin (fun p => unvisited s p && reachable M s p)
          (portDistance M s.currentPort) l m q := by
  induction l with
  | nil => intro m q; rfl
  | cons x rest ih =>
    intro m q
    simp only [nearestAny, scanMin, ih, unvisited, decide_eq_true_eq, Bool.and_eq_true,
      distanceLt_eq]
    by_cases hv : x.id ∉ s.visited
    · rw [if_pos hv]
      by_cases hc : reachable M s x = true ∧ ltMin (portDistance M s.currentPort x) m = true
      · rw [if_pos hc, if_pos ⟨⟨hv, hc.1⟩, hc.2⟩]
      · rw [if_neg hc, if_neg (fun h => hc ⟨h.1.2, h.2⟩)]
    · rw [if_neg hv, if_neg (fun h => hv h.1.1)]

/-- The next stop when a port is within its window and at a distance that is a number: the
nearest such unvisited port. -/
theorem tspStep_in_window (M : JsMath α) (vessel : Vessel α) (ports : List (Port α))
    (tw : TimeWindows α) (s : TspState α)
    (h : ports.filter (fun p => unvisited s p && inWindow vessel tw s p && reachable M s p)
      ≠ []) :
    ∃ p, IsFirstMin (portDistance M s.currentPort)
        (ports.filter (fun p => unvisited s p && inWindow vessel tw s p && reachable M s p)) p
      ∧ tspStep M vessel ports tw s = visit s p (some (portDistance M s.currentPort p)) := by
  rcases scanMin_none (fun p => unvisited s p && inWindow vessel tw s p && reachable M s p)
    (portDistance M s.currentPort) ports none with ⟨hnil, -⟩ | ⟨p, hp, hres⟩
  · exact absurd hnil h
  · refine ⟨p, hp, ?_⟩
    unfold tspStep
    rw [nearestInWindow_eq_scanMin, hres]

/-- The next stop when no unvisited port is both within its window and at a distance that is a
number: the nearest unvisited port among those at a distance that is a number. -/
theorem tspStep_fallback (M : JsMath α) (vessel : Vessel α) (ports : List (Port α))
    (tw : TimeWindows α) (s : TspState α)
    (h : ports.filter (fun p => unvisited s p && inWindow vessel tw s p && reachable M s p)
      = [])
    (hu : ports.filter (fun p => unvisited s p && reachable M s p) ≠ []) :
    ∃ p, IsFirstMin (portDistance M s.currentPort)
        (ports.filter (fun p => unvisited s p && reachable M s p)) p
      ∧ tspStep M vessel ports tw s = visit s p (some (portDistance M s.currentPort p)) := by
  rcases scanMin_none (fun p => unvisited s p && inWindow vessel tw s p && reachable M s p)
    (portDistance M s.currentPort) ports none with ⟨-, hres⟩ | ⟨p, hp, -⟩
  · rcases scanMin_none (fun p => unvisited s p && reachable M s p)
      (portDistance M s.currentPort) ports none with ⟨hnil, -⟩ | ⟨p, hp, hres2⟩
    · exact absurd hnil hu
    · refine ⟨p, hp, ?_⟩
      unfold tspStep
      rw [nearestInWindow_eq_scanMin, hres]
      simp only
      rw [nearestAny_eq_scanMin, hres2]
  · rw [h] at hp
    exact absurd hp.mem (List.not_mem_nil p)

/-- When every unvisited port is at a `NaN` distance from the current port, neither scan selects
a port and the round leaves the state as it is. -/
theorem tspStep_stuck (M : JsMath α) (vessel : Vessel α) (ports : List (Port α))
    (tw : TimeWindows α) (s : TspState α)
    (hu : ports.filter (fun p => unvisited s p && reachable M s p) = []) :
    tspStep M vessel ports tw s = s := by
  have h : ports.filter (fun p => unvisited s p && inWindow vessel tw s p && reachable M s p)
      = [] := by
    rw [List.filter_eq_nil_iff] at hu ⊢
    intro p hp hc
    apply hu p hp
    simp only [Bool.and_eq_true] at hc ⊢
    exact ⟨hc.1.1, hc.2⟩
  rcases scanMin_none (fun p => unvisited s p && inWindow vessel tw s p && reachable M s p)
    (portDistance M s.currentPort) ports none with ⟨-, hres⟩ | ⟨p, hp, -⟩
  · rcases scanMin_none (fun p => unvisited s p && reachable M s p)
      (portDistance M s.currentPort) ports none with ⟨-, hres2⟩ | ⟨p, hp, -⟩
    · unfold tspStep
      rw [nearestInWindow_eq_scanMin, hres]
      simp only
      rw [nearestAny_eq_scanMin, hres2]
    · rw [hu] at hp
      exact absurd hp.mem (List.not_mem_nil p)
  · rw [h] at hp
    exact absurd hp.mem (List.not_mem_nil p)

/-- A round that leaves the state as it is stays so: the loop does not finish from a state with
an unvisited port, whatever the fuel. -/
theorem tspLoop_stuck (M : JsMath α) (vessel : Vessel α) (ports : List (Port α))
    (tw : TimeWindows α) (s : TspState α) (hlt : s.visited.length < ports.length)
    (hs : tspStep M vessel ports tw s = s) :
    ∀ fuel, tspLoop M vessel ports tw fuel s = none := by
  intro fuel
  induction fuel with
  | zero => unfold tspLoop; rw [if_pos hlt]
  | succ fuel ih =>
    unfold tspLoop
    rw [if_pos hlt]
    simp only
    rw [hs]
    exact ih

/-- The remainder of a non-negative number by 24 lies in [0, 24) and differs from the number by
a multiple of 24. -/
theorem jsMod_nonneg (x : α) (hx : 0 ≤ x) :
    0 ≤ jsMod x 24 ∧ jsMod x 24 < 24 ∧ ∃ n : ℤ, x = 24 * (n : α) + jsMod x 24 := by
  have h24 : (0 : α) < 24 := by norm_num
  have hq : 0 ≤ x / 24 := div_nonneg hx h24.le
  have hfl := Int.floor_le (x / 24)
  have hlt := Int.lt_floor_add_one (x / 24)
  simp only [jsMod, trunc, if_pos hq]
  refine ⟨?_, ?_, ⌊x / 24⌋, by ring⟩
  · have : 24 * ((⌊x / 24⌋ : ℤ) : α) ≤ x := by
      have := mul_le_mul_of_nonneg_left hfl h24.le
      rwa [mul_div_cancel₀ _ h24.ne'] at this
    linarith
  · have : x < 24 * (((⌊x / 24⌋ : ℤ) : α) + 1) := by
      have := mul_lt_mul_of_pos_left hlt h24
      rwa [mul_div_cancel₀ _ h24.ne'] at this
    linarith

/-! ## Lemmas on the recentring step and the clustering loop -/

theorem closestToMeanFrom_eq_scanMin (M : JsMath α) (avgLat avgLng : α) (l : List (Port α)) :
    ∀ m q, some (closestToMeanFrom M avgLat avgLng l m q)
      = (scanMin (fun _ => true)
          (fun port => M.sqrt (M.fl (M.pow (M.fl (port.location.lat - avgLat)) 2
            + M.pow (M.fl (port.location.lng - avgLng)) 2))) l m (some q)).2 := by
  induction l with
  | nil => intro m q; rfl
  | cons x rest ih =>
    intro m q
    simp only [closestToMeanFrom, scanMin, true_and]
    split_ifs
    · exact ih _ _
    · exact ih _ _

/-- The port found for a non-empty cluster is its member closest to the mean, the first one on
ties. -/
theorem closestToMean_isFirstMin (M : JsMath α) (cluster : List (Port α)) (p : Port α)
    (h : closestToMean M cluster = some p) :
    IsFirstMin (meanDistance M cluster) cluster p := by
  cases cluster with
  | nil => simp [closestToMean] at h
  | cons first rest =>
    simp only [closestToMean] at h
    rw [closestToMeanFrom_eq_scanMin] at h
    rcases scanMin_none (fun _ => true) (meanDistance M (first :: rest)) (first :: rest)
        (some first)
      with ⟨hnil, -⟩ | ⟨q, hq, hres⟩
    · simp at hnil
    · have h2 : (scanMin (fun _ => true) (meanDistance M (first :: rest)) (first :: rest) none
          (some first)).2 = some p := h
      rw [hres] at h2
      simp only [Option.some.injEq] at h2
      subst h2
      rw [List.filter_true] at hq
      exact hq

theorem closestToMean_isSome (M : JsMath α) (cluster : List (Port α)) (h : cluster ≠ []) :
    ∃ p, closestToMean M cluster = some p := by
  cases cluster with
  | nil => exact absurd rfl h
  | cons first rest => exact ⟨_, rfl⟩

/-- The recentring of one cluster, in terms of the port it finds. -/
theorem recentreOne_eq (M : JsMath α) (cluster : List (Port α)) (idx : Nat)
    (centroids : List (Port α)) (changed : Bool) :
    recentreOne M cluster idx centroids changed
      = match closestToMean M cluster with
        | none => (centroids, changed)
        | some p =>
          if (centroids.get? idx).map (fun c => c.id) ≠ some p.id then
            (centroids.set idx p, true)
          else (centroids, changed) := by
  cases cluster with
  | nil => rfl
  | cons first rest => rfl

theorem recentreOne_get?_ne (M : JsMath α) (cluster : List (Port α)) (idx j : Nat)
    (centroids : List (Port α)) (changed : Bool) (h : j ≠ idx) :
    (recentreOne M cluster idx centroids changed).1.get? j = centroids.get? j := by
  rw [recentreOne_eq]
  cases closestToMean M cluster with
  | none => rfl
  | some p =>
    simp only
    split_ifs
    · simp only [List.get?_eq_getElem?]
      exact List.getElem?_set_ne (Ne.symm h)
    · rfl

theorem recentreFrom_get?_lt (M : JsMath α) (clusters : List (List (Port α))) :
    ∀ (idx : Nat) (centroids : List (Port α)) (changed : Bool) (j : Nat), j < idx →
      (recentreFrom M clusters idx centroids changed).1.get? j = centroids.get? j := by
  induction clusters with
  | nil => intro idx centroids changed j _; rfl
  | cons c rest ih =>
    intro idx centroids changed j hj
    simp only [recentreFrom]
    rw [ih (idx + 1) _ _ j (by omega), recentreOne_get?_ne M c idx j _ _ (by omega)]

/-- The centroid of a cluster after the recentring step: the port found for the cluster when
its id differs from the id of the old centroid, the old centroid otherwise. -/
theorem recentreFrom_get? (M : JsMath α) (clusters : List (List (Port α))) :
    ∀ (idx : Nat) (centroids : List (Port α)) (changed : Bool) (i : Nat) (c : List (Port α)),
      clusters.get? i = some c →
      (recentreFrom M clusters idx centroids changed).1.get? (idx + i)
        = match closestToMean M c with
          | none => centroids.get? (idx + i)
          | some p =>
            if (centroids.get? (idx + i)).map (fun c => c.id) ≠ some p.id then
              (centroids.get? (idx + i)).map (fun _ => p)
            else centroids.get? (idx + i) := by
  induction clusters with
  | nil => intro idx centroids changed i c h; simp at h
  | cons d rest ih =>
    intro idx centroids changed i c h
    simp only [recentreFrom]
    cases i with
    | zero =>
      simp only [List.get?_cons_zero, Option.some.injEq] at h
      subst h
      simp only [Nat.add_zero]
      rw [recentreFrom_get?_lt M rest (idx + 1) _ _ idx (by omega), recentreOne_eq]
      cases closestToMean M d with
      | none => rfl
      | some p =>
        simp only
        split_ifs
        · simp only [List.get?_eq_getElem?]
          rw [List.getElem?_set_self']
          cases centroids[idx]? <;> rfl
        · rfl
    | succ i =>
      simp only [List.get?_cons_succ] at h
      have := ih (idx + 1) (recentreOne M d idx centroids changed).1
        (recentreOne M d idx centroids changed).2 i c h
      have hidx : idx + 1 + i = idx + (i + 1) := by omega
      rw [hidx] at this
      rw [this, recentreOne_get?_ne M d idx (idx + (i + 1)) _ _ (by omega)]


theorem recentreOne_changed_of_true (M : JsMath α) (cluster : List (Port α)) (idx : Nat)
    (centroids : List (Port α)) :
    (recentreOne M cluster idx centroids true).2 = true := by
  rw [recentreOne_eq]
  cases closestToMean M cluster with
  | none => rfl
  | some p => simp only; split_ifs <;> rfl

theorem recentreFrom_changed_of_true (M : JsMath α) (clusters : List (List (Port α))) :
    ∀ (idx : Nat) (centroids : List (Port α)),
      (recentreFrom M clusters idx centroids true).2 = true := by
  induction clusters with
  | nil => intro idx centroids; rfl
  | cons c rest ih =>
    intro idx centroids
    simp only [recentreFrom]
    rw [recentreOne_changed_of_true]
    exact ih _ _

/-- One cluster is recentred without a change of its centroid exactly when `changed` stays
false. -/
theorem recentreOne_false (M : JsMath α) (cluster : List (Port α)) (idx : Nat)
    (centroids : List (Port α)) (hidx : idx < centroids.length) :
    ((recentreOne M cluster idx centroids false).2 = false →
        (recentreOne M cluster idx centroids false).1 = centroids)
      ∧ ((recentreOne M cluster idx centroids false).2 = true →
        (recentreOne M cluster idx centroids false).1.get? idx ≠ centroids.get? idx) := by
  rw [recentreOne_eq]
  cases closestToMean M cluster with
  | none => exact ⟨fun _ => rfl, fun h => by cases h⟩
  | some p =>
    simp only
    by_cases hne : Option.map (fun q => q.id) (centroids.get? idx) ≠ some p.id
    · rw [if_pos hne]
      refine ⟨fun h => Bool.noConfusion h, fun _ => ?_⟩
      simp only [List.get?_eq_getElem?] at hne ⊢
      rw [List.getElem?_set_self hidx, List.getElem?_eq_getElem hidx]
      rw [List.getElem?_eq_getElem hidx] at hne
      intro heq
      simp only [Option.some.injEq] at heq
      apply hne
      rw [← heq]
      rfl
    · rw [if_neg hne]
      exact ⟨fun _ => rfl, fun h => by cases h⟩

/-- A recentring step leaves `changed` false exactly when it replaces no centroid. -/
theorem recentreFrom_false (M : JsMath α) (clusters : List (List (Port α))) :
    ∀ (idx : Nat) (centroids : List (Port α)), idx + clusters.length ≤ centroids.length →
      ((recentreFrom M clusters idx centroids false).2 = false →
          (recentreFrom M clusters idx centroids false).1 = centroids)
        ∧ ((recentreFrom M clusters idx centroids false).2 = true →
          (recentreFrom M clusters idx centroids false).1 ≠ centroids) := by
  induction clusters with
  | nil => intro idx centroids _; exact ⟨fun _ => rfl, fun h => by cases h⟩
  | cons c rest ih =>
    intro idx centroids hlen
    simp only [List.length_cons] at hlen
    simp only [recentreFrom]
    obtain ⟨h1, h2⟩ := recentreOne_false M c idx centroids (by omega)
    cases hch : (recentreOne M c idx centroids false).2 with
    | false =>
      rw [h1 hch]
      exact ih (idx + 1) centroids (by omega)
    | true =>
      rw [recentreFrom_changed_of_true]
      refine ⟨fun h => Bool.noConfusion h, fun _ heq => ?_⟩
      have := recentreFrom_get?_lt M rest (idx + 1) (recentreOne M c idx centroids false).1 true
        idx (by omega)
      rw [heq] at this
      exact h2 hch this.symm

/-- A round of the k-means loop leaves `changed` false exactly when it changes no centroid. -/
theorem kmeansRound_changed (M : JsMath α) (ports : List (Port α)) (k : Nat)
    (s : KMeansState α) (h : s.centroids.length = k) :
    (kmeansRound M ports k s).changed = false
      ↔ (kmeansRound M ports k s).centroids = s.centroids := by
  obtain ⟨h1, h2⟩ := recentreFrom_false M (assignPorts M s.centroids ports k) 0 s.centroids
    (by rw [length_assignPorts, h]; omega)
  simp only [kmeansRound]
  constructor
  · exact h1
  · intro heq
    cases hch : (recentreFrom M (assignPorts M s.centroids ports k) 0 s.centroids false).2 with
    | false => rfl
    | true => exact absurd heq (h2 hch)

theorem kmeansRound_iterate_length (M : JsMath α) (ports : List (Port α)) (k : Nat)
    (s : KMeansState α) (h : s.centroids.length = k) :
    ∀ n, ((kmeansRound M ports k)^[n] s).centroids.length = k
      ∧ ((kmeansRound M ports k)^[n] s).iterations = s.iterations + n := by
  intro n
  induction n with
  | zero => exact ⟨h, rfl⟩
  | succ n ih =>
    rw [Function.iterate_succ_apply']
    exact ⟨(kmeansRound_spec M ports k _ ih.1).1, by simp only [kmeansRound, ih.2]; omega⟩

/-- The loop runs rounds while `changed` is set, at most as many as it is given: it ends in the
state after some number `N` of rounds, every earlier round having set `changed`, and with
`changed` false when it stops before the bound. -/
theorem kmeansLoop_eq_iterate (M : JsMath α) (ports : List (Port α)) (k : Nat) :
    ∀ (remaining : Nat) (s : KMeansState α),
      ∃ N, N ≤ remaining
        ∧ kmeansLoop M ports k remaining s = (kmeansRound M ports k)^[N] s
        ∧ (∀ i, i < N → ((kmeansRound M ports k)^[i] s).changed = true)
        ∧ (N < remaining → ((kmeansRound M ports k)^[N] s).changed = false) := by
  intro remaining
  induction remaining with
  | zero => intro s; exact ⟨0, le_refl _, rfl, fun i hi => by omega, fun h => by omega⟩
  | succ r ih =>
    intro s
    cases hch : s.changed with
    | false =>
      refine ⟨0, by omega, ?_, fun i hi => by omega, fun _ => hch⟩
      simp [kmeansLoop, hch]
    | true =>
      obtain ⟨N, hN, hloop, hall, hstop⟩ := ih (kmeansRound M ports k s)
      refine ⟨N + 1, by omega, ?_, ?_, ?_⟩
      · simp only [kmeansLoop, hch, if_true, Function.iterate_succ_apply]
        exact hloop
      · intro i hi
        cases i with
        | zero => exact hch
        | succ i =>
          rw [Function.iterate_succ_apply]
          exact hall i (by omega)
      · intro hlt
        rw [Function.iterate_succ_apply]
        exact hstop (by omega)

theorem kmeansStart_length (ports : List (Port α)) (k : Nat) (h : k < ports.length) :
    (kmeansStart ports k).centroids.length = k := by
  simp only [kmeansStart, List.length_take]
  omega

theorem clusterPortsByProximity_eq_loop (M : JsMath α) (ports : List (Port α))
    (demands : Option (List α)) (k : Nat) (h : k < ports.length) :
    clusterPortsByProximity M ports demands k
      = (kmeansLoop M ports k maxIterations (kmeansStart ports k)).clusters.filter
          (fun cluster => decide (cluster.length > 0)) := by
  simp only [clusterPortsByProximity, kmeansStart]
  rw [if_neg (by omega)]

/-! ## Lemmas on the centroids of the clustering loop -/

theorem mem_pushAt {β : Type} (clusters : List (List β)) (i : Nat) (x : β) (c : List β) (y : β)
    (hc : c ∈ pushAt clusters i x) (hy : y ∈ c) : y = x ∨ ∃ d ∈ clusters, y ∈ d := by
  induction clusters generalizing i with
  | nil => simp [pushAt] at hc
  | cons d ds ih =>
    cases i with
    | zero =>
      simp only [pushAt, List.mem_cons] at hc
      rcases hc with rfl | hc
      · rcases List.mem_append.1 hy with h | h
        · exact Or.inr ⟨d, List.mem_cons_self _ _, h⟩
        · exact Or.inl (List.mem_singleton.1 h)
      · exact Or.inr ⟨c, List.mem_cons_of_mem _ hc, hy⟩
    | succ i =>
      simp only [pushAt, List.mem_cons] at hc
      rcases hc with rfl | hc
      · exact Or.inr ⟨c, List.mem_cons_self _ _, hy⟩
      · rcases ih i hc with h | ⟨e, he, hye⟩
        · exact Or.inl h
        · exact Or.inr ⟨e, List.mem_cons_of_mem _ he, hye⟩

theorem mem_foldl_pushAt {β : Type} (f : β → Nat) (xs : List β) :
    ∀ (acc : List (List β)) (c : List β) (y : β),
      c ∈ xs.foldl (fun clusters x => pushAt clusters (f x) x) acc → y ∈ c →
      y ∈ xs ∨ ∃ d ∈ acc, y ∈ d := by
  induction xs with
  | nil => intro acc c y hc hy; exact Or.inr ⟨c, hc, hy⟩
  | cons x xs ih =>
    intro acc c y hc hy
    simp only [List.foldl_cons] at hc
    rcases ih _ c y hc hy with h | ⟨d, hd, hyd⟩
    · exact Or.inl (List.mem_cons_of_mem _ h)
    · rcases mem_pushAt acc (f x) x d y hd hyd with h | h
      · exact Or.inl (by rw [h]; exact List.mem_cons_self _ _)
      · exact Or.inr h

/-- The assignment step puts input ports only into the clusters. -/
theorem mem_assignPorts (M : JsMath α) (centroids ports : List (Port α)) (k : Nat)
    (c : List (Port α)) (y : Port α) (hc : c ∈ assignPorts M centroids ports k) (hy : y ∈ c) :
    y ∈ ports := by
  rcases mem_foldl_pushAt (fun port => closestCentroidIndex M centroids port) ports
    (List.replicate k []) c y hc hy with h | ⟨d, hd, hyd⟩
  · exact h
  · rw [List.eq_of_mem_replicate hd] at hyd
    cases hyd

/-- The centroid of cluster `idx` after a round. -/
theorem kmeansRound_get? (M : JsMath α) (ports : List (Port α)) (k : Nat) (s : KMeansState α)
    (idx : Nat) (cluster : List (Port α))
    (h : (kmeansRound M ports k s).clusters.get? idx = some cluster) :
    (kmeansRound M ports k s).centroids.get? idx
      = match closestToMean M cluster with
        | none => s.centroids.get? idx
        | some p =>
          if (s.centroids.get? idx).map (fun c => c.id) ≠ some p.id then
            (s.centroids.get? idx).map (fun _ => p)
          else s.centroids.get? idx := by
  have := recentreFrom_get? M (assignPorts M s.centroids ports k) 0 s.centroids false idx
    cluster h
  simp only [Nat.zero_add] at this
  exact this

theorem kmeansRound_clusters_length (M : JsMath α) (ports : List (Port α)) (k : Nat)
    (s : KMeansState α) : (kmeansRound M ports k s).clusters.length = k :=
  length_assignPorts M s.centroids ports k

/-- A round keeps the centroids among the input ports. -/
theorem kmeansRound_centroids_mem (M : JsMath α) (ports : List (Port α)) (k : Nat)
    (s : KMeansState α) (hlen : s.centroids.length = k)
    (hmem : ∀ c ∈ s.centroids, c ∈ ports) :
    ∀ c ∈ (kmeansRound M ports k s).centroids, c ∈ ports := by
  intro c hc
  obtain ⟨j, hj⟩ := List.get?_of_mem hc
  have hjk : j < k := by
    have := (List.get?_eq_some.1 hj).1
    rw [(kmeansRound_spec M ports k s hlen).1] at this
    exact this
  obtain ⟨cluster, hcl⟩ : ∃ cluster, (kmeansRound M ports k s).clusters.get? j = some cluster :=
    ⟨_, List.get?_eq_get (by rw [kmeansRound_clusters_length]; exact hjk)⟩
  have hget := kmeansRound_get? M ports k s j cluster hcl
  rw [hj] at hget
  have hold : ∀ c, s.centroids.get? j = some c → c ∈ ports :=
    fun c h => hmem c (List.get?_mem h)
  cases hmean : closestToMean M cluster with
  | none =>
    rw [hmean] at hget
    exact hold c hget.symm
  | some p =>
    rw [hmean] at hget
    simp only at hget
    by_cases hne : Option.map (fun c => c.id) (s.centroids.get? j) ≠ some p.id
    · rw [if_pos hne] at hget
      cases hs : s.centroids.get? j with
      | none => rw [hs] at hget; cases hget
      | some c0 =>
        rw [hs] at hget
        simp only [Option.map_some', Option.some.injEq] at hget
        rw [hget]
        exact mem_assignPorts M s.centroids ports k cluster p (List.get?_mem hcl)
          (closestToMean_isFirstMin M cluster p hmean).mem
    · rw [if_neg hne] at hget
      exact hold c hget.symm

theorem kmeansRound_iterate_mem (M : JsMath α) (ports : List (Port α)) (k : Nat)
    (h : k < ports.length) :
    ∀ n, ∀ c ∈ ((kmeansRound M ports k)^[n] (kmeansStart ports k)).centroids, c ∈ ports := by
  intro n
  induction n with
  | zero => intro c hc; exact List.mem_of_mem_take hc
  | succ n ih =>
    rw [Function.iterate_succ_apply']
    exact kmeansRound_centroids_mem M ports k _
      (kmeansRound_iterate_length M ports k _ (kmeansStart_length ports k h) n).1 ih

/-- Two ports of a list with pairwise distinct ids that carry the same id are the same port. -/
theorem eq_of_id_eq (ports : List (Port α)) (hid : (ports.map (fun p => p.id)).Nodup)
    (p q : Port α) (hp : p ∈ ports) (hq : q ∈ ports) (h : p.id = q.id) : p = q :=
  List.inj_on_of_nodup_map hid hp hq h

/-- With one centroid every port goes to cluster 0. -/
theorem assignPorts_one (M : JsMath α) (c : Port α) (ports : List (Port α)) :
    assignPorts M [c] ports 1 = [ports] := by
  have hidx : ∀ p, closestCentroidIndex M [c] p = 0 := by
    intro p
    simp only [closestCentroidIndex, closestCentroidFrom]
    split_ifs <;> rfl
  have := foldl_pushAt_single (fun port => closestCentroidIndex M [c] port) hidx ports []
  simpa [assignPorts] using this

theorem meanDistance_XZW :
    meanDistance realMath [portX, portZ, portW] portX = 1
      ∧ meanDistance realMath [portX, portZ, portW] portZ = 0
      ∧ meanDistance realMath [portX, portZ, portW] portW = 1 := by
  refine ⟨?_, ?_, ?_⟩ <;>
    simp [meanDistance, realMath, portX, portZ, portW]

theorem closestToMean_XZW : closestToMean realMath [portX, portZ, portW] = some portZ := by
  obtain ⟨p, hp⟩ := closestToMean_isSome realMath [portX, portZ, portW] (by simp)
  have hmin := closestToMean_isFirstMin realMath _ p hp
  obtain ⟨hX, hZ, hW⟩ := meanDistance_XZW
  have hle := hmin.le portZ (by simp)
  rw [hZ] at hle
  have hmem := hmin.mem
  simp only [List.mem_cons, List.mem_singleton, List.not_mem_nil, or_false] at hmem
  rcases hmem with rfl | rfl | rfl
  · rw [hX] at hle; norm_num at hle
  · exact hp
  · rw [hW] at hle; norm_num at hle

/-! ## Lemmas on the sign of distance, time and cost -/

theorem orDefault_nonneg (x : Option α) (d : α) (hd : 0 ≤ d) (hx : ∀ v, x = some v → 0 ≤ v) :
    0 ≤ orDefault x d := by
  cases x with
  | none => exact hd
  | some v =>
    simp only [orDefault]
    split_ifs
    · exact hd
    · exact hx v rfl

/-- The haversine distance computed with the real functions is not negative. -/
theorem portDistance_real_nonneg (p q : Port ℝ) : 0 ≤ portDistance realMath p q := by
  unfold portDistance
  rw [calculateHaversineDistance_real]
  have := Real.arccos_nonneg (centralCos p.location.lat p.location.lng q.location.lat
    q.location.lng)
  positivity

/-- The cost of a route is not negative when its time and the cost fields of the vessel are not
negative. -/
theorem calculateRouteCostForVessel_nonneg (route : RouteSummary α) (vessel : Vessel α)
    (ht : 0 ≤ route.time)
    (hfuel : ∀ a, vessel.fuelConsumption.bind (fun f => f.atSea) = some a → 0 ≤ a)
    (hop : ∀ o, vessel.dailyOperatingCost = some o → 0 ≤ o)
    (hcrew : ∀ c, vessel.crew = some c → 0 ≤ c) :
    0 ≤ calculateRouteCostForVessel route vessel := by
  have h1 := orDefault_nonneg (vessel.fuelConsumption.bind (fun f => f.atSea)) 20
    (by norm_num) hfuel
  have h2 := orDefault_nonneg vessel.dailyOperatingCost 10000 (by norm_num) hop
  have h3 := orDefault_nonneg vessel.crew 15 (by norm_num) hcrew
  have h4 : (0 : α) ≤ (route.ports : α) := Nat.cast_nonneg _
  have h5 : 0 ≤ route.time / 24 := div_nonneg ht (by norm_num)
  simp only [calculateRouteCostForVessel]
  positivity

theorem calculateSinglePortCost_nonneg (vessel : Vessel α) (port : Port α)
    (hop : ∀ o, vessel.dailyOperatingCost = some o → 0 ≤ o)
    (hcrew : ∀ c, vessel.crew = some c → 0 ≤ c)
    (hfee : ∀ b, port.charges.bind (fun c => c.berthing) = some b → 0 ≤ b) :
    0 ≤ calculateSinglePortCost vessel port := by
  have h1 := orDefault_nonneg (port.charges.bind (fun c => c.berthing)) 5000 (by norm_num) hfee
  have h2 := orDefault_nonneg vessel.dailyOperatingCost 10000 (by norm_num) hop
  have h3 : 0 ≤ orDefault (vessel.crew.map (fun c => c * 150)) 2250 := by
    apply orDefault_nonneg _ _ (by norm_num)
    intro v hv
    cases hc : vessel.crew with
    | none => rw [hc] at hv; cases hv
    | some c =>
      rw [hc] at hv
      simp only [Option.map_some', Option.some.injEq] at hv
      rw [← hv]
      exact mul_nonneg (hcrew c hc) (by norm_num)
  simp only [calculateSinglePortCost]
  positivity

/-! ## Lemmas on the number of clusters -/

/-- Once the running minimum is 0, no later centroid replaces the selection. -/
theorem closestCentroidFrom_after_zero (M : JsMath α) (p : Port α) (rest : List (Port α))
    (hnn : ∀ c ∈ rest, 0 ≤ portDistance M p c) :
    ∀ idx best, closestCentroidFrom M p rest idx (some 0) best = best := by
  induction rest with
  | nil => intro idx best; rfl
  | cons c rest ih =>
    intro idx best
    have hc := hnn c (List.mem_cons_self _ _)
    have hlt : ¬ distanceLt M p c (some 0) = true := by
      simp only [distanceLt, ltMin, Bool.and_eq_true, decide_eq_true_eq, not_and, not_lt]
      exact fun _ => hc
    simp only [closestCentroidFrom]
    rw [if_neg hlt]
    exact ih (fun x hx => hnn x (List.mem_cons_of_mem _ hx)) _ _

/-- A centroid at distance 0, after centroids at positive distance only, is the one selected. -/
theorem closestCentroidFrom_first_zero (M : JsMath α) (p c : Port α) (post : List (Port α))
    (hc : portDistance M p c = 0) (hnum : portDistanceIsNaN M p c = false)
    (hpost : ∀ x ∈ post, 0 ≤ portDistance M p x) :
    ∀ (pre : List (Port α)), (∀ x ∈ pre, 0 < portDistance M p x) →
      ∀ idx (m : Option α) best, (∀ v, m = some v → 0 < v) →
        closestCentroidFrom M p (pre ++ c :: post) idx m best = idx + pre.length := by
  intro pre
  induction pre with
  | nil =>
    intro _ idx m best hm
    simp only [List.nil_append, closestCentroidFrom, hc, List.length_nil, Nat.add_zero]
    have hlt : distanceLt M p c m = true := by
      cases m with
      | none => simp [distanceLt, ltMin, hnum]
      | some v => simpa [distanceLt, ltMin, hnum, hc] using hm v rfl
    rw [if_pos hlt]
    exact closestCentroidFrom_after_zero M p post hpost _ _
  | cons x pre ih =>
    intro hpre idx m best hm
    have hx := hpre x (List.mem_cons_self _ _)
    have hpre2 : ∀ y ∈ pre, 0 < portDistance M p y :=
      fun y hy => hpre y (List.mem_cons_of_mem _ hy)
    show closestCentroidFrom M p (x :: (pre ++ c :: post)) idx m best
      = idx + (x :: pre).length
    rw [closestCentroidFrom, List.length_cons]
    by_cases hlt : distanceLt M p x m = true
    · rw [if_pos hlt, ih hpre2 (idx + 1) (some (portDistance M p x)) idx
        (fun v hv => by rw [← Option.some.inj hv]; exact hx)]
      omega
    · rw [if_neg hlt, ih hpre2 (idx + 1) m best hm]
      omega

theorem eq_append_of_get? {β : Type} :
    ∀ (l : List β) (i : Nat) (c : β), l.get? i = some c →
      ∃ pre post, l = pre ++ c :: post ∧ pre.length = i
  | [], i, c, h => by simp at h
  | x :: l, 0, c, h => by
    simp only [List.get?_cons_zero, Option.some.injEq] at h
    exact ⟨[], l, by rw [h]; rfl, rfl⟩
  | x :: l, i + 1, c, h => by
    simp only [List.get?_cons_succ] at h
    obtain ⟨pre, post, hl, hlen⟩ := eq_append_of_get? l i c h
    exact ⟨x :: pre, post, by rw [hl]; rfl, by simp [hlen]⟩

/-- Among pairwise different centroids taken from ports that are at positive distance from each
other, a centroid is its own nearest centroid. -/
theorem closestCentroidIndex_self (M : JsMath α) (ports centroids : List (Port α))
    (hself : ∀ a : Port α, portDistance M a a = 0)
    (hselfnum : ∀ a : Port α, portDistanceIsNaN M a a = false)
    (hdist : ∀ a ∈ ports, ∀ b ∈ ports, a ≠ b → 0 < portDistance M a b)
    (hmem : ∀ c ∈ centroids, c ∈ ports) (hnd : centroids.Nodup)
    (i : Nat) (c : Port α) (hc : centroids.get? i = some c) :
    closestCentroidIndex M centroids c = i := by
  obtain ⟨pre, post, hl, hlen⟩ := eq_append_of_get? centroids i c hc
  subst hl
  have hcm : c ∈ ports := hmem c (by simp)
  have hnd2 := List.nodup_middle.1 hnd
  rw [List.nodup_cons, List.mem_append, not_or] at hnd2
  have hpre : ∀ x ∈ pre, 0 < portDistance M c x := fun x hx =>
    hdist c hcm x (hmem x (by simp [hx])) (fun h => hnd2.1.1 (by rw [h]; exact hx))
  have hpost : ∀ x ∈ post, 0 ≤ portDistance M c x := fun x hx =>
    (hdist c hcm x (hmem x (by simp [hx])) (fun h => hnd2.1.2 (by rw [h]; exact hx))).le
  have := closestCentroidFrom_first_zero M c c post (hself c) (hselfnum c) hpost pre hpre 0
    none 0
    (fun v hv => by cases hv)
  rw [Nat.zero_add, hlen] at this
  exact this

/-- The assignment step puts every centroid into its own cluster. -/
theorem assignPorts_centroid_mem (M : JsMath α) (ports centroids : List (Port α)) (k : Nat)
    (hself : ∀ a : Port α, portDistance M a a = 0)
    (hselfnum : ∀ a : Port α, portDistanceIsNaN M a a = false)
    (hdist : ∀ a ∈ ports, ∀ b ∈ ports, a ≠ b → 0 < portDistance M a b)
    (hinv : CentroidInv ports k centroids)
    (i : Nat) (c : Port α) (hc : centroids.get? i = some c) :
    ∃ cluster, (assignPorts M centroids ports k).get? i = some cluster ∧ c ∈ cluster := by
  obtain ⟨hlen, hmem, hnd⟩ := hinv
  have hidx := closestCentroidIndex_self M ports centroids hself hselfnum hdist hmem hnd i c
    hc
  have hik : i < k := by
    have := (List.get?_eq_some.1 hc).1
    omega
  have := foldl_pushAt_mem (fun port => closestCentroidIndex M centroids port) ports
    (List.replicate k []) c (hmem c (List.get?_mem hc))
    (by simp only [hidx, List.length_replicate]; exact hik)
  simp only [hidx] at this
  exact this

/-- The clusters of an assignment step over pairwise different ports are pairwise disjoint. -/
theorem assignPorts_disjoint (M : JsMath α) (ports centroids : List (Port α)) (k : Nat)
    (hk : 1 ≤ k) (hlen : centroids.length = k) (hnd : ports.Nodup)
    (i j : Nat) (hij : i < j) (ci cj : List (Port α))
    (hi : (assignPorts M centroids ports k).get? i = some ci)
    (hj : (assignPorts M centroids ports k).get? j = some cj) :
    ∀ a, a ∈ ci → a ∈ cj → False := by
  have hperm := assignPorts_perm M centroids ports k hk hlen
  have hfl := (List.nodup_flatten.1 ((hperm.nodup_iff).2 hnd)).2
  obtain ⟨hi1, hi2⟩ := List.get?_eq_some.1 hi
  obtain ⟨hj1, hj2⟩ := List.get?_eq_some.1 hj
  have := List.pairwise_iff_get.1 hfl ⟨i, hi1⟩ ⟨j, hj1⟩ hij
  rw [hi2, hj2] at this
  intro a ha hb
  exact this ha hb

/-- The centroid of a cluster after a round is a member of the cluster when the centroid from
before the round is. -/
theorem kmeansRound_centroid_mem_cluster (M : JsMath α) (ports : List (Port α)) (k : Nat)
    (s : KMeansState α) (i : Nat) (c : Port α) (cluster : List (Port α))
    (hc : s.centroids.get? i = some c)
    (hcl : (kmeansRound M ports k s).clusters.get? i = some cluster) (hmem : c ∈ cluster) :
    ∃ c', (kmeansRound M ports k s).centroids.get? i = some c' ∧ c' ∈ cluster := by
  have hget := kmeansRound_get? M ports k s i cluster hcl
  rw [hc] at hget
  cases hmean : closestToMean M cluster with
  | none =>
    rw [hmean] at hget
    exact ⟨c, hget, hmem⟩
  | some p =>
    rw [hmean] at hget
    simp only [Option.map_some'] at hget
    by_cases hne : some c.id ≠ some p.id
    · rw [if_pos hne] at hget
      exact ⟨p, hget, (closestToMean_isFirstMin M cluster p hmean).mem⟩
    · rw [if_neg hne] at hget
      exact ⟨c, hget, hmem⟩

/-- A round keeps the centroids pairwise different ports of the input, and puts each of them
into its own cluster. -/
theorem kmeansRound_inv (M : JsMath α) (ports : List (Port α)) (k : Nat) (hk : 1 ≤ k)
    (hself : ∀ a : Port α, portDistance M a a = 0)
    (hselfnum : ∀ a : Port α, portDistanceIsNaN M a a = false)
    (hdist : ∀ a ∈ ports, ∀ b ∈ ports, a ≠ b → 0 < portDistance M a b)
    (hnd : ports.Nodup) (s : KMeansState α) (hinv : CentroidInv ports k s.centroids) :
    (∀ i c, s.centroids.get? i = some c →
        ∃ cluster, (kmeansRound M ports k s).clusters.get? i = some cluster ∧ c ∈ cluster)
      ∧ (∀ cluster ∈ (kmeansRound M ports k s).clusters, cluster ≠ [])
      ∧ CentroidInv ports k (kmeansRound M ports k s).centroids := by
  have hown : ∀ i c, s.centroids.get? i = some c →
      ∃ cluster, (kmeansRound M ports k s).clusters.get? i = some cluster ∧ c ∈ cluster :=
    fun i c hc => assignPorts_centroid_mem M ports s.centroids k hself hselfnum hdist hinv i c hc
  have hlen' := (kmeansRound_spec M ports k s hinv.1).1
  refine ⟨hown, ?_, hlen', kmeansRound_centroids_mem M ports k s hinv.1 hinv.2.1, ?_⟩
  · intro cluster hcl hnil
    obtain ⟨i, hi⟩ := List.get?_of_mem hcl
    have hik : i < k := by
      have := (List.get?_eq_some.1 hi).1
      rw [kmeansRound_clusters_length] at this
      exact this
    obtain ⟨c, hc⟩ : ∃ c, s.centroids.get? i = some c :=
      ⟨_, List.get?_eq_get (by rw [hinv.1]; exact hik)⟩
    obtain ⟨cluster', hcl', hmem⟩ := hown i c hc
    rw [hi] at hcl'
    cases hcl'
    rw [hnil] at hmem
    cases hmem
  · rw [List.nodup_iff_get?_ne_get?]
    intro i j hij hj heq
    rw [hlen'] at hj
    obtain ⟨ci, hci⟩ : ∃ c, s.centroids.get? i = some c :=
      ⟨_, List.get?_eq_get (by rw [hinv.1]; omega)⟩
    obtain ⟨cj, hcj⟩ : ∃ c, s.centroids.get? j = some c :=
      ⟨_, List.get?_eq_get (by rw [hinv.1]; omega)⟩
    obtain ⟨cli, hcli, hmi⟩ := hown i ci hci
    obtain ⟨clj, hclj, hmj⟩ := hown j cj hcj
    obtain ⟨a, ha, hacl⟩ := kmeansRound_centroid_mem_cluster M ports k s i ci cli hci hcli hmi
    obtain ⟨b, hb, hbcl⟩ := kmeansRound_centroid_mem_cluster M ports k s j cj clj hcj hclj hmj
    rw [ha, hb] at heq
    cases heq
    exact assignPorts_disjoint M ports s.centroids k hk hinv.1 hnd i j hij cli clj hcli hclj
      a hacl hbcl

theorem centroidInv_start (ports : List (Port α)) (k : Nat) (hlt : k < ports.length)
    (hnd : ports.Nodup) : CentroidInv ports k (kmeansStart ports k).centroids :=
  ⟨kmeansStart_length ports k hlt, fun _ hc => List.mem_of_mem_take hc,
    hnd.sublist (List.take_sublist k ports)⟩

theorem kmeansRound_iterate_inv (M : JsMath α) (ports : List (Port α)) (k : Nat) (hk : 1 ≤ k)
    (hlt : k < ports.length)
    (hself : ∀ a : Port α, portDistance M a a = 0)
    (hselfnum : ∀ a : Port α, portDistanceIsNaN M a a = false)
    (hdist : ∀ a ∈ ports, ∀ b ∈ ports, a ≠ b → 0 < portDistance M a b)
    (hnd : ports.Nodup) :
    ∀ n, CentroidInv ports k ((kmeansRound M ports k)^[n] (kmeansStart ports k)).centroids := by
  intro n
  induction n with
  | zero => exact centroidInv_start ports k hlt hnd
  | succ n ih =>
    rw [Function.iterate_succ_apply']
    exact (kmeansRound_inv M ports k hk hself hselfnum hdist hnd _ ih).2.2

theorem filter_nonempty_eq {β : Type} (l : List (List β)) (h : ∀ c ∈ l, c ≠ []) :
    l.filter (fun cluster => decide (cluster.length > 0)) = l := by
  rw [List.filter_eq_self]
  intro c hc
  have := List.length_pos.2 (h c hc)
  simpa using this

/-- Ports at pairwise positive distance, measured with the real functions, are pairwise
different, and the distance is positive in both directions. -/
theorem pairwise_positive_real (ports : List (Port ℝ))
    (hpos : ports.Pairwise (fun p q => 0 < portDistance realMath p q)) :
    ports.Nodup ∧ ∀ a ∈ ports, ∀ b ∈ ports, a ≠ b → 0 < portDistance realMath a b := by
  have hself : ∀ a : Port ℝ, portDistance realMath a a = 0 :=
    fun a => calculateHaversineDistance_real_self _ _
  refine ⟨hpos.imp (fun {a b} h hab => ?_), ?_⟩
  · rw [hab, hself] at h
    exact lt_irrefl _ h
  · refine List.Pairwise.forall (fun a b h => ?_) hpos
    have hsymm : portDistance realMath b a = portDistance realMath a b :=
      calculateHaversineDistance_symm_of_odd realMath (fun x => Real.sin_neg x) _ _ _ _
    rw [hsymm]
    exact h

/-! ## Lemmas on the routes that the solver returns -/

/-- One round either leaves the state as it is, every unvisited port being at a `NaN` distance
from the current port, or moves on to an unvisited port of the cluster whose distance from the
current port is a number. -/
theorem tspStep_cases (M : JsMath α) (vessel : Vessel α) (ports : List (Port α))
    (tw : TimeWindows α) (s : TspState α) :
    (ports.filter (fun p => unvisited s p && reachable M s p) = []
        ∧ tspStep M vessel ports tw s = s)
      ∨ ∃ p, tspStep M vessel ports tw s = visit s p (some (portDistance M s.currentPort p))
          ∧ p ∈ ports ∧ p.id ∉ s.visited ∧ portDistanceIsNaN M s.currentPort p = false := by
  by_cases hu : ports.filter (fun p => unvisited s p && reachable M s p) = []
  · exact Or.inl ⟨hu, tspStep_stuck M vessel ports tw s hu⟩
  · right
    by_cases hw : ports.filter
        (fun p => unvisited s p && inWindow vessel tw s p && reachable M s p) = []
    · obtain ⟨p, hp, hstep⟩ := tspStep_fallback M vessel ports tw s hw hu
      have hmem := List.mem_filter.1 hp.mem
      simp only [Bool.and_eq_true, unvisited, reachable, decide_eq_true_eq,
        Bool.not_eq_true'] at hmem
      exact ⟨p, hstep, hmem.1, hmem.2.1, hmem.2.2⟩
    · obtain ⟨p, hp, hstep⟩ := tspStep_in_window M vessel ports tw s hw
      have hmem := List.mem_filter.1 hp.mem
      simp only [Bool.and_eq_true, unvisited, reachable, decide_eq_true_eq,
        Bool.not_eq_true'] at hmem
      exact ⟨p, hstep, hmem.1, hmem.2.1.1, hmem.2.2⟩

/-- One round keeps the invariant of the loop. -/
theorem tspStep_inv (M : JsMath α) (vessel : Vessel α) (ports : List (Port α))
    (tw : TimeWindows α) (s : TspState α) (hs : TspInv ports s) :
    TspInv ports (tspStep M vessel ports tw s) := by
  rcases tspStep_cases M vessel ports tw s with ⟨-, h⟩ | ⟨p, h, hp, hv, -⟩
  · rw [h]; exact hs
  · rw [h]; exact (visit_inv ports s p _ hs hp hv).1

/-- A state that the loop returns satisfies the invariant and has a full visited set. -/
theorem tspLoop_inv (M : JsMath α) (vessel : Vessel α) (ports : List (Port α))
    (tw : TimeWindows α) :
    ∀ (fuel : Nat) (s s' : TspState α), tspLoop M vessel ports tw fuel s = some s' →
      TspInv ports s → TspInv ports s' ∧ ports.length ≤ s'.visited.length := by
  intro fuel
  induction fuel with
  | zero =>
    intro s s' h hs
    unfold tspLoop at h
    by_cases hlt : s.visited.length < ports.length
    · rw [if_pos hlt] at h; cases h
    · rw [if_neg hlt] at h
      cases h
      exact ⟨hs, by omega⟩
  | succ fuel ih =>
    intro s s' h hs
    unfold tspLoop at h
    by_cases hlt : s.visited.length < ports.length
    · rw [if_pos hlt] at h
      exact ih _ s' h (tspStep_inv M vessel ports tw s hs)
    · rw [if_neg hlt] at h
      cases h
      exact ⟨hs, by omega⟩

/-- The state that the loop returns does not depend on the fuel. -/
theorem tspLoop_unique (M : JsMath α) (vessel : Vessel α) (ports : List (Port α))
    (tw : TimeWindows α) :
    ∀ (fuel1 fuel2 : Nat) (s s1 s2 : TspState α),
      tspLoop M vessel ports tw fuel1 s = some s1 →
      tspLoop M vessel ports tw fuel2 s = some s2 → s1 = s2 := by
  intro fuel1
  induction fuel1 with
  | zero =>
    intro fuel2 s s1 s2 h1 h2
    unfold tspLoop at h1 h2
    by_cases hlt : s.visited.length < ports.length
    · rw [if_pos hlt] at h1; cases h1
    · rw [if_neg hlt] at h1 h2
      cases h1; cases h2; rfl
  | succ fuel1 ih =>
    intro fuel2 s s1 s2 h1 h2
    unfold tspLoop at h1 h2
    by_cases hlt : s.visited.length < ports.length
    · rw [if_pos hlt] at h1 h2
      cases fuel2 with
      | zero => cases h2
      | succ fuel2 => exact ih fuel2 _ s1 s2 h1 h2
    · rw [if_neg hlt] at h1 h2
      cases h1; cases h2; rfl

/-- A route returned on a cluster of at least two ports is built from the state that the loop
returns from its start state. -/
theorem solveTSPForCluster_some (M : JsMath α) (fuel : Nat) (vessel : Vessel α)
    (first second : Port α) (rest : List (Port α)) (tw : Option (TimeWindows α))
    (cons : Option Constraints) (r : Route α)
    (h : solveTSPForCluster M fuel vessel (first :: second :: rest) tw cons = some r) :
    ∃ s', tspLoop M vessel (first :: second :: rest) (tw.getD (fun _ => none)) fuel
          (tspStart first) = some s'
      ∧ r = finishRoute M vessel cons s' := by
  simp only [solveTSPForCluster] at h
  cases hloop : tspLoop M vessel (first :: second :: rest) (tw.getD (fun _ => none)) fuel
      { visited := setAdd [] first.id, route := [first], currentPort := first,
        totalDistance := 0 } with
  | none => rw [hloop] at h; cases h
  | some s' =>
    rw [hloop] at h
    simp only [Option.some.injEq] at h
    exact ⟨s', hloop, h.symm⟩

/-- Every route that `solveTSPForCluster` returns is a permutation of the cluster. -/
theorem solveTSPForCluster_perm (M : JsMath α) (fuel : Nat) (vessel : Vessel α)
    (ports : List (Port α)) (tw : Option (TimeWindows α)) (cons : Option Constraints)
    (r : Route α) (h : solveTSPForCluster M fuel vessel ports tw cons = some r) :
    r.route.Perm ports ∧ r.route.head? = ports.head? := by
  match ports, h with
  | [], h =>
    simp only [solveTSPForCluster, Option.some.injEq] at h
    subst h
    exact ⟨List.Perm.refl _, rfl⟩
  | [p], h =>
    simp only [solveTSPForCluster, Option.some.injEq] at h
    subst h
    exact ⟨List.Perm.refl _, rfl⟩
  | first :: second :: rest, h =>
    obtain ⟨s', hloop, rfl⟩ := solveTSPForCluster_some M fuel vessel first second rest tw cons r h
    obtain ⟨hinv, hfin⟩ := tspLoop_inv M vessel _ _ fuel _ s' hloop
      (tspInv_init first second rest)
    exact ⟨perm_of_tspInv _ s' hinv hfin, hinv.2.2.2.1⟩

theorem legsAreNumbers_append (M : JsMath α) (l : List (Port α)) (last x : Port α)
    (hlast : l.getLast? = some last) (hl : legsAreNumbers M l)
    (hx : portDistanceIsNaN M last x = false) : legsAreNumbers M (l ++ [x]) := by
  induction l with
  | nil => simp at hlast
  | cons a t ih =>
    cases t with
    | nil =>
      simp only [List.getLast?_singleton, Option.some.injEq] at hlast
      subst hlast
      exact ⟨hx, trivial⟩
    | cons b t' =>
      have hl2 : (b :: t').getLast? = some last := by
        rw [List.getLast?_cons_cons] at hlast; exact hlast
      exact ⟨hl.1, ih hl2 hl.2⟩

/-- One round keeps the legs of the route numbers. -/
theorem tspStep_legs (M : JsMath α) (vessel : Vessel α) (ports : List (Port α))
    (tw : TimeWindows α) (s : TspState α) (hlast : s.route.getLast? = some s.currentPort)
    (hl : legsAreNumbers M s.route) :
    (tspStep M vessel ports tw s).route.getLast? = some (tspStep M vessel ports tw s).currentPort
      ∧ legsAreNumbers M (tspStep M vessel ports tw s).route := by
  rcases tspStep_cases M vessel ports tw s with ⟨-, h⟩ | ⟨p, h, -, -, hnum⟩
  · rw [h]; exact ⟨hlast, hl⟩
  · rw [h]
    exact ⟨visit_getLast? s p _, legsAreNumbers_append M s.route s.currentPort p hlast hl hnum⟩

theorem tspLoop_legs (M : JsMath α) (vessel : Vessel α) (ports : List (Port α))
    (tw : TimeWindows α) :
    ∀ (fuel : Nat) (s s' : TspState α), tspLoop M vessel ports tw fuel s = some s' →
      s.route.getLast? = some s.currentPort → legsAreNumbers M s.route →
      legsAreNumbers M s'.route := by
  intro fuel
  induction fuel with
  | zero =>
    intro s s' h _ hl
    unfold tspLoop at h
    by_cases hlt : s.visited.length < ports.length
    · rw [if_pos hlt] at h; cases h
    · rw [if_neg hlt] at h
      cases h
      exact hl
  | succ fuel ih =>
    intro s s' h hlast hl
    unfold tspLoop at h
    by_cases hlt : s.visited.length < ports.length
    · rw [if_pos hlt] at h
      obtain ⟨h1, h2⟩ := tspStep_legs M vessel ports tw s hlast hl
      exact ih _ s' h h1 h2
    · rw [if_neg hlt] at h
      cases h
      exact hl

theorem haversineIsNaN_eq_false (M : JsMath α) (lat1 lon1 lat2 lon2 : α) :
    haversineIsNaN M (some lat1) (some lon1) (some lat2) (some lon2) = false
      ↔ 0 ≤ haversineTerm M lat1 lon1 lat2 lon2 ∧ haversineTerm M lat1 lon1 lat2 lon2 ≤ 1 := by
  simp only [haversineIsNaN, decide_eq_false_iff_not, not_or, not_lt]

/-- A distance that is a number is not negative. -/
theorem calculateHaversineDistance_nonneg (M : JsMath α) (hM : SignRules M)
    (lat1 lon1 lat2 lon2 : α)
    (h : haversineIsNaN M (some lat1) (some lon1) (some lat2) (some lon2) = false) :
    0 ≤ calculateHaversineDistance M (some lat1) (some lon1) (some lat2) (some lon2) := by
  obtain ⟨h0, h1⟩ := (haversineIsNaN_eq_false M lat1 lon1 lat2 lon2).1 h
  rw [calculateHaversineDistance_eq]
  have hat := hM.2 _ _ (hM.1 _ h0) (hM.1 _ (sub_nonneg.2 h1))
  positivity

theorem portDistance_nonneg (M : JsMath α) (hM : SignRules M) (p q : Port α)
    (h : portDistanceIsNaN M p q = false) : 0 ≤ portDistance M p q :=
  calculateHaversineDistance_nonneg M hM _ _ _ _ h

theorem consecutiveDistance_nonneg (M : JsMath α) (hM : SignRules M) :
    ∀ l : List (Port α), legsAreNumbers M l → 0 ≤ consecutiveDistance M l
  | [], _ => le_refl _
  | [_], _ => le_refl _
  | p :: q :: rest, h => by
    simp only [consecutiveDistance]
    exact add_nonneg (portDistance_nonneg M hM p q h.1)
      (consecutiveDistance_nonneg M hM (q :: rest) h.2)

theorem signRules_testMath : SignRules testMath :=
  ⟨fun _ hx => hx, fun _ _ hy _ => hy⟩

theorem signRules_realMath : SignRules realMath :=
  ⟨fun x _ => Real.sqrt_nonneg x, fun y x hy _ => by
    show 0 ≤ Complex.arg ⟨x, y⟩
    rw [Complex.arg_nonneg_iff]
    exact hy⟩

theorem distancesAreNumbers_ABC : DistancesAreNumbers testMath [portA, portB, portC] := by
  unfold DistancesAreNumbers
  decide!

/-- The route built from a loop state whose accumulated distance is not negative, when the
closing leg is a number. -/
theorem finishRoute_nonneg (M : JsMath α) (hM : SignRules M) (vessel : Vessel α)
    (cons : Option Constraints) (s : TspState α) (hs : 0 ≤ s.totalDistance)
    (hclose : ∀ start, s.route.head? = some start →
      portDistanceIsNaN M s.currentPort start = false)
    (hfuel : ∀ a, vessel.fuelConsumption.bind (fun f => f.atSea) = some a → 0 ≤ a)
    (hop : ∀ o, vessel.dailyOperatingCost = some o → 0 ≤ o)
    (hcrew : ∀ c, vessel.crew = some c → 0 ≤ c) :
    0 ≤ (finishRoute M vessel cons s).distance
      ∧ 0 ≤ (finishRoute M vessel cons s).time
      ∧ 0 ≤ (finishRoute M vessel cons s).cost := by
  have hd : 0 ≤ (finishRoute M vessel cons s).distance := by
    simp only [finishRoute]
    split_ifs
    · cases hh : s.route.head? with
      | none => exact hs
      | some start => exact add_nonneg hs (portDistance_nonneg M hM _ _ (hclose start hh))
    · exact hs
  have hm : (0 : α) < max vessel.speed 1 := lt_of_lt_of_le one_pos (le_max_right _ _)
  have ht : 0 ≤ (finishRoute M vessel cons s).time := div_nonneg hd hm.le
  exact ⟨hd, ht, calculateRouteCostForVessel_nonneg _ vessel ht hfuel hop hcrew⟩

/-- On a cluster of at least two ports `solveTSPForCluster` runs the loop from its start state
and builds the route from the state that the loop returns. -/
theorem solveTSPForCluster_eq_loop (M : JsMath α) (fuel : Nat) (vessel : Vessel α)
    (first second : Port α) (rest : List (Port α)) (tw : Option (TimeWindows α))
    (cons : Option Constraints) :
    solveTSPForCluster M fuel vessel (first :: second :: rest) tw cons
      = (tspLoop M vessel (first :: second :: rest) (tw.getD (fun _ => none)) fuel
          (tspStart first)).map (finishRoute M vessel cons) := by
  simp only [solveTSPForCluster, tspStart]
  cases tspLoop M vessel (first :: second :: rest) (tw.getD (fun _ => none)) fuel
    { visited := setAdd [] first.id, route := [first], currentPort := first,
      totalDistance := 0 } <;> rfl

/-- The routes that `solveAssignments` returns are permutations of the clusters of the pairs, in
order, each starting at the first port of its cluster. -/
theorem solveAssignments_perm (M : JsMath α) (fuel : Nat) (tw : Option (TimeWindows α))
    (cons : Option Constraints) (assignments : List (Assignment α)) :
    ∀ rs, solveAssignments M fuel tw cons assignments = .returned rs →
      List.Forall₂ (fun (a : Assignment α) (r : Route α) =>
        r.route.Perm a.cluster ∧ r.route.head? = a.cluster.head?) assignments rs := by
  induction assignments with
  | nil =>
    intro rs h
    simp only [solveAssignments, Outcome.returned.injEq] at h
    subst h
    exact List.Forall₂.nil
  | cons a rest ih =>
    intro rs h
    simp only [solveAssignments] at h
    cases hv : a.vessel with
    | none => rw [hv] at h; cases h
    | some v =>
      rw [hv] at h
      simp only at h
      cases hr : solveTSPForCluster M fuel v a.cluster tw cons with
      | none => rw [hr] at h; cases h
      | some r =>
        rw [hr] at h
        simp only at h
        cases hrest : solveAssignments M fuel tw cons rest with
        | outOfFuel => rw [hrest] at h; cases h
        | thrown e => rw [hrest] at h; cases h
        | returned rs' =>
          rw [hrest] at h
          simp only [Outcome.returned.injEq] at h
          subst h
          exact List.Forall₂.cons (solveTSPForCluster_perm M fuel v a.cluster tw cons r hr)
            (ih rs' hrest)

/-- In every result of `optimizeShippingRoutes` the stop sequences of the routes, taken
together, are a permutation of the input ports. -/
theorem optimizeShippingRoutes_perm (M : JsMath α) (fuel : Nat) (input : OptimizationInput α)
    (r : OptimizationResult α) (h : optimizeShippingRoutes M fuel input = .returned r) :
    ∃ ports, input.ports = some ports
      ∧ (r.routes.map (fun route => route.route)).flatten.Perm ports := by
  obtain ⟨vessels, ports, rs, -, hp, hv, -, hrs, rfl⟩ :=
    optimizeShippingRoutes_returned M fuel input r h
  refine ⟨ports, hp, ?_⟩
  have h1 := flatten_routes_perm _ rs (solveAssignments_perm M fuel _ _ _ rs hrs)
  rw [map_cluster_assignVesselsToClusters] at h1
  exact (h1.trans (jsSort_perm _ _).flatten).trans
    (clusterPortsByProximity_partition_aux M ports input.demands vessels.length
      (List.length_pos.2 hv))

/-- The loop state behind a route returned on a cluster of at least two ports: the route is a
permutation of the cluster, the current port is the last stop, the accumulated distance is the
length of the stop sequence, and every leg is a number. -/
theorem solveTSPForCluster_state (M : JsMath α) (fuel : Nat) (vessel : Vessel α)
    (first second : Port α) (rest : List (Port α)) (tw : Option (TimeWindows α))
    (cons : Option Constraints) (r : Route α)
    (h : solveTSPForCluster M fuel vessel (first :: second :: rest) tw cons = some r) :
    ∃ s', tspLoop M vessel (first :: second :: rest) (tw.getD (fun _ => none)) fuel
          (tspStart first) = some s'
      ∧ r = finishRoute M vessel cons s'
      ∧ s'.route.Perm (first :: second :: rest)
      ∧ s'.route.head? = some first
      ∧ TspTrace M s' ∧ legsAreNumbers M s'.route := by
  obtain ⟨s', hloop, hr⟩ := solveTSPForCluster_some M fuel vessel first second rest tw cons r h
  obtain ⟨hinv, hfin⟩ := tspLoop_inv M vessel _ _ fuel _ s' hloop (tspInv_init first second rest)
  exact ⟨s', hloop, hr, perm_of_tspInv _ s' hinv hfin, hinv.2.2.2.1,
    tspLoop_trace M vessel _ _ fuel _ s' hloop (tspTrace_init M first),
    tspLoop_legs M vessel _ _ fuel _ s' hloop rfl trivial⟩

theorem zeroRules_realMath : ZeroRules realMath :=
  ⟨fun x hx => Real.sqrt_eq_zero hx, fun x _ hx => Real.sqrt_le_one.2 hx, fun y x _ hx _ => by
    show Complex.arg ⟨x, y⟩ = 0 ↔ y = 0
    rw [Complex.arg_eq_zero_iff]
    exact ⟨fun h => h.2, fun h => ⟨hx, h⟩⟩⟩

/-- The value returned for a haversine term `a` in [0, 1] is 0 exactly when `a` is 0. -/
theorem distanceOfTerm_eq_zero_iff (M : JsMath α) (hS : SignRules M) (hZ : ZeroRules M) (a : α)
    (h0 : 0 ≤ a) (h1 : a ≤ 1) : distanceOfTerm M a = 0 ↔ a = 0 := by
  unfold distanceOfTerm
  have hat := hZ.2.2 _ _ (hS.1 _ h0) (hS.1 _ (sub_nonneg.2 h1))
    (hZ.2.1 _ (sub_nonneg.2 h1) (by linarith))
  have h6 : (6371 : α) ≠ 0 := by norm_num
  have h5 : (539957 / 1000000 : α) ≠ 0 := by norm_num
  have h2 : (2 : α) ≠ 0 := by norm_num
  rw [mul_eq_zero, mul_eq_zero, mul_eq_zero]
  constructor
  · rintro ((h | h | h) | h)
    · exact absurd h h6
    · exact absurd h h2
    · exact (hZ.1 _ h0).1 (hat.1 h)
    · exact absurd h h5
  · intro h
    exact Or.inl (Or.inr (Or.inr (hat.2 ((hZ.1 _ h0).2 h))))

/-- The haversine term of a point with itself is 0 when `Math.sin(0)` is 0. -/
theorem haversineTerm_self (M : JsMath α) (hsin : M.sin 0 = 0) (lat lon : α) :
    haversineTerm M lat lon lat lon = 0 := by
  simp [haversineTerm, toRad, hsin]

/-- The bounds of the value returned for a haversine term `a` in [0, 1], for a `Math.atan2`
that is at most `π/2` on arguments that are not negative. -/
theorem distanceOfTerm_bounds (M : JsMath α) (hS : SignRules M)
    (hatan : ∀ y x, 0 ≤ y → 0 ≤ x → M.atan2 y x ≤ M.PI / 2) (a : α) (h0 : 0 ≤ a)
    (h1 : a ≤ 1) :
    0 ≤ distanceOfTerm M a ∧ distanceOfTerm M a ≤ M.PI * 6371 * (539957 / 1000000) := by
  unfold distanceOfTerm
  have hge := hS.2 _ _ (hS.1 _ h0) (hS.1 _ (sub_nonneg.2 h1))
  have hle := hatan _ _ (hS.1 _ h0) (hS.1 _ (sub_nonneg.2 h1))
  have h5 : (0 : α) < 539957 / 1000000 := by norm_num
  refine ⟨by positivity, ?_⟩
  have : 6371 * (2 * M.atan2 (M.sqrt a) (M.sqrt (1 - a))) ≤ M.PI * 6371 := by linarith
  exact mul_le_mul_of_nonneg_right this h5.le

theorem atan2_le_realMath : ∀ y x : ℝ, 0 ≤ y → 0 ≤ x → realMath.atan2 y x ≤ realMath.PI / 2 :=
  fun y x _ hx => by
    show Complex.arg ⟨x, y⟩ ≤ Real.pi / 2
    exact Complex.arg_le_pi_div_two_iff.2 (Or.inl hx)

/-- With the test functions the haversine term of the points (8, 0) and (-8, 180) is above 1. -/
theorem haversineTerm_GH : 1 < haversineTerm testMath 8 0 (-8) 180 := by
  decide!

/-! ## Claims -/

/-- C1, a run that does not end.  The ports `G` (8, 0) and `H` (-8, 180) have distinct ids and
are nearly antipodal: the haversine term of the pair is above 1, so the distance is `NaN`, the
comparison `distance < minDistance` is false in both scans, no port is selected, and the loop of
`solveTSPForCluster` does not finish, whatever the fuel. -/
theorem antipodal_counterexample :
    ([portG, portH].map (fun p => p.id)).Nodup
      ∧ portDistanceIsNaN testMath portG portH = true
      ∧ tspStep testMath vesselV1 [portG, portH] (fun _ => none) (tspStart portG)
        = tspStart portG
      ∧ ∀ fuel, solveTSPForCluster testMath fuel vesselV1 [portG, portH] none none = none := by
  have hstep : tspStep testMath vesselV1 [portG, portH] (fun _ => none) (tspStart portG)
      = tspStart portG := by decide!
  refine ⟨by decide, by decide!, hstep, fun fuel => ?_⟩
  have hloop := tspLoop_stuck testMath vesselV1 [portG, portH] (fun _ => none) (tspStart portG)
    (by decide) hstep fuel
  rw [solveTSPForCluster_eq_loop]
  simp only [Option.getD_none]
  rw [hloop]
  rfl

/-- C1. On a cluster of `n > 1` ports every route that `solveTSPForCluster` returns has a stop
sequence that is a permutation of the cluster, so its length is `n`; and when the ids are
pairwise distinct and the distances between the ports are numbers, a route is returned, with any
fuel of at least `n - 1` loop rounds. -/
theorem solveTSPForCluster_route_perm (M : JsMath α) (vessel : Vessel α)
    (ports : List (Port α)) (timeWindows : Option (TimeWindows α))
    (constraints : Option Constraints) (hn : 1 < ports.length) :
    (∀ fuel r, solveTSPForCluster M fuel vessel ports timeWindows constraints = some r →
        r.route.Perm ports ∧ r.route.length = ports.length)
      ∧ ((ports.map (fun p => p.id)).Nodup → DistancesAreNumbers M ports →
        ∃ r, (∀ fuel, ports.length - 1 ≤ fuel →
            solveTSPForCluster M fuel vessel ports timeWindows constraints = some r)
          ∧ r.route.Perm ports ∧ r.route.length = ports.length) := by
  refine ⟨fun fuel r h => ?_, fun hid hnum => ?_⟩
  · have hperm := (solveTSPForCluster_perm M fuel vessel ports timeWindows constraints r h).1
    exact ⟨hperm, hperm.length_eq⟩
  · match ports, hn, hid, hnum with
    | first :: second :: rest, _, hid, hnum =>
      obtain ⟨s', hrun, hinv, hfin⟩ :=
        tspLoop_final M vessel first second rest (timeWindows.getD (fun _ => none)) hid hnum
      have hperm := perm_of_tspInv _ s' hinv hfin
      refine ⟨finishRoute M vessel constraints s', fun fuel hfuel => ?_, hperm,
        hperm.length_eq⟩
      simp only [solveTSPForCluster]
      rw [hrun fuel hfuel]

/-- The route of vessel `V1` over the ports `A`, `B`, `C` of the end-to-end scenario. -/
theorem solveTSPForCluster_route_perm_witness :
    1 < [portA, portB, portC].length
      ∧ ∃ r, (∀ fuel, [portA, portB, portC].length - 1 ≤ fuel →
          solveTSPForCluster testMath fuel vesselV1 [portA, portB, portC] none
            (some { returnToStart := true }) = some r)
        ∧ r.route.Perm [portA, portB, portC]
        ∧ r.route.length = [portA, portB, portC].length :=
  ⟨by decide, (solveTSPForCluster_route_perm testMath vesselV1 [portA, portB, portC] none
    (some { returnToStart := true }) (by decide)).2 (by decide) distancesAreNumbers_ABC⟩

/-- C2. For `k ≥ 1` the clusters returned by `clusterPortsByProximity` partition the input:
their concatenation is a permutation of `ports`, and the cluster sizes sum to `|ports|`. -/
theorem clusterPortsByProximity_partition (M : JsMath α) (ports : List (Port α))
    (demands : Option (List α)) (k : Nat) (hk : 1 ≤ k) :
    (clusterPortsByProximity M ports demands k).flatten.Perm ports
      ∧ ((clusterPortsByProximity M ports demands k).map List.length).sum = ports.length := by
  have hperm := clusterPortsByProximity_partition_aux M ports demands k hk
  refine ⟨hperm, ?_⟩
  rw [← List.length_flatten]
  exact hperm.length_eq

/-- Four ports clustered for two vessels (k-means branch). -/
theorem clusterPortsByProximity_partition_witness :
    (clusterPortsByProximity testMath [portA, portB, portC, portFree] none 2).flatten.Perm
        [portA, portB, portC, portFree]
      ∧ ((clusterPortsByProximity testMath [portA, portB, portC, portFree] none 2).map
          List.length).sum = [portA, portB, portC, portFree].length :=
  clusterPortsByProximity_partition testMath [portA, portB, portC, portFree] none 2 (by decide)

/-- C3, a run that neither fails nor returns.  One vessel, the ports `G` (8, 0) and
`H` (-8, 180), and the time windows `officeHours`: the input passes the validation, no error is
thrown, the distance of the two ports is `NaN`, the route solver does not finish, and
`optimizeShippingRoutes` returns no result, whatever the fuel. -/
theorem input_error_counterexample :
    ([portG, portH].map (fun p => p.id)).Nodup
      ∧ ∀ fuel, optimizeShippingRoutes testMath fuel
          { vessels := some [vesselV1], ports := some [portG, portH], demands := none,
            timeWindows := some officeHours, constraints := none } = .outOfFuel := by
  refine ⟨by decide, fun fuel => ?_⟩
  have hstep : tspStep testMath vesselV1 [portG, portH] officeHours (tspStart portG)
      = tspStart portG := by decide!
  have hloop := tspLoop_stuck testMath vesselV1 [portG, portH] officeHours (tspStart portG)
    (by decide) hstep fuel
  have hsolve : solveTSPForCluster testMath fuel vesselV1 [portG, portH] (some officeHours)
      none = none := by
    rw [solveTSPForCluster_eq_loop]
    simp only [Option.getD_some]
    rw [hloop]
    rfl
  simp only [optimizeShippingRoutes, optimizeValidated, List.length_singleton]
  rw [clusterPortsByProximity_one testMath [portG, portH] none (by decide),
    assignVesselsToClusters_one]
  simp only [solveAssignments]
  rw [hsolve]

/-- C3. `optimizeShippingRoutes` throws "No vessels provided" when `vessels` is missing or empty,
and "No ports provided" when `vessels` is non-empty and `ports` is missing or empty; it throws
exactly in these cases, whatever the fuel and the `Math` functions (nothing is computed before
the check, and no result is returned); for non-empty vessels and non-empty ports with pairwise
distinct ids whose distances are numbers it returns a result. -/
theorem optimizeShippingRoutes_input_error (M : JsMath α) (fuel : Nat)
    (input : OptimizationInput α) :
    ((input.vessels = none ∨ input.vessels = some []) →
        optimizeShippingRoutes M fuel input = .thrown "No vessels provided")
      ∧ (∀ v vs, input.vessels = some (v :: vs) → (input.ports = none ∨ input.ports = some []) →
        optimizeShippingRoutes M fuel input = .thrown "No ports provided")
      ∧ ((∃ e, optimizeShippingRoutes M fuel input = .thrown e) ↔
        (input.vessels = none ∨ input.vessels = some [] ∨ input.ports = none
          ∨ input.ports = some []))
      ∧ (∀ vessels ports, input.vessels = some vessels → input.ports = some ports →
        vessels ≠ [] → ports ≠ [] → (ports.map (fun p => p.id)).Nodup →
        DistancesAreNumbers M ports →
        ∃ r, ∀ fuel', ports.length - 1 ≤ fuel' →
          optimizeShippingRoutes M fuel' input = .returned r) := by
  have h1 : (input.vessels = none ∨ input.vessels = some []) →
      optimizeShippingRoutes M fuel input = .thrown "No vessels provided" := by
    intro h
    unfold optimizeShippingRoutes
    rcases h with h | h <;> rw [h]
  have h2 : ∀ v vs, input.vessels = some (v :: vs) →
      (input.ports = none ∨ input.ports = some []) →
      optimizeShippingRoutes M fuel input = .thrown "No ports provided" := by
    intro v vs hv h
    unfold optimizeShippingRoutes
    rw [hv]
    rcases h with h | h <;> rw [h]
  refine ⟨h1, h2, ⟨?_, ?_⟩, ?_⟩
  · rintro ⟨e, he⟩
    by_contra hcon
    push_neg at hcon
    obtain ⟨hv1, hv2, hp1, hp2⟩ := hcon
    cases hv : input.vessels with
    | none => exact hv1 hv
    | some vessels =>
      cases vessels with
      | nil => exact hv2 hv
      | cons v vs =>
        cases hp : input.ports with
        | none => exact hp1 hp
        | some ports =>
          cases ports with
          | nil => exact hp2 hp
          | cons p ps =>
            unfold optimizeShippingRoutes at he
            rw [hv, hp] at he
            exact optimizeValidated_not_thrown M fuel (v :: vs) (p :: ps) input (by simp) e he
  · intro h
    rcases h with h | h | h | h
    · exact ⟨_, h1 (Or.inl h)⟩
    · exact ⟨_, h1 (Or.inr h)⟩
    · cases hv : input.vessels with
      | none => exact ⟨_, h1 (Or.inl hv)⟩
      | some vessels =>
        cases vessels with
        | nil => exact ⟨_, h1 (Or.inr hv)⟩
        | cons v vs => exact ⟨_, h2 v vs hv (Or.inl h)⟩
    · cases hv : input.vessels with
      | none => exact ⟨_, h1 (Or.inl hv)⟩
      | some vessels =>
        cases vessels with
        | nil => exact ⟨_, h1 (Or.inr hv)⟩
        | cons v vs => exact ⟨_, h2 v vs hv (Or.inr h)⟩
  · intro vessels ports hv hp hvne hpne hid hnum
    obtain ⟨rs, hrs, -⟩ := optimizeValidated_returns M vessels ports input hvne hid hnum
    refine ⟨aggregate rs vessels, fun fuel' hfuel => ?_⟩
    unfold optimizeShippingRoutes
    rw [hv, hp]
    cases vessels with
    | nil => exact absurd rfl hvne
    | cons v vs =>
      cases ports with
      | nil => exact absurd rfl hpne
      | cons p ps => exact hrs fuel' hfuel

/-- An empty vessel list, a missing port list, and the end-to-end scenario. -/
theorem optimizeShippingRoutes_input_error_witness :
    optimizeShippingRoutes testMath 0
        { vessels := some [], ports := some [portA], demands := none, timeWindows := none,
          constraints := none } = .thrown "No vessels provided"
      ∧ optimizeShippingRoutes testMath 0
        { vessels := some [vesselV1], ports := none, demands := none, timeWindows := none,
          constraints := none } = .thrown "No ports provided"
      ∧ ∃ r, ∀ fuel', [portA, portB, portC].length - 1 ≤ fuel' →
          optimizeShippingRoutes testMath fuel' scenario = .returned r :=
  ⟨(optimizeShippingRoutes_input_error testMath 0
      { vessels := some [], ports := some [portA], demands := none, timeWindows := none,
        constraints := none }).1 (Or.inr rfl),
    (optimizeShippingRoutes_input_error testMath 0
      { vessels := some [vesselV1], ports := none, demands := none, timeWindows := none,
        constraints := none }).2.1 vesselV1 [] rfl (Or.inl rfl),
    (optimizeShippingRoutes_input_error testMath 0 scenario).2.2.2 [vesselV1]
      [portA, portB, portC] rfl rfl (by simp) (by simp) (by decide) distancesAreNumbers_ABC⟩

/-- C4. In every result of `optimizeShippingRoutes`, `totalCost` is the sum of the costs of the
routes and `totalDistance` the sum of their distances. -/
theorem optimizeShippingRoutes_totals (M : JsMath α) (fuel : Nat) (input : OptimizationInput α)
    (r : OptimizationResult α) (h : optimizeShippingRoutes M fuel input = .returned r) :
    r.totalCost = (r.routes.map (fun route => route.cost)).sum
      ∧ r.totalDistance = (r.routes.map (fun route => route.distance)).sum := by
  obtain ⟨vessels, ports, rs, -, -, -, -, -, rfl⟩ :=
    optimizeShippingRoutes_returned M fuel input r h
  exact aggregate_totals rs vessels

/-- The totals of the end-to-end scenario. -/
theorem optimizeShippingRoutes_totals_witness :
    ∃ r, optimizeShippingRoutes testMath 2 scenario = .returned r
      ∧ r.totalCost = (r.routes.map (fun route => route.cost)).sum
      ∧ r.totalDistance = (r.routes.map (fun route => route.distance)).sum := by
  obtain ⟨rs, hrs, -⟩ := optimizeValidated_returns testMath [vesselV1] [portA, portB, portC]
    scenario (by simp) (by decide) distancesAreNumbers_ABC
  exact ⟨_, hrs 2 (by decide),
    optimizeShippingRoutes_totals testMath 2 scenario _ (hrs 2 (by decide))⟩

/-- C5, as stated, fails: the fleet `[V1, V2]` has unique ids and capacities 5000 and -2500,
which sum to 2500 > 0; with the single port `A` the only route goes to `V1`, and the
utilization is 5000 / 2500 × 100 = 200.  No distance is computed on this input. -/
theorem vesselUtilization_counterexample :
    ([vesselV1, vesselV2].map (fun v => v.id)).Nodup
      ∧ 0 < ([vesselV1, vesselV2].map (fun v => v.capacity)).sum
      ∧ optimizeShippingRoutes testMath 0
          { vessels := some [vesselV1, vesselV2], ports := some [portA], demands := none,
            timeWindows := none, constraints := none }
        = .returned
          { routes := [{ vessel := "V1", route := [portA], distance := 0, time := 0,
                         cost := 17250, fuelConsumption := 0 }],
            totalCost := 17250, vesselUtilization := 200, estimatedTime := 0,
            totalDistance := 0 }
      ∧ ¬ ((200 : ℚ) ≤ 100) := by
  refine ⟨by decide, by decide!, by decide!, by norm_num⟩

/-- C5, amended. For vessels with unique ids whose capacities are all non-negative and sum to
more than 0, and every port list, the `vesselUtilization` of every result of
`optimizeShippingRoutes` lies in the closed interval [0, 100]. -/
theorem vesselUtilization_bounds (M : JsMath α) (fuel : Nat) (vessels : List (Vessel α))
    (ports : List (Port α)) (demands : Option (List α)) (timeWindows : Option (TimeWindows α))
    (constraints : Option Constraints) (r : OptimizationResult α)
    (hid : (vessels.map (fun v => v.id)).Nodup) (hnn : ∀ v ∈ vessels, 0 ≤ v.capacity)
    (_hsum : 0 < (vessels.map (fun v => v.capacity)).sum)
    (h : optimizeShippingRoutes M fuel
      { vessels := some vessels, ports := some ports, demands := demands,
        timeWindows := timeWindows, constraints := constraints } = .returned r) :
    0 ≤ r.vesselUtilization ∧ r.vesselUtilization ≤ 100 := by
  obtain ⟨vessels', ports', rs, hv, hp, -, -, hrs, rfl⟩ :=
    optimizeShippingRoutes_returned M fuel _ r h
  simp only [Option.some.injEq] at hv hp
  subst hv hp
  have hle := clusterPortsByProximity_length_le M ports demands vessels.length
  have hves := solveAssignments_vessels M fuel timeWindows constraints _ rs hrs
  have htake := assignments_vessels_take vessels
    (clusterPortsByProximity M ports demands vessels.length) hle
  have hmap : rs.map (fun r => r.vessel)
      = ((jsSort (fun (a b : Vessel α) => b.capacity - a.capacity) vessels).take
          (clusterPortsByProximity M ports demands vessels.length).length).map
            (fun v => v.id) := by
    have h1 : (assignVesselsToClusters vessels
          (clusterPortsByProximity M ports demands vessels.length)).map
            (fun a => a.vessel.map (fun v => v.id))
        = ((assignVesselsToClusters vessels
          (clusterPortsByProximity M ports demands vessels.length)).map
            (fun a => a.vessel)).map (fun o => o.map (fun v => v.id)) := by
      rw [List.map_map]; rfl
    rw [h1, htake, List.map_map] at hves
    have h2 : (rs.map (fun r => r.vessel)).map some
        = (((jsSort (fun (a b : Vessel α) => b.capacity - a.capacity) vessels).take
          (clusterPortsByProximity M ports demands vessels.length).length).map
            (fun v => v.id)).map some := by
      rw [List.map_map, List.map_map]
      exact hves
    exact List.map_injective_iff.2 (Option.some_injective _) h2
  exact utilization_bounds vessels _ rs
    ((List.take_sublist _ _).subperm.trans (jsSort_perm _ vessels).subperm) hmap hid hnn

/-- The utilization of the end-to-end scenario. -/
theorem vesselUtilization_bounds_witness :
    ∃ r, optimizeShippingRoutes testMath 2 scenario = .returned r
      ∧ 0 ≤ r.vesselUtilization ∧ r.vesselUtilization ≤ 100 := by
  obtain ⟨rs, hrs, -⟩ := optimizeValidated_returns testMath [vesselV1] [portA, portB, portC]
    scenario (by simp) (by decide) distancesAreNumbers_ABC
  exact ⟨_, hrs 2 (by decide),
    vesselUtilization_bounds testMath 2 [vesselV1] [portA, portB, portC] none none
      (some { returnToStart := true }) _ (by decide)
      (by intro v hv; simp only [List.mem_singleton] at hv; subst hv; decide!)
      (by decide!) (hrs 2 (by decide))⟩

/-- C6, a run that does not end.  The vessel `V3` alone and the two ports `G` (8, 0),
`H` (-8, 180) with `returnToStart` set: the distance of the two ports is `NaN`, the route solver
does not finish, and `optimizeShippingRoutes` returns no route, whatever the fuel. -/
theorem single_vessel_counterexample :
    2 ≤ [portG, portH].length ∧ ([portG, portH].map (fun p => p.id)).Nodup
      ∧ ∀ fuel, optimizeShippingRoutes testMath fuel
          { vessels := some [vesselV3], ports := some [portG, portH], demands := none,
            timeWindows := none, constraints := some { returnToStart := true } }
          = .outOfFuel := by
  refine ⟨by decide, by decide, fun fuel => ?_⟩
  have hstep : tspStep testMath vesselV3 [portG, portH] (fun _ => none) (tspStart portG)
      = tspStart portG := by decide!
  have hloop := tspLoop_stuck testMath vesselV3 [portG, portH] (fun _ => none) (tspStart portG)
    (by decide) hstep fuel
  have hsolve : solveTSPForCluster testMath fuel vesselV3 [portG, portH] none
      (some { returnToStart := true }) = none := by
    rw [solveTSPForCluster_eq_loop]
    simp only [Option.getD_none]
    rw [hloop]
    rfl
  simp only [optimizeShippingRoutes, optimizeValidated, List.length_singleton]
  rw [clusterPortsByProximity_one testMath [portG, portH] none (by decide),
    assignVesselsToClusters_one]
  simp only [solveAssignments]
  rw [hsolve]

/-- C6. With exactly one vessel and `n ≥ 2` ports, for any time-window argument (the default
included) and any `constraints` (with or without `returnToStart`), every result that
`optimizeShippingRoutes` returns has exactly one route; its stop sequence starts at the first
input port, is a permutation of the input ports and has length `n`.  When the ports have
distinct ids and their distances are numbers, a result is returned, with any fuel from `n - 1`
on. -/
theorem optimizeShippingRoutes_single_vessel (M : JsMath α) (vessel : Vessel α)
    (ports : List (Port α)) (demands : Option (List α)) (timeWindows : Option (TimeWindows α))
    (constraints : Option Constraints) (hn : 2 ≤ ports.length) :
    (∀ fuel r, optimizeShippingRoutes M fuel
          { vessels := some [vessel], ports := some ports, demands := demands,
            timeWindows := timeWindows, constraints := constraints } = .returned r →
        ∃ route, r.routes = [route] ∧ route.vessel = vessel.id
          ∧ route.route.head? = ports.head?
          ∧ route.route.Perm ports ∧ route.route.length = ports.length)
      ∧ ((ports.map (fun p => p.id)).Nodup → DistancesAreNumbers M ports →
        ∃ r, ∀ fuel, ports.length - 1 ≤ fuel →
          optimizeShippingRoutes M fuel
            { vessels := some [vessel], ports := some ports, demands := demands,
              timeWindows := timeWindows, constraints := constraints } = .returned r) := by
  have hrun : ∀ fuel, optimizeShippingRoutes M fuel
        { vessels := some [vessel], ports := some ports, demands := demands,
          timeWindows := timeWindows, constraints := constraints }
      = match solveTSPForCluster M fuel vessel ports timeWindows constraints with
        | none => .outOfFuel
        | some route => .returned (aggregate [route] [vessel]) := by
    intro fuel
    match ports, hn with
    | p :: ps, hn =>
      simp only [optimizeShippingRoutes, optimizeValidated, List.length_singleton]
      rw [clusterPortsByProximity_one M (p :: ps) demands (by omega),
        assignVesselsToClusters_one]
      simp only [solveAssignments]
      cases solveTSPForCluster M fuel vessel (p :: ps) timeWindows constraints <;> rfl
  refine ⟨fun fuel r h => ?_, fun hid hnum => ?_⟩
  · rw [hrun fuel] at h
    cases hs : solveTSPForCluster M fuel vessel ports timeWindows constraints with
    | none => rw [hs] at h; cases h
    | some route =>
      rw [hs] at h
      simp only [Outcome.returned.injEq] at h
      subst h
      obtain ⟨hperm, hhead⟩ :=
        solveTSPForCluster_perm M fuel vessel ports timeWindows constraints route hs
      exact ⟨route, rfl,
        vessel_of_solveTSPForCluster M fuel vessel ports timeWindows constraints route hs,
        hhead, hperm, hperm.length_eq⟩
  · obtain ⟨route, hroute, -⟩ :=
      solveTSPForCluster_returns M vessel ports timeWindows constraints hid hnum
    refine ⟨aggregate [route] [vessel], fun fuel hfuel => ?_⟩
    rw [hrun fuel, hroute fuel hfuel]

/-- The end-to-end scenario: one vessel, three ports, `returnToStart` set. -/
theorem optimizeShippingRoutes_single_vessel_witness :
    2 ≤ [portA, portB, portC].length
      ∧ ∃ r, ∀ fuel, [portA, portB, portC].length - 1 ≤ fuel →
          optimizeShippingRoutes testMath fuel scenario = .returned r :=
  ⟨by decide, (optimizeShippingRoutes_single_vessel testMath vesselV1 [portA, portB, portC]
    none none (some { returnToStart := true }) (by decide)).2 (by decide)
    distancesAreNumbers_ABC⟩

/-- C7. Every cluster returned by `clusterPortsByProximity` is non-empty and there are at most
`k` of them, for every `k ≥ 0`. -/
theorem clusterPortsByProximity_nonempty_le (M : JsMath α) (ports : List (Port α))
    (demands : Option (List α)) (k : Nat) :
    (∀ c ∈ clusterPortsByProximity M ports demands k, c ≠ [])
      ∧ (clusterPortsByProximity M ports demands k).length ≤ k := by
  unfold clusterPortsByProximity
  split_ifs with h
  · refine ⟨?_, by simpa using h⟩
    intro c hc
    obtain ⟨p, _, rfl⟩ := List.mem_map.1 hc
    simp
  · simp only
    obtain ⟨cs, hcs, heq⟩ := kmeansLoop_fromAssignment M ports k (by omega)
    refine ⟨?_, ?_⟩
    · intro c hc
      have := (List.mem_filter.1 hc).2
      intro hnil
      subst hnil
      simp at this
    · calc _ ≤ _ := List.length_filter_le _ _
        _ = k := by rw [heq, length_assignPorts]

/-- C8. When `|ports| ≤ k`, `clusterPortsByProximity` returns one singleton cluster per port, in
input order; the k-means loop is not entered. -/
theorem clusterPortsByProximity_singletons (M : JsMath α) (ports : List (Port α))
    (demands : Option (List α)) (k : Nat) (h : ports.length ≤ k) :
    clusterPortsByProximity M ports demands k = ports.map (fun port => [port])
      ∧ (clusterPortsByProximity M ports demands k).length = ports.length
      ∧ ∀ i, (clusterPortsByProximity M ports demands k).get? i
          = (ports.get? i).map (fun port => [port]) := by
  have heq : clusterPortsByProximity M ports demands k = ports.map (fun port => [port]) := by
    unfold clusterPortsByProximity
    rw [if_pos h]
  rw [heq]
  refine ⟨rfl, by simp, fun i => ?_⟩
  simp [List.get?_eq_getElem?]

/-- Two ports clustered for three vessels. -/
theorem clusterPortsByProximity_singletons_witness :
    clusterPortsByProximity testMath [portA, portB] none 3 = [[portA], [portB]] :=
  (clusterPortsByProximity_singletons testMath [portA, portB] none 3 (by decide)).1

/-- C9. For a non-empty vessel list, `assignVesselsToClusters` returns one pair per cluster; the
clusters of the pairs are the input clusters in descending order of aggregate solar demand (the
sum of the ports' `demand.solar`, a missing one counted as 0), clusters of equal demand in input
order; with the vessels put in descending order of capacity (equal capacities in input order),
the pair at rank `i` carries the vessel of rank `i` when `i < |vessels|` and the vessel of rank 0
otherwise. -/
theorem assignVesselsToClusters_ranked (vessels : List (Vessel α))
    (clusters : List (List (Port α))) (hv : vessels ≠ []) :
    ∃ (sortedVessels : List (Vessel α)) (sortedClusters : List (List (Port α))),
      sortedVessels.Sorted (fun a b => b.capacity ≤ a.capacity)
      ∧ (∀ c, sortedVessels.filter (fun v => decide (v.capacity = c))
          = vessels.filter (fun v => decide (v.capacity = c)))
      ∧ sortedClusters.Sorted (fun a b => clusterDemand b ≤ clusterDemand a)
      ∧ (∀ d, sortedClusters.filter (fun c => decide (clusterDemand c = d))
          = clusters.filter (fun c => decide (clusterDemand c = d)))
      ∧ (∀ c : List (Port α), clusterDemand c
          = (c.map (fun port => (port.demand.bind (fun d => d.solar)).getD 0)).sum)
      ∧ (assignVesselsToClusters vessels clusters).length = clusters.length
      ∧ (assignVesselsToClusters vessels clusters).map (fun a => a.cluster) = sortedClusters
      ∧ ∀ i, i < clusters.length →
          ∃ v, ((assignVesselsToClusters vessels clusters).get? i).map (fun a => a.vessel)
              = some (some v)
            ∧ (i < vessels.length → sortedVessels.get? i = some v)
            ∧ (vessels.length ≤ i → sortedVessels.get? 0 = some v) := by
  refine ⟨jsSort (fun a b => b.capacity - a.capacity) vessels,
    jsSort (fun a b => clusterDemand b - clusterDemand a) clusters,
    jsSort_desc_sorted (fun v => v.capacity) vessels,
    jsSort_desc_stable (fun v => v.capacity) vessels,
    jsSort_desc_sorted clusterDemand clusters,
    jsSort_desc_stable clusterDemand clusters,
    clusterDemand_eq_sum,
    length_assignVesselsToClusters vessels clusters,
    map_cluster_assignVesselsToClusters vessels clusters, ?_⟩
  intro i hi
  have h := vessel_assignVesselsToClusters vessels clusters i hi
  have hlen := jsSort_length (fun (a b : Vessel α) => b.capacity - a.capacity) vessels
  have hpos : 0 < vessels.length := List.length_pos.2 hv
  by_cases hc : i < vessels.length
  · rw [if_pos hc] at h
    have hget := List.get?_eq_get (l := jsSort (fun (a b : Vessel α) => b.capacity - a.capacity)
      vessels) (n := i) (by omega)
    refine ⟨_, by rw [h, hget], fun _ => hget, fun hge => by omega⟩
  · rw [if_neg hc] at h
    have hget := List.get?_eq_get (l := jsSort (fun (a b : Vessel α) => b.capacity - a.capacity)
      vessels) (n := 0) (by omega)
    refine ⟨_, by rw [h, hget], fun hlt => absurd hlt hc, fun _ => hget⟩

/-- Two vessels and three clusters: the cluster of `F` has the largest demand and goes to the
larger vessel `V3`, and so does the surplus cluster `[B, C]`. -/
theorem assignVesselsToClusters_ranked_witness :
    assignVesselsToClusters [vesselV1, vesselV3] [[portA], [portFree], [portB, portC]]
        = [{ vessel := some vesselV3, cluster := [portFree], clusterIndex := 1 },
           { vessel := some vesselV1, cluster := [portA], clusterIndex := 0 },
           { vessel := some vesselV3, cluster := [portB, portC], clusterIndex := 2 }]
      ∧ (assignVesselsToClusters [vesselV1, vesselV3]
          [[portA], [portFree], [portB, portC]]).length = 3
      ∧ ∃ v, ((assignVesselsToClusters [vesselV1, vesselV3]
          [[portA], [portFree], [portB, portC]]).get? 2).map (fun a => a.vessel)
            = some (some v) := by
  obtain ⟨_, _, -, -, -, -, -, hlen, -, hrank⟩ :=
    assignVesselsToClusters_ranked [vesselV1, vesselV3] [[portA], [portFree], [portB, portC]]
      (by simp)
  obtain ⟨v, hv, -, -⟩ := hrank 2 (by decide)
  exact ⟨by decide!, hlen, v, hv⟩

/-- C10, as stated, fails: the port `F` has a berthing fee of 0 and the vessel `V3` a daily
operating cost of 8000 and a crew of 10; the cost of the singleton route is
5000 + 8000 + 1500 = 14500, not 0 + 8000 + 1500 = 9500.  No distance is computed on this
input. -/
theorem singlePortCost_counterexample :
    solveTSPForCluster testMath 0 vesselV3 [portFree] none none
        = some { vessel := "V3", route := [portFree], distance := 0, time := 0, cost := 14500,
                 fuelConsumption := 0 }
      ∧ statedSinglePortCost (some (0 : ℚ)) (some 8000) 10 = 9500 := by
  refine ⟨by decide!, by decide!⟩

/-- C10, amended. On a cluster of a single port `solveTSPForCluster` returns that port as the
only stop with distance, time and fuel consumption 0 and cost `b + o + c`, where `b` is the
port's berthing fee, or 5000 when the fee is absent or 0, `o` is the vessel's
`dailyOperatingCost`, or 10000 when it is absent or 0, and `c` is `crew × 150`, or 2250 when
the crew is absent or `crew × 150` is 0; in particular the cost is
`berthing + dailyOperatingCost + crew × 150` when the three are present and not 0. -/
theorem solveTSPForCluster_singleton (M : JsMath α) (fuel : Nat) (vessel : Vessel α)
    (port : Port α) (timeWindows : Option (TimeWindows α)) (constraints : Option Constraints) :
    ∃ r, solveTSPForCluster M fuel vessel [port] timeWindows constraints = some r
      ∧ r.route = [port] ∧ r.distance = 0 ∧ r.time = 0 ∧ r.fuelConsumption = 0
      ∧ r.cost
        = (match port.charges.bind (fun c => c.berthing) with
            | some b => if b = 0 then 5000 else b
            | none => 5000)
          + (match vessel.dailyOperatingCost with
            | some o => if o = 0 then 10000 else o
            | none => 10000)
          + (match vessel.crew with
            | some c => if c * 150 = 0 then 2250 else c * 150
            | none => 2250)
      ∧ (∀ b o c, port.charges.bind (fun c => c.berthing) = some b →
          vessel.dailyOperatingCost = some o → vessel.crew = some c →
          b ≠ 0 → o ≠ 0 → c ≠ 0 → r.cost = b + o + c * 150) := by
  refine ⟨_, rfl, rfl, rfl, rfl, rfl, ?_, ?_⟩
  · simp only [calculateSinglePortCost, orDefault]
    cases port.charges.bind (fun c => c.berthing) <;> cases vessel.dailyOperatingCost
      <;> cases vessel.crew <;> rfl
  · intro b o c hb ho hc hb0 ho0 hc0
    simp only [calculateSinglePortCost, orDefault, hb, ho, hc, Option.map_some', if_neg hb0,
      if_neg ho0]
    rw [if_neg (mul_ne_zero hc0 (by norm_num))]

/-- The singleton route of `V3` to the port `P`, whose cost fields are all present and not 0. -/
theorem solveTSPForCluster_singleton_witness :
    ∃ r, solveTSPForCluster testMath 0 vesselV3 [portPaid] none none = some r
      ∧ r.route = [portPaid] ∧ r.cost = 3000 + 8000 + 10 * 150 := by
  obtain ⟨r, hr, hroute, -, -, -, -, hcost⟩ :=
    solveTSPForCluster_singleton testMath 0 vesselV3 portPaid none none
  exact ⟨r, hr, hroute, hcost 3000 8000 10 rfl rfl rfl (by decide) (by decide) (by decide)⟩

/-- C11, as stated, fails: the vessel `V4` has a crew field that is present and 0; for a route of
24 hours and 2 stops the cost is 15000 + 10000 + 8000 + 15 × 150 = 35250, the crew default being
applied, not 15000 + 10000 + 8000 + 0 = 33000. -/
theorem routeCost_counterexample :
    calculateRouteCostForVessel dayRoute vesselUnmanned
        = 35250
      ∧ statedRouteCost (24 : ℚ) 2 (some 25) (some 8000) (some 0) = 33000 := by
  refine ⟨by decide!, by decide!⟩

/-- C11, amended. `calculateRouteCostForVessel` returns
`(t/24) × f × 600 + s × 5000 + (t/24) × o + (t/24) × c × 150`, where `f` is the vessel's
`fuelConsumption.atSea`, or 20 when it is absent or 0, `o` its `dailyOperatingCost`, or 10000
when it is absent or 0, and `c` its `crew`, or 15 when it is absent or 0; in particular the
three fields are used as they are when they are present and not 0; the cost of a route of
`solveTSPForCluster` over more than one port is this value for its time and its number of
stops. -/
theorem calculateRouteCostForVessel_formula (route : RouteSummary α) (vessel : Vessel α) :
    calculateRouteCostForVessel route vessel
        = (route.time / 24)
            * (match vessel.fuelConsumption.bind (fun f => f.atSea) with
              | some f => if f = 0 then 20 else f
              | none => 20) * 600
          + (route.ports : α) * 5000
          + (route.time / 24)
            * (match vessel.dailyOperatingCost with
              | some o => if o = 0 then 10000 else o
              | none => 10000)
          + (route.time / 24)
            * (match vessel.crew with
              | some c => if c = 0 then 15 else c
              | none => 15) * 150
      ∧ (∀ f o c, vessel.fuelConsumption.bind (fun f => f.atSea) = some f →
          vessel.dailyOperatingCost = some o → vessel.crew = some c →
          f ≠ 0 → o ≠ 0 → c ≠ 0 →
          calculateRouteCostForVessel route vessel
            = (route.time / 24) * f * 600 + (route.ports : α) * 5000 + (route.time / 24) * o
              + (route.time / 24) * c * 150)
      ∧ (∀ (M : JsMath α) (fuel : Nat) (ports : List (Port α))
          (timeWindows : Option (TimeWindows α)) (constraints : Option Constraints)
          (r : Route α), 1 < ports.length →
          solveTSPForCluster M fuel vessel ports timeWindows constraints = some r →
          r.cost = calculateRouteCostForVessel
            { distance := r.distance, time := r.time, ports := r.route.length } vessel) := by
  refine ⟨?_, ?_, ?_⟩
  · simp only [calculateRouteCostForVessel, orDefault]
    cases vessel.fuelConsumption.bind (fun f => f.atSea) <;> cases vessel.dailyOperatingCost
      <;> cases vessel.crew <;> rfl
  · intro f o c hf ho hc hf0 ho0 hc0
    simp only [calculateRouteCostForVessel, orDefault, hf, ho, hc, if_neg hf0, if_neg ho0,
      if_neg hc0]
  · intro M fuel ports tw cons r hn h
    match ports, hn with
    | first :: second :: rest, _ =>
      simp only [solveTSPForCluster] at h
      split at h
      · cases h
      · simp only [Option.some.injEq] at h
        rw [← h]
        rfl

/-- A 24-hour route of two stops for `V3`, and the route of `V3` over the ports `A`, `B`,
`C`. -/
theorem calculateRouteCostForVessel_formula_witness :
    calculateRouteCostForVessel dayRoute vesselV3
        = (24 / 24 : ℚ) * 25 * 600 + ((2 : ℕ) : ℚ) * 5000 + (24 / 24) * 8000
          + (24 / 24) * 10 * 150
      ∧ ∃ r, solveTSPForCluster testMath 2 vesselV3 [portA, portB, portC] none none = some r
          ∧ r.cost = calculateRouteCostForVessel
              { distance := r.distance, time := r.time, ports := r.route.length } vesselV3 := by
  obtain ⟨r, hr, -⟩ := solveTSPForCluster_returns testMath vesselV3 [portA, portB, portC]
    none none (by decide) distancesAreNumbers_ABC
  exact ⟨(calculateRouteCostForVessel_formula dayRoute vesselV3).2.1 25 8000 10 rfl rfl rfl (by decide) (by decide) (by decide),
    r, hr 2 (by decide),
    (calculateRouteCostForVessel_formula dayRoute vesselV3).2.2 testMath 2 [portA, portB, portC] none none r (by decide)
      (hr 2 (by decide))⟩

/-- C12. On a cluster of `n > 1` ports, a route that `solveTSPForCluster` returns with
`returnToStart` set has the same stop sequence as a route that it returns without it
(`constraints` absent, or `returnToStart` false): a permutation of the cluster of length `n`,
the start port not being appended again; and its distance is the distance of the unset run plus
the haversine distance from the last stop to the first stop.  When the ports have distinct ids
and their distances are numbers, both runs return a route, with any fuel from `n - 1` on. -/
theorem solveTSPForCluster_returnToStart (M : JsMath α) (vessel : Vessel α)
    (ports : List (Port α)) (timeWindows : Option (TimeWindows α)) (unset : Option Constraints)
    (hunset : unset = none ∨ unset = some { returnToStart := false })
    (hn : 1 < ports.length) :
    (∀ fuelSet fuelUnset rSet rUnset,
        solveTSPForCluster M fuelSet vessel ports timeWindows (some { returnToStart := true })
          = some rSet →
        solveTSPForCluster M fuelUnset vessel ports timeWindows unset = some rUnset →
        rSet.route = rUnset.route ∧ rSet.route.Perm ports
          ∧ rSet.route.length = ports.length
          ∧ ∃ first last, rSet.route.head? = some first ∧ rSet.route.getLast? = some last
            ∧ rSet.distance
              = rUnset.distance
                + calculateHaversineDistance M (some last.location.lat)
                    (some last.location.lng) (some first.location.lat)
                    (some first.location.lng))
      ∧ ((ports.map (fun p => p.id)).Nodup → DistancesAreNumbers M ports →
        ∃ rSet rUnset, ∀ fuel, ports.length - 1 ≤ fuel →
          solveTSPForCluster M fuel vessel ports timeWindows (some { returnToStart := true })
              = some rSet
            ∧ solveTSPForCluster M fuel vessel ports timeWindows unset = some rUnset) := by
  refine ⟨fun fuelSet fuelUnset rSet rUnset h1 h2 => ?_, fun hid hnum => ?_⟩
  · match ports, hn, h1, h2 with
    | first :: second :: rest, hn, h1, h2 =>
      obtain ⟨s1, hloop1, rfl, hperm, hhead, htrace, -⟩ :=
        solveTSPForCluster_state M fuelSet vessel first second rest timeWindows _ rSet h1
      obtain ⟨s2, hloop2, rfl, -⟩ :=
        solveTSPForCluster_state M fuelUnset vessel first second rest timeWindows _ rUnset h2
      have hs : s1 = s2 := tspLoop_unique M vessel _ _ fuelSet fuelUnset _ s1 s2 hloop1 hloop2
      subst hs
      have hlen : 1 < s1.route.length := by rw [hperm.length_eq]; exact hn
      refine ⟨rfl, hperm, hperm.length_eq, first, s1.currentPort, hhead, htrace.1, ?_⟩
      rw [finishRoute_distance_set M vessel s1 first hlen hhead,
        finishRoute_distance_unset M vessel unset hunset s1]
      rfl
  · obtain ⟨s', hrun, -⟩ := solveTSPForCluster_multi M vessel ports timeWindows hn hid hnum
    exact ⟨finishRoute M vessel (some { returnToStart := true }) s',
      finishRoute M vessel unset s', fun fuel hfuel => ⟨hrun _ fuel hfuel, hrun _ fuel hfuel⟩⟩

/-- The route of `V1` over the ports `A`, `B`, `C`, with and without `returnToStart`. -/
theorem solveTSPForCluster_returnToStart_witness :
    ∃ rSet rUnset,
      solveTSPForCluster testMath 2 vesselV1 [portA, portB, portC] none
          (some { returnToStart := true }) = some rSet
        ∧ solveTSPForCluster testMath 2 vesselV1 [portA, portB, portC] none none = some rUnset
        ∧ rSet.route = rUnset.route ∧ rSet.route.Perm [portA, portB, portC]
        ∧ rSet.route.length = [portA, portB, portC].length
        ∧ ∃ first last, rSet.route.head? = some first ∧ rSet.route.getLast? = some last
          ∧ rSet.distance
            = rUnset.distance
              + calculateHaversineDistance testMath (some last.location.lat)
                  (some last.location.lng) (some first.location.lat)
                  (some first.location.lng) := by
  obtain ⟨rSet, rUnset, hr⟩ := (solveTSPForCluster_returnToStart testMath vesselV1
    [portA, portB, portC] none none (Or.inl rfl) (by decide)).2 (by decide)
    distancesAreNumbers_ABC
  exact ⟨rSet, rUnset, (hr 2 (by decide)).1, (hr 2 (by decide)).2,
    (solveTSPForCluster_returnToStart testMath vesselV1 [portA, portB, portC] none none
      (Or.inl rfl) (by decide)).1 2 2 rSet rUnset (hr 2 (by decide)).1 (hr 2 (by decide)).2⟩

/-- C13. `calculateHaversineDistance` is symmetric in the reals: the distance from the first
point to the second equals the distance from the second to the first, for all arguments (the
ones that are not numbers included, where both calls return 0). -/
theorem calculateHaversineDistance_symm (lat1 lon1 lat2 lon2 : Option ℝ) :
    calculateHaversineDistance realMath lat1 lon1 lat2 lon2
      = calculateHaversineDistance realMath lat2 lon2 lat1 lon1 :=
  calculateHaversineDistance_symm_of_odd realMath (fun x => Real.sin_neg x) lat1 lon1 lat2 lon2

/-- C14. In the reals, `calculateHaversineDistance(lat, lon, lat, lon)` is 0 for every
coordinate pair. -/
theorem calculateHaversineDistance_self (lat lon : ℝ) :
    calculateHaversineDistance realMath (some lat) (some lon) (some lat) (some lon) = 0 :=
  calculateHaversineDistance_real_self lat lon

/-- C15, as stated, fails: the points (90, 0) and (90, 2^-600) have different longitudes and are
at distance 0.  With the exact functions the cosine of the latitude is `cos (π/2) = 0`, so the
haversine term is 0; in the code the term is 0 as well, the product of the two cosines and the
two sines being below the smallest double. -/
theorem zero_distance_counterexample :
    calculateHaversineDistance realMath (some 90) (some 0) (some 90) (some (1 / 2 ^ 600)) = 0
      ∧ (0 : ℝ) ≠ 1 / 2 ^ 600 := by
  refine ⟨?_, (by positivity : (0 : ℝ) < 1 / 2 ^ 600).ne⟩
  rw [calculateHaversineDistance_real_eq_zero]
  have h : (90 : ℝ) * (Real.pi / 180) = Real.pi / 2 := by ring
  simp [haversineTerm, toRad, realMath, h]

/-- C15, amended.  `calculateHaversineDistance` returns the value `distanceOfTerm M a` for the
haversine term `a` of its arguments, and for every `a` in [0, 1] this value is 0 exactly when
`a` is 0; `Math.sqrt` and `Math.atan2` enter with their signs and zeros on numbers that are not
negative.  The term of a point with itself is 0 when `Math.sin(0)` is 0; the term can be 0 for
two different points. -/
theorem calculateHaversineDistance_eq_zero (M : JsMath α) (hS : SignRules M)
    (hZ : ZeroRules M) :
    (∀ lat1 lon1 lat2 lon2 : α,
        calculateHaversineDistance M (some lat1) (some lon1) (some lat2) (some lon2)
          = distanceOfTerm M (haversineTerm M lat1 lon1 lat2 lon2))
      ∧ (∀ a : α, 0 ≤ a → a ≤ 1 → (distanceOfTerm M a = 0 ↔ a = 0))
      ∧ (M.sin 0 = 0 → ∀ lat lon : α, haversineTerm M lat lon lat lon = 0) :=
  ⟨fun _ _ _ _ => rfl, fun a h0 h1 => distanceOfTerm_eq_zero_iff M hS hZ a h0 h1,
    fun hsin lat lon => haversineTerm_self M hsin lat lon⟩

/-- The points (10, 20) and (30, 40) with the exact functions: the distance is 0 exactly when
the haversine term is. -/
theorem calculateHaversineDistance_eq_zero_witness :
    calculateHaversineDistance realMath (some 10) (some 20) (some 30) (some 40) = 0
      ↔ haversineTerm realMath 10 20 30 40 = 0 :=
  (calculateHaversineDistance_eq_zero realMath signRules_realMath zeroRules_realMath).2.1
    (haversineTerm realMath 10 20 30 40) (haversineTerm_real_bounds 10 20 30 40).1
    (haversineTerm_real_bounds 10 20 30 40).2

/-- C16, as stated, fails: with the first latitude missing the call does not fail, it returns
the distance 0 to its caller. -/
theorem missing_coordinate_counterexample :
    calculateHaversineDistance realMath none (some (1068 / 10)) (some (-725 / 100))
      (some (11275 / 100)) = 0 := rfl

/-- C16, amended. `calculateHaversineDistance` does not fail: whenever one of the four
arguments is missing or not of type number, it returns the distance 0 to its caller. -/
theorem calculateHaversineDistance_invalid (M : JsMath α) (lat1 lon1 lat2 lon2 : Option α)
    (h : lat1 = none ∨ lon1 = none ∨ lat2 = none ∨ lon2 = none) :
    calculateHaversineDistance M lat1 lon1 lat2 lon2 = 0 := by
  cases lat1 <;> cases lon1 <;> cases lat2 <;> cases lon2 <;> first | rfl | simp at h

/-- The second longitude missing. -/
theorem calculateHaversineDistance_invalid_witness :
    calculateHaversineDistance realMath (some 0) (some 0) (some 0) none = 0 :=
  calculateHaversineDistance_invalid realMath (some 0) (some 0) (some 0) none
    (Or.inr (Or.inr (Or.inr rfl)))

/-- C17, a pair of points where the result is not a number.  For (8, 0) and (-8, 180) the code
computes the haversine term 1.0000000000000002, and `Math.sqrt(1 - a)` is `NaN`; with the test
functions the term of these points is above 1 as well. -/
theorem great_circle_counterexample :
    haversineIsNaN testMath (some 8) (some 0) (some (-8)) (some 180) = true
      ∧ 1 < haversineTerm testMath 8 0 (-8) 180 :=
  ⟨by decide!, haversineTerm_GH⟩

/-- C17.  The result of `calculateHaversineDistance` is `NaN` exactly when the haversine term `a`
of its arguments is below 0 or above 1; otherwise it is the value `distanceOfTerm M a`.  For
every `a` in [0, 1] both square roots are defined and this value,
`6371 × 2 atan2(√a, √(1 - a)) × 0.539957`, lies between 0 and `π × 6371 × 0.539957`;
`Math.sqrt` and `Math.atan2` enter with their signs on numbers that are not negative and with
the bound `π/2` of `Math.atan2` there. -/
theorem calculateHaversineDistance_great_circle (M : JsMath α) (hS : SignRules M)
    (hatan : ∀ y x, 0 ≤ y → 0 ≤ x → M.atan2 y x ≤ M.PI / 2) :
    (∀ lat1 lon1 lat2 lon2 : α,
        (haversineIsNaN M (some lat1) (some lon1) (some lat2) (some lon2) = true
          ↔ haversineTerm M lat1 lon1 lat2 lon2 < 0 ∨ 1 < haversineTerm M lat1 lon1 lat2 lon2)
        ∧ calculateHaversineDistance M (some lat1) (some lon1) (some lat2) (some lon2)
          = distanceOfTerm M (haversineTerm M lat1 lon1 lat2 lon2))
      ∧ (∀ a : α, 0 ≤ a → a ≤ 1 →
        0 ≤ M.sqrt a ∧ 0 ≤ M.sqrt (1 - a)
          ∧ 0 ≤ distanceOfTerm M a
          ∧ distanceOfTerm M a ≤ M.PI * 6371 * (539957 / 1000000)) :=
  ⟨fun lat1 lon1 lat2 lon2 =>
      ⟨by simp only [haversineIsNaN, decide_eq_true_eq], rfl⟩,
    fun a h0 h1 => ⟨hS.1 _ h0, hS.1 _ (sub_nonneg.2 h1), distanceOfTerm_bounds M hS hatan a h0 h1⟩⟩

/-- The points (0, 0) and (0, 90) with the exact functions: the distance lies between 0 and
`π × 6371 × 0.539957`. -/
theorem calculateHaversineDistance_great_circle_witness :
    0 ≤ calculateHaversineDistance realMath (some 0) (some 0) (some 0) (some 90)
      ∧ calculateHaversineDistance realMath (some 0) (some 0) (some 0) (some 90)
        ≤ realMath.PI * 6371 * (539957 / 1000000) :=
  ((calculateHaversineDistance_great_circle realMath signRules_realMath atan2_le_realMath).2
    (haversineTerm realMath 0 0 0 90) (haversineTerm_real_bounds 0 0 0 90).1
    (haversineTerm_real_bounds 0 0 0 90).2).2.2

/-- C18, as stated, fails: for the vessel `R1` (14 knots) and the ports `E0` and `E90` on the
equator the result holds one route of a time other than 0, and `estimatedTime` is that time in
hours, not that time divided by 24. -/
theorem estimatedTime_counterexample :
    ∃ r, optimizeShippingRoutes realMath 1
          { vessels := some [vesselR], ports := some [portE0, portE90], demands := none,
            timeWindows := none, constraints := none } = .returned r
      ∧ r.estimatedTime ≠ (r.routes.map (fun route => route.time)).sum / 24 := by
  obtain ⟨s', hrun, hinv, htrace, hperm⟩ :=
    solveTSPForCluster_multi realMath vesselR [portE0, portE90] none (by decide) (by decide)
      (distancesAreNumbers_real _)
  have hroute : s'.route = [portE0, portE90] := by
    have hlen := hperm.length_eq
    have hhead := hinv.2.2.2.1
    match hs : s'.route, hlen, hhead with
    | [a, b], _, hhead =>
      simp only [List.head?_cons, Option.some.injEq] at hhead
      subst hhead
      rw [hs] at hperm
      have hb : b ∈ [portE0, portE90] := hperm.subset (by simp)
      have hnd : [portE0, b].Nodup := hperm.nodup_iff.2 (by
        have : ([portE0, portE90].map (fun p => p.id)).Nodup := by decide
        exact List.Nodup.of_map _ this)
      simp only [List.mem_cons, List.mem_singleton, List.not_mem_nil, or_false] at hb
      rcases hb with rfl | rfl
      · simp at hnd
      · rfl
  have hdist : s'.totalDistance = portDistance realMath portE0 portE90 := by
    rw [htrace.2, hroute]
    simp [calculateRouteDistance, addLeg, List.range_succ]
  have htime : (finishRoute realMath vesselR none s').time
      = portDistance realMath portE0 portE90 / 14 := by
    have : max vesselR.speed 1 = (14 : ℝ) := by
      simp only [vesselR]; norm_num
    simp only [finishRoute, Bool.false_eq_true, false_and, if_false, hdist, this]
  refine ⟨aggregate [finishRoute realMath vesselR none s'] [vesselR], ?_, ?_⟩
  · simp only [optimizeShippingRoutes, optimizeValidated, List.length_singleton]
    rw [clusterPortsByProximity_one realMath [portE0, portE90] none (by decide),
      assignVesselsToClusters_one]
    simp only [solveAssignments]
    rw [hrun none 1 (by decide)]
  · simp only [aggregate, calculateTotalTime_eq_sum, List.map_cons, List.map_nil, List.sum_cons,
      List.sum_nil, add_zero, htime]
    intro h
    have h0 := portDistance_E0_E90
    have : portDistance realMath portE0 portE90 = 0 := by linarith
    exact h0 this

/-- C18, amended. The total time in the result of `optimizeShippingRoutes`, `estimatedTime`, is
the sum over the routes of `route.time`, in hours; it is not divided by 24. -/
theorem optimizeShippingRoutes_estimatedTime (M : JsMath α) (fuel : Nat)
    (input : OptimizationInput α) (r : OptimizationResult α)
    (h : optimizeShippingRoutes M fuel input = .returned r) :
    r.estimatedTime = (r.routes.map (fun route => route.time)).sum := by
  obtain ⟨vessels, ports, rs, -, -, -, -, -, rfl⟩ :=
    optimizeShippingRoutes_returned M fuel input r h
  exact calculateTotalTime_eq_sum rs

/-- The total time of the end-to-end scenario. -/
theorem optimizeShippingRoutes_estimatedTime_witness :
    ∃ r, optimizeShippingRoutes testMath 2 scenario = .returned r
      ∧ r.estimatedTime = (r.routes.map (fun route => route.time)).sum := by
  obtain ⟨rs, hrs, -⟩ := optimizeValidated_returns testMath [vesselV1] [portA, portB, portC]
    scenario (by simp) (by decide) distancesAreNumbers_ABC
  exact ⟨_, hrs 2 (by decide),
    optimizeShippingRoutes_estimatedTime testMath 2 scenario _ (hrs 2 (by decide))⟩

/-- C19, as stated, fails: with the two routes of `V1` and the fleet `V1` (capacity 5000), `V3`
(capacity 15000) the function returns (5000 + 5000) / 20000 × 100 = 50, `V1` being counted once
per route, not 5000 / 20000 × 100 = 25. -/
theorem utilization_counterexample :
    ([vesselV1, vesselV3].map (fun v => v.id)).Nodup
      ∧ 0 < ([vesselV1, vesselV3].map (fun v => v.capacity)).sum
      ∧ calculateVesselUtilization [routeV1a, routeV1b] [vesselV1, vesselV3] = 50
      ∧ statedUtilization [routeV1a, routeV1b] [vesselV1, vesselV3] = 25 := by
  refine ⟨by decide, by decide!, by decide!, by decide!⟩

/-- C19, amended. For vessels with unique ids and positive total capacity,
`calculateVesselUtilization` returns 100 × (the sum over the routes of the capacity of the
route's vessel, 0 when no vessel has that id) / (the sum of the capacities of all vessels); when
no two routes belong to the same vessel, this is 100 × (the sum of the capacities of the vessels
that have a route) / (the sum of the capacities of all vessels). -/
theorem calculateVesselUtilization_formula (routes : List (Route α))
    (vessels : List (Vessel α)) (hid : (vessels.map (fun v => v.id)).Nodup)
    (htot : 0 < (vessels.map (fun v => v.capacity)).sum) :
    calculateVesselUtilization routes vessels
        = 100 * (routes.map (fun r =>
            (match vessels.find? (fun v => decide (v.id = r.vessel)) with
              | some v => v.capacity
              | none => (0 : α)))).sum
          / (vessels.map (fun v => v.capacity)).sum
      ∧ ((routes.map (fun r => r.vessel)).Nodup →
          calculateVesselUtilization routes vessels = statedUtilization routes vessels) := by
  have h := calculateVesselUtilization_eq routes vessels htot.ne'
  refine ⟨by rw [h]; ring, fun hnd => ?_⟩
  rw [h, statedUtilization]
  have hused := used_capacity_eq vessels (routes.map (fun r => r.vessel)) hid hnd
  rw [List.map_map] at hused
  have hfun : (routes.map (fun r =>
        (match vessels.find? (fun v => decide (v.id = r.vessel)) with
          | some v => v.capacity
          | none => (0 : α))))
      = routes.map ((fun i => (match vessels.find? (fun v => decide (v.id = i)) with
          | some v => orDefault (some v.capacity) 0
          | none => (0 : α))) ∘ fun r => r.vessel) := by
    apply List.map_congr_left
    intro r _
    simp only [Function.comp]
    cases vessels.find? (fun v => decide (v.id = r.vessel)) with
    | none => rfl
    | some v => exact (orDefault_some_zero _).symm
  rw [hfun, hused]
  ring

/-- One route of `V1` in the fleet `V1`, `V3`. -/
theorem calculateVesselUtilization_formula_witness :
    calculateVesselUtilization [routeV1a] [vesselV1, vesselV3]
      = statedUtilization [routeV1a] [vesselV1, vesselV3] :=
  (calculateVesselUtilization_formula [routeV1a] [vesselV1, vesselV3] (by decide)
    (by decide!)).2 (by decide)

/-- C20, as stated, fails: the ports `A` and `A2` have the same coordinates; with `k = 2` each
becomes a cluster of its own.  No distance is computed on this input. -/
theorem same_location_counterexample :
    portA.location = portA2.location
      ∧ clusterPortsByProximity testMath [portA, portA2] none 2 = [[portA], [portA2]]
      ∧ ¬ ∃ c ∈ [[portA], [portA2]], portA ∈ c ∧ portA2 ∈ c := by
  refine ⟨by decide!, by decide!, by decide!⟩

/-- C20, amended. For `k ≥ 1` and more than `k` ports, any two ports of the input that have
identical coordinates are placed in the same cluster by `clusterPortsByProximity`. -/
theorem clusterPortsByProximity_same_location (M : JsMath α) (ports : List (Port α))
    (demands : Option (List α)) (k : Nat) (hk : 1 ≤ k) (hlt : k < ports.length)
    (p q : Port α) (hp : p ∈ ports) (hq : q ∈ ports) (h : p.location = q.location) :
    ∃ c ∈ clusterPortsByProximity M ports demands k, p ∈ c ∧ q ∈ c :=
  same_cluster_of_same_location M ports demands k hk hlt p q hp hq h

/-- The ports `A`, `A2`, `B` clustered for two vessels. -/
theorem clusterPortsByProximity_same_location_witness :
    ∃ c ∈ clusterPortsByProximity testMath [portA, portA2, portB] none 2,
      portA ∈ c ∧ portA2 ∈ c :=
  clusterPortsByProximity_same_location testMath [portA, portA2, portB] none 2 (by decide)
    (by decide) portA portA2 (by simp) (by simp) (by decide!)

/-- C21. `clusterPortsByProximity` is a total function.  With `|ports| ≤ k` it returns the
singleton clusters without a round.  With `|ports| > k` its loop runs some number `N` of
assign-and-recentre rounds with `1 ≤ N ≤ 100`, counted by `iterations`; every round before the
last one changed a centroid, and when the loop stops before the hundredth round its last round
changed no centroid; the result is the non-empty clusters of the last round. -/
theorem clusterPortsByProximity_rounds (M : JsMath α) (ports : List (Port α))
    (demands : Option (List α)) (k : Nat) :
    (ports.length ≤ k →
        clusterPortsByProximity M ports demands k = ports.map (fun port => [port]))
      ∧ (k < ports.length →
        ∃ N, 1 ≤ N ∧ N ≤ 100
          ∧ kmeansLoop M ports k maxIterations (kmeansStart ports k)
            = (kmeansRound M ports k)^[N] (kmeansStart ports k)
          ∧ ((kmeansRound M ports k)^[N] (kmeansStart ports k)).iterations = N
          ∧ (∀ i, i + 1 < N →
              ((kmeansRound M ports k)^[i + 1] (kmeansStart ports k)).centroids
                ≠ ((kmeansRound M ports k)^[i] (kmeansStart ports k)).centroids)
          ∧ (N < 100 →
              ((kmeansRound M ports k)^[N] (kmeansStart ports k)).centroids
                = ((kmeansRound M ports k)^[N - 1] (kmeansStart ports k)).centroids)
          ∧ clusterPortsByProximity M ports demands k
            = ((kmeansRound M ports k)^[N] (kmeansStart ports k)).clusters.filter
                (fun cluster => decide (cluster.length > 0))) := by
  refine ⟨fun h => by simp only [clusterPortsByProximity]; rw [if_pos h], fun h => ?_⟩
  obtain ⟨N, hN, hloop, hall, hstop⟩ :=
    kmeansLoop_eq_iterate M ports k maxIterations (kmeansStart ports k)
  have hlen := kmeansRound_iterate_length M ports k (kmeansStart ports k)
    (kmeansStart_length ports k h)
  have hstep : ∀ i, ((kmeansRound M ports k)^[i + 1] (kmeansStart ports k)).changed = false
      ↔ ((kmeansRound M ports k)^[i + 1] (kmeansStart ports k)).centroids
        = ((kmeansRound M ports k)^[i] (kmeansStart ports k)).centroids := by
    intro i
    rw [Function.iterate_succ_apply']
    exact kmeansRound_changed M ports k _ (hlen i).1
  have hpos : 1 ≤ N := by
    rcases Nat.eq_zero_or_pos N with h0 | h0
    · subst h0
      have := hstop (by decide)
      simp [kmeansStart] at this
    · exact h0
  refine ⟨N, hpos, hN, hloop, ?_, ?_, ?_, ?_⟩
  · rw [(hlen N).2]; simp [kmeansStart]
  · intro i hi heq
    have := hall (i + 1) hi
    rw [(hstep i).2 heq] at this
    cases this
  · intro hlt
    obtain ⟨n, rfl⟩ : ∃ n, N = n + 1 := ⟨N - 1, by omega⟩
    exact (hstep n).1 (hstop hlt)
  · rw [clusterPortsByProximity_eq_loop M ports demands k h, hloop]

/-- The ports `A`, `B`, `C` in one cluster: the loop runs its rounds and stops. -/
theorem clusterPortsByProximity_rounds_witness :
    1 < [portA, portB, portC].length
      ∧ ∃ N, 1 ≤ N ∧ N ≤ 100
          ∧ kmeansLoop testMath [portA, portB, portC] 1 maxIterations
              (kmeansStart [portA, portB, portC] 1)
            = (kmeansRound testMath [portA, portB, portC] 1)^[N]
                (kmeansStart [portA, portB, portC] 1)
          ∧ ((kmeansRound testMath [portA, portB, portC] 1)^[N]
              (kmeansStart [portA, portB, portC] 1)).iterations = N
          ∧ (∀ i, i + 1 < N →
              ((kmeansRound testMath [portA, portB, portC] 1)^[i + 1]
                  (kmeansStart [portA, portB, portC] 1)).centroids
                ≠ ((kmeansRound testMath [portA, portB, portC] 1)^[i]
                  (kmeansStart [portA, portB, portC] 1)).centroids)
          ∧ (N < 100 →
              ((kmeansRound testMath [portA, portB, portC] 1)^[N]
                  (kmeansStart [portA, portB, portC] 1)).centroids
                = ((kmeansRound testMath [portA, portB, portC] 1)^[N - 1]
                  (kmeansStart [portA, portB, portC] 1)).centroids)
          ∧ clusterPortsByProximity testMath [portA, portB, portC] none 1
            = ((kmeansRound testMath [portA, portB, portC] 1)^[N]
                (kmeansStart [portA, portB, portC] 1)).clusters.filter
                (fun cluster => decide (cluster.length > 0)) :=
  ⟨by decide, (clusterPortsByProximity_rounds testMath [portA, portB, portC] none 1).2
    (by decide)⟩

/-- C22, a run where the claim fails.  The vessel `V5` has a daily operating cost of -20000; on
the cluster of the single port `A` the returned cost is 5000 - 20000 + 2250 = -12750, which is
negative.  No distance is computed on this input. -/
theorem negative_cost_counterexample :
    solveTSPForCluster testMath 0 vesselV5 [portA] none none
        = some { vessel := "V5", route := [portA], distance := 0, time := 0, cost := -12750,
                 fuelConsumption := 0 }
      ∧ ¬ (0 : ℚ) ≤ -12750 := by
  refine ⟨by decide!, by decide!⟩

/-- C22, amended.  For a vessel whose `fuelConsumption.atSea`, `dailyOperatingCost` and `crew`
are not negative where present, and a cluster whose berthing fees are not negative where present
and whose distances are numbers, every route returned by `solveTSPForCluster` has
`distance ≥ 0`, `time ≥ 0` and `cost ≥ 0`; and on such a cluster with pairwise distinct ids a
route is returned.  The functions `Math.sqrt` and `Math.atan2` enter with their signs on numbers
that are not negative. -/
theorem solveTSPForCluster_nonneg (M : JsMath α) (hM : SignRules M) (vessel : Vessel α)
    (ports : List (Port α)) (timeWindows : Option (TimeWindows α))
    (constraints : Option Constraints) (hnum : DistancesAreNumbers M ports)
    (hfuel : ∀ a, vessel.fuelConsumption.bind (fun f => f.atSea) = some a → 0 ≤ a)
    (hop : ∀ o, vessel.dailyOperatingCost = some o → 0 ≤ o)
    (hcrew : ∀ c, vessel.crew = some c → 0 ≤ c)
    (hfee : ∀ p ∈ ports, ∀ b, p.charges.bind (fun c => c.berthing) = some b → 0 ≤ b) :
    (∀ fuel r, solveTSPForCluster M fuel vessel ports timeWindows constraints = some r →
        0 ≤ r.distance ∧ 0 ≤ r.time ∧ 0 ≤ r.cost)
      ∧ ((ports.map (fun p => p.id)).Nodup →
        ∃ r, ∀ fuel, ports.length - 1 ≤ fuel →
          solveTSPForCluster M fuel vessel ports timeWindows constraints = some r) := by
  refine ⟨fun fuel r h => ?_, fun hid => ?_⟩
  · match ports, hnum, hfee, h with
    | [], _, _, h =>
      simp only [solveTSPForCluster, Option.some.injEq] at h
      subst h
      exact ⟨le_refl _, le_refl _, le_refl _⟩
    | [port], _, hfee, h =>
      simp only [solveTSPForCluster, Option.some.injEq] at h
      subst h
      exact ⟨le_refl _, le_refl _,
        calculateSinglePortCost_nonneg vessel port hop hcrew
          (hfee port (List.mem_singleton.2 rfl))⟩
    | first :: second :: rest, hnum, _, h =>
      obtain ⟨s, -, rfl, hperm, hhead, htrace, hlegs⟩ :=
        solveTSPForCluster_state M fuel vessel first second rest timeWindows _ r h
      have hs : 0 ≤ s.totalDistance := by
        rw [htrace.2, calculateRouteDistance_eq_consecutive]
        exact consecutiveDistance_nonneg M hM _ hlegs
      have hcur : s.currentPort ∈ first :: second :: rest :=
        hperm.mem_iff.1 (List.mem_of_getLast?_eq_some htrace.1)
      refine finishRoute_nonneg M hM vessel constraints s hs (fun start hstart => ?_) hfuel hop
        hcrew
      rw [hhead] at hstart
      cases hstart
      exact hnum _ hcur _ (List.mem_cons_self _ _)
  · obtain ⟨r, hr, -⟩ := solveTSPForCluster_returns M vessel ports timeWindows
      constraints hid hnum
    exact ⟨r, hr⟩

/-- The vessel `V3` on the ports `A`, `B`, `C`, with `returnToStart`. -/
theorem solveTSPForCluster_nonneg_witness :
    ∃ r, solveTSPForCluster testMath 2 vesselV3 [portA, portB, portC] none
          (some { returnToStart := true }) = some r
      ∧ 0 ≤ r.distance ∧ 0 ≤ r.time ∧ 0 ≤ r.cost := by
  have h := solveTSPForCluster_nonneg testMath signRules_testMath vesselV3
    [portA, portB, portC] none (some { returnToStart := true }) distancesAreNumbers_ABC
    (fun a ha => by
      simp only [vesselV3, Option.some_bind, Option.some.injEq] at ha
      rw [← ha]; norm_num)
    (fun o ho => by
      simp only [vesselV3, Option.some.injEq] at ho
      rw [← ho]; norm_num)
    (fun c hc => by
      simp only [vesselV3, Option.some.injEq] at hc
      rw [← hc]; norm_num)
    (fun p hp b hb => by
      simp only [List.mem_cons, List.mem_singleton, List.not_mem_nil, or_false] at hp
      rcases hp with rfl | rfl | rfl <;> simp [portA, portB, portC] at hb)
  obtain ⟨r, hr⟩ := h.2 (by decide)
  exact ⟨r, hr 2 (by decide), h.1 2 r (hr 2 (by decide))⟩

/-- C23. For every vessel speed, 0 and negative speeds included, the time of a route of
`solveTSPForCluster` over more than one port is its distance divided by `max(speed, 1)`, and
this divisor is at least 1, so it is never 0. -/
theorem solveTSPForCluster_time (M : JsMath α) (fuel : Nat) (vessel : Vessel α)
    (ports : List (Port α)) (timeWindows : Option (TimeWindows α))
    (constraints : Option Constraints) (r : Route α) (hn : 1 < ports.length)
    (h : solveTSPForCluster M fuel vessel ports timeWindows constraints = some r) :
    r.time = r.distance / max vessel.speed 1 ∧ 1 ≤ max vessel.speed 1
      ∧ max vessel.speed 1 ≠ 0 := by
  have h1 : (1 : α) ≤ max vessel.speed 1 := le_max_right _ _
  refine ⟨?_, h1, fun h0 => by rw [h0] at h1; exact absurd h1 (by norm_num)⟩
  match ports, hn with
  | first :: second :: rest, _ =>
    simp only [solveTSPForCluster] at h
    split at h
    · cases h
    · simp only [Option.some.injEq] at h
      rw [← h]
      rfl

/-- The route of the vessel `V5`, whose speed is 0, over the ports `A`, `B`, `C`. -/
theorem solveTSPForCluster_time_witness :
    ∃ r, solveTSPForCluster testMath 2 vesselAdrift [portA, portB, portC] none none = some r
      ∧ r.time = r.distance / max vesselAdrift.speed 1 ∧ 1 ≤ max vesselAdrift.speed 1
      ∧ max vesselAdrift.speed 1 ≠ 0 := by
  obtain ⟨r, hr, -⟩ := solveTSPForCluster_returns testMath vesselAdrift [portA, portB, portC]
    none none (by decide) distancesAreNumbers_ABC
  exact ⟨r, hr 2 (by decide),
    solveTSPForCluster_time testMath 2 vesselAdrift [portA, portB, portC] none none r
      (by decide) (hr 2 (by decide))⟩

/-- C24, a step that selects no port.  In the start state of the cluster `G` (8, 0),
`H` (-8, 180), with the default windows, the port `H` is unvisited and within its window, but
its distance from the current port `G` is `NaN`: neither scan selects it, and the round adds no
stop. -/
theorem selection_counterexample :
    [portG, portH].filter (fun p => unvisited (tspStart portG) p
        && inWindow vesselV1 (fun _ => none) (tspStart portG) p) = [portH]
      ∧ reachable testMath (tspStart portG) portH = false
      ∧ (tspStep testMath vesselV1 [portG, portH] (fun _ => none) (tspStart portG)).route
        = [portG] := by
  refine ⟨by decide!, by decide!, by decide!⟩

/-- C24. At a selection step of `solveTSPForCluster` in the state `s`, the arrival time is
`(s.totalDistance / speed) mod 24`, or 0 when `speed ≤ 0`, and a port is within its window when
`open ≤ arrival ≤ close` for its entry of `timeWindows`, or for the window from 0 to 24 when it
has no entry.  Among the ports whose distance from the current port is a number: if some
unvisited port is within its window, the next stop is the unvisited port within its window that
is nearest to the current port; otherwise, if there is an unvisited port, it is the nearest
unvisited port; a port that comes first in the cluster wins a tie, and the accumulated distance
grows by the chosen leg.  If every unvisited port is at a `NaN` distance, the step adds no stop.
When all distances from the current port are numbers, this is the selection among all unvisited
ports. -/
theorem tspStep_selection (M : JsMath α) (vessel : Vessel α) (ports : List (Port α))
    (timeWindows : TimeWindows α) (s : TspState α) :
    (calculateArrivalTime s.totalDistance vessel.speed
        = if vessel.speed ≤ 0 then 0 else jsMod (s.totalDistance / vessel.speed) 24)
      ∧ (∀ x : α, 0 ≤ x →
          0 ≤ jsMod x 24 ∧ jsMod x 24 < 24 ∧ ∃ n : ℤ, x = 24 * (n : α) + jsMod x 24)
      ∧ (∀ port, inWindow vessel timeWindows s port = true ↔
          (match timeWindows port.id with
            | some w => w.openAt ≤ calculateArrivalTime s.totalDistance vessel.speed
                ∧ calculateArrivalTime s.totalDistance vessel.speed ≤ w.closeAt
            | none => 0 ≤ calculateArrivalTime s.totalDistance vessel.speed
                ∧ calculateArrivalTime s.totalDistance vessel.speed ≤ 24))
      ∧ (ports.filter (fun p => unvisited s p && inWindow vessel timeWindows s p
            && reachable M s p) ≠ [] →
          ∃ p, IsFirstMin (portDistance M s.currentPort)
              (ports.filter (fun p => unvisited s p && inWindow vessel timeWindows s p
                && reachable M s p)) p
            ∧ tspStep M vessel ports timeWindows s
              = visit s p (some (portDistance M s.currentPort p)))
      ∧ (ports.filter (fun p => unvisited s p && inWindow vessel timeWindows s p
            && reachable M s p) = [] →
          ports.filter (fun p => unvisited s p && reachable M s p) ≠ [] →
          ∃ p, IsFirstMin (portDistance M s.currentPort)
              (ports.filter (fun p => unvisited s p && reachable M s p)) p
            ∧ tspStep M vessel ports timeWindows s
              = visit s p (some (portDistance M s.currentPort p)))
      ∧ (ports.filter (fun p => unvisited s p && reachable M s p) = [] →
          tspStep M vessel ports timeWindows s = s)
      ∧ ((∀ p ∈ ports, portDistanceIsNaN M s.currentPort p = false) →
          ports.filter (fun p => unvisited s p && inWindow vessel timeWindows s p
              && reachable M s p)
            = ports.filter (fun p => unvisited s p && inWindow vessel timeWindows s p)
          ∧ ports.filter (fun p => unvisited s p && reachable M s p)
            = ports.filter (fun p => unvisited s p))
      ∧ (∀ p d, (visit s p (some d)).totalDistance = s.totalDistance + d
          ∧ (visit s p (some d)).route = s.route ++ [p]
          ∧ (visit s p (some d)).currentPort = p) := by
  refine ⟨rfl, jsMod_nonneg, ?_, tspStep_in_window M vessel ports timeWindows s,
    tspStep_fallback M vessel ports timeWindows s, tspStep_stuck M vessel ports timeWindows s,
    fun hnum => ?_, fun p d => ⟨rfl, rfl, rfl⟩⟩
  · intro port
    simp only [inWindow, windowOf, decide_eq_true_eq]
    cases timeWindows port.id <;> rfl
  · have hr : ∀ p ∈ ports, reachable M s p = true := fun p hp => by
      simp [reachable, hnum p hp]
    constructor
    · exact List.filter_congr (fun p hp => by rw [hr p hp, Bool.and_true])
    · exact List.filter_congr (fun p hp => by rw [hr p hp, Bool.and_true])

/-- The first step of the end-to-end scenario, with the default windows and with windows that
are closed at the arrival time 0. -/
theorem tspStep_selection_witness :
    (∃ p, IsFirstMin (portDistance testMath (tspStart portA).currentPort)
          ([portA, portB, portC].filter (fun p => unvisited (tspStart portA) p
            && inWindow vesselV1 (fun _ => none) (tspStart portA) p
            && reachable testMath (tspStart portA) p)) p
        ∧ tspStep testMath vesselV1 [portA, portB, portC] (fun _ => none) (tspStart portA)
          = visit (tspStart portA) p
              (some (portDistance testMath (tspStart portA).currentPort p)))
      ∧ (∃ p, IsFirstMin (portDistance testMath (tspStart portA).currentPort)
          ([portA, portB, portC].filter (fun p => unvisited (tspStart portA) p
            && reachable testMath (tspStart portA) p)) p
        ∧ tspStep testMath vesselV1 [portA, portB, portC] officeHours (tspStart portA)
          = visit (tspStart portA) p
              (some (portDistance testMath (tspStart portA).currentPort p))) :=
  ⟨(tspStep_selection testMath vesselV1 [portA, portB, portC] (fun _ => none)
      (tspStart portA)).2.2.2.1 (by decide!),
    (tspStep_selection testMath vesselV1 [portA, portB, portC] officeHours
      (tspStart portA)).2.2.2.2.1 (by decide!) (by decide!)⟩

/-- C25, a run where the claim fails.  The ports `X`, `Z`, `W` lie on the prime meridian at
latitudes -1, 0, 1, and `X` and `Z` carry the same id.  With `k = 1` the loop runs one round and
stops: the only cluster holds the three ports, the member closest to the mean of their
coordinates is `Z`, and the centroid stays `X`, because the recentring step compares ids. -/
theorem centroid_counterexample :
    1 < [portX, portZ, portW].length
      ∧ kmeansLoop realMath [portX, portZ, portW] 1 maxIterations
          (kmeansStart [portX, portZ, portW] 1)
        = kmeansRound realMath [portX, portZ, portW] 1 (kmeansStart [portX, portZ, portW] 1)
      ∧ (kmeansRound realMath [portX, portZ, portW] 1
          (kmeansStart [portX, portZ, portW] 1)).clusters = [[portX, portZ, portW]]
      ∧ (kmeansRound realMath [portX, portZ, portW] 1
          (kmeansStart [portX, portZ, portW] 1)).centroids = [portX]
      ∧ IsFirstMin (meanDistance realMath [portX, portZ, portW]) [portX, portZ, portW] portZ
      ∧ ¬ IsFirstMin (meanDistance realMath [portX, portZ, portW]) [portX, portZ, portW]
          portX := by
  have hcl : (kmeansRound realMath [portX, portZ, portW] 1
      (kmeansStart [portX, portZ, portW] 1)).clusters = [[portX, portZ, portW]] :=
    assignPorts_one realMath portX [portX, portZ, portW]
  have hrec : recentreFrom realMath [[portX, portZ, portW]] 0 [portX] false
      = ([portX], false) := by
    simp only [recentreFrom]
    rw [recentreOne_eq, closestToMean_XZW]
    simp [portX, portZ]
  have hround : kmeansRound realMath [portX, portZ, portW] 1
      (kmeansStart [portX, portZ, portW] 1)
      = { centroids := [portX], clusters := [[portX, portZ, portW]], changed := false,
          iterations := 1 } := by
    have hstart : (kmeansStart [portX, portZ, portW] 1).centroids = [portX] := rfl
    unfold kmeansRound
    simp only [hstart]
    rw [assignPorts_one, hrec]
    rfl
  obtain ⟨hX, hZ, hW⟩ := meanDistance_XZW
  refine ⟨by decide, ?_, hcl, by rw [hround], closestToMean_isFirstMin _ _ _ closestToMean_XZW,
    fun h => ?_⟩
  · show kmeansLoop realMath [portX, portZ, portW] 1 (99 + 1)
        (kmeansStart [portX, portZ, portW] 1) = _
    have hch : (kmeansStart [portX, portZ, portW] 1).changed = true := rfl
    rw [kmeansLoop, if_pos hch, hround]
    rfl
  · have := h.le portZ (by simp)
    rw [hX, hZ] at this
    norm_num at this

/-- C25, amended.  With `|ports| > k` the initial centroids are the first `k` input ports and the
loop ends in the state after some number `N ≥ 1` of rounds; in the state after any number of
rounds there are `k` centroids, each an element of the input port list.  A round from any state
with `k` centroids among the input ports gives again `k` centroids among the input ports.  It
leaves the centroid of an empty cluster as it was.  For a non-empty cluster it finds the member
`p` closest to the arithmetic mean of the members' coordinates, by the Euclidean distance in
degrees as the code computes it, every operation rounded, the first member on ties of the
computed distance; the centroid becomes `p` when the id of the old centroid differs from the id
of `p` and stays the old centroid otherwise.  So with pairwise distinct ids of the input ports
the centroid of a non-empty cluster after a round is `p`. -/
theorem kmeansRound_centroids (M : JsMath α) (ports : List (Port α)) (k : Nat)
    (hlt : k < ports.length) :
    (kmeansStart ports k).centroids = ports.take k
      ∧ (∃ N, 1 ≤ N ∧ N ≤ 100
          ∧ kmeansLoop M ports k maxIterations (kmeansStart ports k)
            = (kmeansRound M ports k)^[N] (kmeansStart ports k))
      ∧ (∀ n,
        (∀ c ∈ ((kmeansRound M ports k)^[n] (kmeansStart ports k)).centroids, c ∈ ports)
          ∧ ((kmeansRound M ports k)^[n] (kmeansStart ports k)).centroids.length = k)
      ∧ ∀ s : KMeansState α, s.centroids.length = k → (∀ c ∈ s.centroids, c ∈ ports) →
        (kmeansRound M ports k s).centroids.length = k
          ∧ (∀ c ∈ (kmeansRound M ports k s).centroids, c ∈ ports)
          ∧ (kmeansRound M ports k s).clusters.length = k
          ∧ ∀ idx cluster, (kmeansRound M ports k s).clusters.get? idx = some cluster →
            (cluster = [] →
              (kmeansRound M ports k s).centroids.get? idx = s.centroids.get? idx)
            ∧ (cluster ≠ [] →
              ∃ p old, IsFirstMin (meanDistance M cluster) cluster p
                ∧ s.centroids.get? idx = some old
                ∧ (kmeansRound M ports k s).centroids.get? idx
                  = some (if old.id = p.id then old else p)
                ∧ ((ports.map (fun q => q.id)).Nodup →
                  (kmeansRound M ports k s).centroids.get? idx = some p)) := by
  have hlen := kmeansRound_iterate_length M ports k (kmeansStart ports k)
    (kmeansStart_length ports k hlt)
  refine ⟨rfl, ?_, fun n => ⟨kmeansRound_iterate_mem M ports k hlt n, (hlen n).1⟩,
    fun s hs hmem => ⟨(kmeansRound_spec M ports k s hs).1,
      kmeansRound_centroids_mem M ports k s hs hmem, kmeansRound_clusters_length M ports k s,
      fun idx cluster hcl => ?_⟩⟩
  · obtain ⟨N, hN, hloop, -, hstop⟩ :=
      kmeansLoop_eq_iterate M ports k maxIterations (kmeansStart ports k)
    refine ⟨N, ?_, hN, hloop⟩
    rcases Nat.eq_zero_or_pos N with h0 | h0
    · subst h0
      have := hstop (by decide)
      simp [kmeansStart] at this
    · exact h0
  · have hget := kmeansRound_get? M ports k s idx cluster hcl
    have hidx : idx < k := by
      have := (List.get?_eq_some.1 hcl).1
      rw [kmeansRound_clusters_length] at this
      exact this
    obtain ⟨c0, hc0⟩ : ∃ c0, s.centroids.get? idx = some c0 :=
      ⟨_, List.get?_eq_get (by rw [hs]; exact hidx)⟩
    constructor
    · intro hnil
      rw [hget, hnil]
      rfl
    · intro hne
      obtain ⟨p, hp⟩ := closestToMean_isSome M cluster hne
      have hmin := closestToMean_isFirstMin M cluster p hp
      have hnew : (kmeansRound M ports k s).centroids.get? idx
          = some (if c0.id = p.id then c0 else p) := by
        rw [hget, hp, hc0]
        simp only [Option.map_some']
        by_cases hids : c0.id = p.id
        · rw [if_pos hids, if_neg (fun h => h (congrArg some hids))]
        · rw [if_neg hids, if_pos (fun h => hids (Option.some.inj h))]
      refine ⟨p, c0, hmin, hc0, hnew, fun hid => ?_⟩
      rw [hnew]
      by_cases hids : c0.id = p.id
      · rw [if_pos hids]
        have hpmem : p ∈ ports :=
          mem_assignPorts M _ ports k cluster p (List.get?_mem hcl) hmin.mem
        rw [eq_of_id_eq ports hid c0 p (hmem c0 (List.get?_mem hc0)) hpmem hids]
      · rw [if_neg hids]

/-- The ports `A`, `B`, `C` in one cluster: after the first round the centroid is the member
closest to the mean. -/
theorem kmeansRound_centroids_witness :
    1 < [portA, portB, portC].length
      ∧ ([portA, portB, portC].map (fun p => p.id)).Nodup
      ∧ ∃ p, (kmeansRound testMath [portA, portB, portC] 1
            (kmeansStart [portA, portB, portC] 1)).centroids.get? 0 = some p
          ∧ IsFirstMin (meanDistance testMath [portA, portB, portC]) [portA, portB, portC] p := by
  obtain ⟨p, old, hmin, -, -, hp⟩ :=
    ((((kmeansRound_centroids testMath [portA, portB, portC] 1 (by decide)).2.2.2
      (kmeansStart [portA, portB, portC] 1) rfl
      (fun c hc => List.mem_of_mem_take hc)).2.2.2 0 [portA, portB, portC]
      (congrArg (fun cs => cs.get? 0)
        (assignPorts_one testMath portA [portA, portB, portC]))).2) (by simp)
  exact ⟨by decide, by decide, p, hp (by decide), hmin⟩

/-- C26, a run that does not end.  On the cluster of the ports `H` (-8, 180) and `G` (8, 0),
which have distinct ids, the distance from `H` to `G` is `NaN`: a round of the loop selects no
port and leaves the state as it is, with one visited port out of two, and the loop does not
finish, whatever the fuel. -/
theorem loop_counterexample :
    ([portH, portG].map (fun p => p.id)).Nodup
      ∧ ((tspStep testMath vesselV1 [portH, portG] (fun _ => none))^[1]
          (tspStart portH)).visited.length = 1
      ∧ ∀ fuel, tspLoop testMath vesselV1 [portH, portG] (fun _ => none) fuel (tspStart portH)
          = none := by
  have hstep : tspStep testMath vesselV1 [portH, portG] (fun _ => none) (tspStart portH)
      = tspStart portH := by decide!
  exact ⟨by decide, by rw [Function.iterate_one, hstep]; rfl,
    tspLoop_stuck testMath vesselV1 [portH, portG] (fun _ => none) (tspStart portH)
      (by decide) hstep⟩

/-- C26. A round of the nearest-neighbour loop of `solveTSPForCluster` marks one more port as
visited, unless every unvisited port is at a `NaN` distance from the current port, in which case
it leaves the state as it is.  On a cluster of `n > 1` ports with pairwise distinct ids whose
distances are numbers, the loop starts with one visited port, every round up to the `(n - 1)`-th
marks exactly one more port as visited, and the loop stops after exactly `n - 1` rounds with all
ports visited: it returns the state after `n - 1` rounds with any fuel from `n - 1` on, and
does not finish with less. -/
theorem tspLoop_rounds (M : JsMath α) (vessel : Vessel α) (first second : Port α)
    (rest : List (Port α)) (timeWindows : TimeWindows α)
    (hid : ((first :: second :: rest).map (fun p => p.id)).Nodup)
    (hnum : DistancesAreNumbers M (first :: second :: rest)) :
    (∀ s : TspState α,
        ((first :: second :: rest).filter (fun p => unvisited s p && reachable M s p) = []
          ∧ tspStep M vessel (first :: second :: rest) timeWindows s = s)
        ∨ (tspStep M vessel (first :: second :: rest) timeWindows s).visited.length
          = s.visited.length + 1)
      ∧ (tspStart first).visited.length = 1
      ∧ (∀ i, i ≤ (first :: second :: rest).length - 1 →
          ((tspStep M vessel (first :: second :: rest) timeWindows)^[i]
            (tspStart first)).visited.length = 1 + i)
      ∧ ((tspStep M vessel (first :: second :: rest) timeWindows)^[
            (first :: second :: rest).length - 1] (tspStart first)).visited.length
          = (first :: second :: rest).length
      ∧ (∀ fuel, (first :: second :: rest).length - 1 ≤ fuel →
          tspLoop M vessel (first :: second :: rest) timeWindows fuel (tspStart first)
            = some ((tspStep M vessel (first :: second :: rest) timeWindows)^[
                (first :: second :: rest).length - 1] (tspStart first)))
      ∧ (∀ fuel, fuel < (first :: second :: rest).length - 1 →
          tspLoop M vessel (first :: second :: rest) timeWindows fuel (tspStart first) = none)
      ∧ (∀ fuel (constraints : Option Constraints),
          solveTSPForCluster M fuel vessel (first :: second :: rest) (some timeWindows)
              constraints
            = (tspLoop M vessel (first :: second :: rest) timeWindows fuel
                (tspStart first)).map (finishRoute M vessel constraints)) := by
  have hiter := fun i hi =>
    (tspStep_iterate M vessel first second rest timeWindows hid hnum i hi).2
  have hloop := fun fuel => tspLoop_eq_iterate M vessel (first :: second :: rest) timeWindows
    ((first :: second :: rest).length - 1) fuel (tspStart first)
    (fun i hi => by rw [(hiter i (by omega)).2]; omega)
    (by rw [(hiter _ (le_refl _)).2]; simp; omega)
  refine ⟨fun s => ?_, by simp [tspStart, setAdd], fun i hi => (hiter i hi).2, ?_, ?_, ?_, ?_⟩
  · rcases tspStep_cases M vessel (first :: second :: rest) timeWindows s with
      h | ⟨p, h, -, hv, -⟩
    · exact Or.inl h
    · right
      rw [h]
      simp [visit, setAdd, hv]
  · rw [(hiter _ (le_refl _)).2]; simp; omega
  · intro fuel hfuel
    rw [hloop fuel, if_pos hfuel]
  · intro fuel hfuel
    rw [hloop fuel, if_neg (by omega)]
  · intro fuel constraints
    simp only [solveTSPForCluster, Option.getD_some, tspStart]
    cases tspLoop M vessel (first :: second :: rest) timeWindows fuel
      { visited := setAdd [] first.id, route := [first], currentPort := first,
        totalDistance := 0 } <;> rfl

/-- The loop over the ports `A`, `B`, `C`: two rounds. -/
theorem tspLoop_rounds_witness :
    ((tspStep testMath vesselV1 [portA, portB, portC] (fun _ => none))^[2]
        (tspStart portA)).visited.length = 3
      ∧ tspLoop testMath vesselV1 [portA, portB, portC] (fun _ => none) 1 (tspStart portA)
        = none :=
  ⟨(tspLoop_rounds testMath vesselV1 portA portB [portC] (fun _ => none) (by decide)
      distancesAreNumbers_ABC).2.2.2.1,
    (tspLoop_rounds testMath vesselV1 portA portB [portC] (fun _ => none) (by decide)
      distancesAreNumbers_ABC).2.2.2.2.2.1 1 (by decide)⟩

/-- C27, a run that does not end.  One vessel and the ports `H` (-8, 180), `G` (8, 0), which
have distinct ids: the two ports form one cluster, their distance is `NaN`, and
`optimizeShippingRoutes` returns no result, whatever the fuel; no port is visited by a route. -/
theorem coverage_counterexample :
    ([portH, portG].map (fun p => p.id)).Nodup
      ∧ ∀ fuel, optimizeShippingRoutes testMath fuel
          { vessels := some [vesselV1], ports := some [portH, portG], demands := none,
            timeWindows := none, constraints := none } = .outOfFuel := by
  refine ⟨by decide, fun fuel => ?_⟩
  have hstep : tspStep testMath vesselV1 [portH, portG] (fun _ => none) (tspStart portH)
      = tspStart portH := by decide!
  have hloop := tspLoop_stuck testMath vesselV1 [portH, portG] (fun _ => none) (tspStart portH)
    (by decide) hstep fuel
  have hsolve : solveTSPForCluster testMath fuel vesselV1 [portH, portG] none none = none := by
    rw [solveTSPForCluster_eq_loop]
    simp only [Option.getD_none]
    rw [hloop]
    rfl
  simp only [optimizeShippingRoutes, optimizeValidated, List.length_singleton]
  rw [clusterPortsByProximity_one testMath [portH, portG] none (by decide),
    assignVesselsToClusters_one]
  simp only [solveAssignments]
  rw [hsolve]

/-- C27. In every result that `optimizeShippingRoutes` returns, the stop sequences of the routes,
taken together, are a permutation of the input ports: every port is visited by exactly one
route, once.  For a non-empty vessel list and a non-empty list of ports with pairwise distinct
ids whose distances are numbers, a result is returned, with any fuel from `|ports| - 1` on. -/
theorem optimizeShippingRoutes_coverage (M : JsMath α) (vessels : List (Vessel α))
    (ports : List (Port α)) (demands : Option (List α))
    (timeWindows : Option (TimeWindows α)) (constraints : Option Constraints)
    (hv : vessels ≠ []) (hp : ports ≠ []) :
    (∀ fuel r, optimizeShippingRoutes M fuel
          { vessels := some vessels, ports := some ports, demands := demands,
            timeWindows := timeWindows, constraints := constraints } = .returned r →
        (r.routes.map (fun route => route.route)).flatten.Perm ports)
      ∧ ((ports.map (fun p => p.id)).Nodup → DistancesAreNumbers M ports →
        ∃ r, (∀ fuel, ports.length - 1 ≤ fuel →
            optimizeShippingRoutes M fuel
              { vessels := some vessels, ports := some ports, demands := demands,
                timeWindows := timeWindows, constraints := constraints } = .returned r)
          ∧ (r.routes.map (fun route => route.route)).flatten.Perm ports) := by
  have hret : ∀ fuel r, optimizeShippingRoutes M fuel
        { vessels := some vessels, ports := some ports, demands := demands,
          timeWindows := timeWindows, constraints := constraints } = .returned r →
      (r.routes.map (fun route => route.route)).flatten.Perm ports := by
    intro fuel r h
    obtain ⟨ports', hp', hperm⟩ := optimizeShippingRoutes_perm M fuel _ r h
    simp only [Option.some.injEq] at hp'
    rw [hp']
    exact hperm
  refine ⟨hret, fun hid hnum => ?_⟩
  obtain ⟨rs, hrs, -⟩ := optimizeValidated_returns M vessels ports
    { vessels := some vessels, ports := some ports, demands := demands,
      timeWindows := timeWindows, constraints := constraints } hv hid hnum
  have hrun : ∀ fuel, ports.length - 1 ≤ fuel →
      optimizeShippingRoutes M fuel
        { vessels := some vessels, ports := some ports, demands := demands,
          timeWindows := timeWindows, constraints := constraints }
        = .returned (aggregate rs vessels) := by
    intro fuel hfuel
    match vessels, ports, hv, hp with
    | v :: vs, p :: ps, _, _ => exact hrs fuel hfuel
  exact ⟨aggregate rs vessels, hrun, hret _ _ (hrun _ (le_refl _))⟩

/-- The end-to-end scenario: the stops of the routes are the three ports. -/
theorem optimizeShippingRoutes_coverage_witness :
    ∃ r, (∀ fuel, [portA, portB, portC].length - 1 ≤ fuel →
        optimizeShippingRoutes testMath fuel scenario = .returned r)
      ∧ (r.routes.map (fun route => route.route)).flatten.Perm [portA, portB, portC] :=
  (optimizeShippingRoutes_coverage testMath [vesselV1] [portA, portB, portC] none none
    (some { returnToStart := true }) (by simp) (by simp)).2 (by decide) distancesAreNumbers_ABC

/-- C28. With the real functions of `Math`, for `k ≥ 1` and a list of ports in which any two
ports are at strictly positive haversine distance from each other, `clusterPortsByProximity`
returns exactly `min(|ports|, k)` clusters: the singletons when `|ports| ≤ k`, and otherwise, in
every round of the loop, every centroid is put into the cluster of its own index, so that none
of the `k` clusters is empty and the final filter drops none. -/
theorem clusterPortsByProximity_count (ports : List (Port ℝ)) (demands : Option (List ℝ))
    (k : Nat) (hk : 1 ≤ k)
    (hpos : ports.Pairwise (fun p q => 0 < portDistance realMath p q)) :
    (clusterPortsByProximity realMath ports demands k).length = min ports.length k
      ∧ (k < ports.length → ∀ n,
          (∀ i c,
            ((kmeansRound realMath ports k)^[n] (kmeansStart ports k)).centroids.get? i
                = some c →
              ∃ cluster,
                ((kmeansRound realMath ports k)^[n + 1] (kmeansStart ports k)).clusters.get? i
                    = some cluster
                  ∧ c ∈ cluster)
            ∧ (∀ cluster ∈
                ((kmeansRound realMath ports k)^[n + 1] (kmeansStart ports k)).clusters,
                cluster ≠ [])
            ∧ ((kmeansRound realMath ports k)^[n + 1] (kmeansStart ports k)).clusters.length
                = k) := by
  obtain ⟨hnd, hdist⟩ := pairwise_positive_real ports hpos
  have hself : ∀ a : Port ℝ, portDistance realMath a a = 0 :=
    fun a => calculateHaversineDistance_real_self _ _
  have hround : k < ports.length → ∀ n,
      (∀ i c,
        ((kmeansRound realMath ports k)^[n] (kmeansStart ports k)).centroids.get? i = some c →
          ∃ cluster,
            ((kmeansRound realMath ports k)^[n + 1] (kmeansStart ports k)).clusters.get? i
                = some cluster
              ∧ c ∈ cluster)
        ∧ (∀ cluster ∈
            ((kmeansRound realMath ports k)^[n + 1] (kmeansStart ports k)).clusters,
            cluster ≠ [])
        ∧ ((kmeansRound realMath ports k)^[n + 1] (kmeansStart ports k)).clusters.length
            = k := by
    intro hlt n
    have hinv := kmeansRound_iterate_inv realMath ports k hk hlt hself
      (fun a => portDistanceIsNaN_real a a) hdist hnd n
    have h := kmeansRound_inv realMath ports k hk hself
      (fun a => portDistanceIsNaN_real a a) hdist hnd _ hinv
    rw [Function.iterate_succ_apply']
    exact ⟨h.1, h.2.1, kmeansRound_clusters_length realMath ports k _⟩
  refine ⟨?_, hround⟩
  rcases Nat.lt_or_ge k ports.length with hlt | hge
  · obtain ⟨N, -, hloop, -, hstop⟩ :=
      kmeansLoop_eq_iterate realMath ports k maxIterations (kmeansStart ports k)
    have hpos' : 1 ≤ N := by
      rcases Nat.eq_zero_or_pos N with h0 | h0
      · subst h0
        have := hstop (by decide)
        simp [kmeansStart] at this
      · exact h0
    obtain ⟨n, rfl⟩ : ∃ n, N = n + 1 := ⟨N - 1, by omega⟩
    rw [clusterPortsByProximity_eq_loop realMath ports demands k hlt, hloop,
      filter_nonempty_eq _ (hround hlt n).2.1, (hround hlt n).2.2]
    exact (Nat.min_eq_right hlt.le).symm
  · simp only [clusterPortsByProximity]
    rw [if_pos hge, List.length_map]
    exact (Nat.min_eq_left hge).symm

/-- The two equator ports, a quarter of a turn apart, with `k = 1`: one cluster. -/
theorem clusterPortsByProximity_count_witness :
    [portE0, portE90].Pairwise (fun p q => 0 < portDistance realMath p q)
      ∧ (clusterPortsByProximity realMath [portE0, portE90] none 1).length = 1 :=
  have hpos : [portE0, portE90].Pairwise (fun p q => 0 < portDistance realMath p q) :=
    List.pairwise_pair.2
      (lt_of_le_of_ne (portDistance_real_nonneg portE0 portE90) (Ne.symm portDistance_E0_E90))
  ⟨hpos, (clusterPortsByProximity_count [portE0, portE90] none 1 (le_refl 1) hpos).1⟩

/-- C29. Without `returnToStart` (`constraints` absent, or `returnToStart` false) the distance of
every route that `solveTSPForCluster` returns is the sum of the haversine distances between
consecutive stops of the returned route, each of which is a number, and this sum is the value of
`calculateRouteDistance` on the returned stop sequence.  When the ports have distinct ids and
their distances are numbers, a route is returned, with any fuel from `n - 1` on. -/
theorem solveTSPForCluster_distance (M : JsMath α) (vessel : Vessel α) (ports : List (Port α))
    (timeWindows : Option (TimeWindows α)) (constraints : Option Constraints)
    (hunset : constraints = none ∨ constraints = some { returnToStart := false }) :
    (∀ fuel r, solveTSPForCluster M fuel vessel ports timeWindows constraints = some r →
        r.distance = consecutiveDistance M r.route
          ∧ r.distance = calculateRouteDistance M r.route
          ∧ legsAreNumbers M r.route)
      ∧ ((ports.map (fun p => p.id)).Nodup → DistancesAreNumbers M ports →
        ∃ r, ∀ fuel, ports.length - 1 ≤ fuel →
          solveTSPForCluster M fuel vessel ports timeWindows constraints = some r) := by
  refine ⟨fun fuel r h => ?_, fun hid hnum => ?_⟩
  · match ports, h with
    | [], h =>
      simp only [solveTSPForCluster, Option.some.injEq] at h
      subst h
      exact ⟨rfl, by simp [calculateRouteDistance], trivial⟩
    | [p], h =>
      simp only [solveTSPForCluster, Option.some.injEq] at h
      subst h
      exact ⟨rfl, by simp [calculateRouteDistance], trivial⟩
    | first :: second :: rest, h =>
      obtain ⟨s', -, rfl, -, -, htrace, hlegs⟩ :=
        solveTSPForCluster_state M fuel vessel first second rest timeWindows _ r h
      refine ⟨?_, ?_, hlegs⟩
      · rw [finishRoute_distance_unset M vessel constraints hunset s', finishRoute_route,
          htrace.2, calculateRouteDistance_eq_consecutive]
      · rw [finishRoute_distance_unset M vessel constraints hunset s', finishRoute_route,
          htrace.2]
  · obtain ⟨r, hr, -⟩ :=
      solveTSPForCluster_returns M vessel ports timeWindows constraints hid hnum
    exact ⟨r, hr⟩

/-- The route of `V1` over the ports `A`, `B`, `C` without `returnToStart`. -/
theorem solveTSPForCluster_distance_witness :
    ∃ r, solveTSPForCluster testMath 2 vesselV1 [portA, portB, portC] none none = some r
      ∧ r.distance = consecutiveDistance testMath r.route
      ∧ r.distance = calculateRouteDistance testMath r.route
      ∧ legsAreNumbers testMath r.route := by
  obtain ⟨r, hr⟩ := (solveTSPForCluster_distance testMath vesselV1 [portA, portB, portC] none
    none (Or.inl rfl)).2 (by decide) distancesAreNumbers_ABC
  exact ⟨r, hr 2 (by decide),
    (solveTSPForCluster_distance testMath vesselV1 [portA, portB, portC] none none
      (Or.inl rfl)).1 2 r (hr 2 (by decide))⟩

/-- C30. In every result of `optimizeShippingRoutes` there are at most as many routes as
vessels, and the route of rank `i` belongs to the vessel of rank `i` of the capacity-sorted
list, so the rule for surplus clusters is not used; for vessels with unique ids no vessel id
appears in two routes. -/
theorem optimizeShippingRoutes_distinct_vessels (M : JsMath α) (fuel : Nat)
    (vessels : List (Vessel α)) (ports : List (Port α)) (demands : Option (List α))
    (timeWindows : Option (TimeWindows α)) (constraints : Option Constraints)
    (r : OptimizationResult α)
    (h : optimizeShippingRoutes M fuel
      { vessels := some vessels, ports := some ports, demands := demands,
        timeWindows := timeWindows, constraints := constraints } = .returned r) :
    r.routes.length ≤ vessels.length
      ∧ (assignVesselsToClusters vessels
          (clusterPortsByProximity M ports demands vessels.length)).length ≤ vessels.length
      ∧ r.routes.map (fun route => route.vessel)
        = ((jsSort (fun (a b : Vessel α) => b.capacity - a.capacity) vessels).take
            r.routes.length).map (fun v => v.id)
      ∧ ((vessels.map (fun v => v.id)).Nodup →
          (r.routes.map (fun route => route.vessel)).Nodup) := by
  obtain ⟨vessels', ports', rs, hv, hp, -, -, hrs, rfl⟩ :=
    optimizeShippingRoutes_returned M fuel _ r h
  simp only [Option.some.injEq] at hv hp
  subst hv hp
  have hle := clusterPortsByProximity_length_le M ports demands vessels.length
  obtain ⟨hmap, hlen⟩ := routes_vessel_ids M fuel timeWindows constraints vessels _ rs hle hrs
  have hroutes : (aggregate rs vessels).routes = rs := rfl
  rw [hroutes]
  refine ⟨by omega, by rw [length_assignVesselsToClusters]; exact hle,
    by rw [hmap, hlen], fun hid => ?_⟩
  rw [hmap]
  have hsorted : ((jsSort (fun (a b : Vessel α) => b.capacity - a.capacity) vessels).map
      (fun v => v.id)).Nodup := (((jsSort_perm _ vessels).map _).nodup_iff).2 hid
  exact hsorted.sublist ((List.take_sublist _ _).map _)

/-- The end-to-end scenario: one route, of the vessel `V1`. -/
theorem optimizeShippingRoutes_distinct_vessels_witness :
    ∃ r, optimizeShippingRoutes testMath 2 scenario = .returned r
      ∧ r.routes.length ≤ [vesselV1].length
      ∧ (r.routes.map (fun route => route.vessel)).Nodup := by
  obtain ⟨rs, hrs, -⟩ := optimizeValidated_returns testMath [vesselV1] [portA, portB, portC]
    scenario (by simp) (by decide) distancesAreNumbers_ABC
  have h := optimizeShippingRoutes_distinct_vessels testMath 2 [vesselV1]
    [portA, portB, portC] none none (some { returnToStart := true }) _ (hrs 2 (by decide))
  exact ⟨_, hrs 2 (by decide), h.1, h.2.2.2 (by decide)⟩

end ShippingOptimizer
